import Mathlib

/-!
# ratelimit: a Redis-backed batched rate limiter

A shallow embedding of `ratelimit.go`.

* The Lua `SCRIPT` (the Window Allocator) is a function on a model of the
  Redis server: a clock in whole seconds (`TIME`), a keyspace of integer
  counters with an optional expiration deadline (`GET`, `INCRBY`, `EXPIRE`)
  and a script cache.
* `RedisRateLimiter`, `NewRedisRateLimiter`, `loadScript` and `Take` follow
  the Go code statement by statement.  The `*redis.Client` is a record of the
  three commands the code issues; each returns a reply and the next state of
  whatever is behind the client, so that a theorem quantified over all
  clients covers every reply and every failure the store can produce.

* Several Coordinators on one store are a `Cluster` that runs a list of
  `Step`s; the calls of one Coordinator against arbitrary stores are a list
  of `Call`s, each carrying the answers of the store (`Take_replay` shows
  that every `Take` call is of that form).

Numbers.  Values are mathematical integers and every operation of the code
is followed by what the machine does to its result.

* Go: `bucket.N` is an `int64`, and `b.N + count`, `b.N - int64(amount)` wrap
  around (`wrap64`).  `amount`, `throughput` and `batchSize` are `int`s, 64
  bits wide, so `int64(amount)` is `amount`.
* Lua: `tonumber` reads the decimal text of an integer into a double, the
  nearest one (`toDouble`), and `throughput - n` is rounded in the same way.
  Integers up to `2 ^ 53` in size are doubles; beyond, only some are.  A
  number handed to `INCRBY` goes there as text (`Redis.writes`).
* The server clock and the window duration are far inside the range in which
  Lua's division, `math.ceil` and `tostring` are exact (a Unix time in
  seconds; at most 9223372036 seconds, the largest `time.Duration`): the
  window identifier is computed on integers.  The script's `duration_secs`
  is modelled on its intended domain `duration_secs ≥ 1`
  (`NewRedisRateLimiter` clamps to it); theorems about the script carry that
  hypothesis.
-/

namespace Ratelimit

/-! ## Machine numbers -/

/-- Go `int64` arithmetic: the mathematical result of `+` or `-`, wrapped to
64 bits in two's complement. -/
def wrap64 (x : Int) : Int := (x + 2 ^ 63) % 2 ^ 64 - 2 ^ 63

/-- The multiple of `2 ^ e` nearest to `a`; half-way between two, the one
with the even quotient. -/
def roundTo (e a : Nat) : Nat :=
  let q := a / 2 ^ e
  let r := a % 2 ^ e
  if 2 * r < 2 ^ e ∨ (2 * r = 2 ^ e ∧ q % 2 = 0) then q * 2 ^ e else (q + 1) * 2 ^ e

/-- The number of binary digits `a` has beyond 53, counted up to `fuel`. -/
def excessBits : Nat → Nat → Nat
  | 0, _ => 0
  | fuel + 1, a => if a < 2 ^ 53 then 0 else excessBits fuel (a / 2) + 1

/-- The double nearest to the natural number `a`: `a` rounded to 53
significant binary digits, ties to even.  (Doubles end near `2 ^ 1024`; the
numbers of the program are below `2 ^ 64`.) -/
def nearest (a : Nat) : Nat := roundTo (excessBits 1024 a) a

/-- The double nearest to the integer `x`: what Lua's `tonumber` makes of the
decimal text of `x`, and what a Lua operation on doubles returns when its
exact result is `x`. -/
def toDouble (x : Int) : Int :=
  if 0 ≤ x then (nearest x.toNat : Int) else -(nearest (-x).toNat : Int)

/-! ## The Redis server -/

/-- A Go `error` value or a Redis error reply, identified by its message. -/
abbrev Err := String

/-- An integer-valued key of the store: its value and, when `EXPIRE` was
called on it, the server time (seconds) at which it stops to exist. -/
structure Entry where
  value : Int
  expireAt : Option Nat
deriving DecidableEq, Repr

/-- State of the Redis server: the clock read by `TIME` (whole seconds), the
keyspace, whether `SCRIPT` is in the script cache, and which large numbers
the server build writes in digits in command arguments (see
`Redis.writes`). -/
structure Redis where
  time : Nat
  db : String → Option Entry
  scriptLoaded : Bool
  large : Int → Bool

/-- An entry is visible at server time `now` while its deadline has not been
reached. -/
def Entry.live (e : Entry) (now : Nat) : Bool :=
  match e.expireAt with
  | none => true
  | some deadline => decide (now < deadline)

/-- Redis `GET key`: the value, or `none` (Lua `false`) when the key is absent
or expired. -/
def Redis.GET (s : Redis) (key : String) : Option Int :=
  match s.db key with
  | some e => if e.live s.time then some e.value else none
  | none => none

/-- Whether a command reads an integer where a script passed it the integral
Lua number `x`: `redis.call` writes the number as text and the command parses
the text as a 64-bit integer.  A number below `10 ^ 17` in size is written
with all its digits by every server.  Beyond, servers differ:
`printf("%.17g")` (up to Redis 6) switches to exponent notation, which no
command reads as an integer; Redis 7 writes integral numbers up to `2 ^ 62`
in size in digits.  That part is the field `large` of the server. -/
def Redis.writes (s : Redis) (x : Int) : Bool :=
  decide (-10 ^ 17 < x ∧ x < 10 ^ 17)
    || (s.large x && decide (-2 ^ 63 ≤ x ∧ x < 2 ^ 63))

/-- Redis `INCRBY key increment`, the increment being a Lua number: adds to
the value and keeps the deadline; an absent or expired key starts from 0
without a deadline.  The command fails, and changes nothing, when the
increment does not arrive as an integer or when the sum leaves the 64-bit
range. -/
def Redis.INCRBY (s : Redis) (key : String) (increment : Int) : Except Err Redis :=
  if s.writes increment = false then
    .error "ERR value is not an integer or out of range"
  else
    let e : Entry :=
      match s.db key with
      | some e => if e.live s.time then { e with value := e.value + increment }
                  else { value := increment, expireAt := none }
      | none => { value := increment, expireAt := none }
    if e.value < -2 ^ 63 ∨ 2 ^ 63 ≤ e.value then
      .error "ERR increment or decrement would overflow"
    else
      .ok { s with db := fun k => if k = key then some e else s.db k }

/-- Redis `EXPIRE key seconds`: on a visible key, sets the deadline to
`seconds` from now; a non-positive timeout deletes the key. -/
def Redis.EXPIRE (s : Redis) (key : String) (seconds : Int) : Redis :=
  match s.db key with
  | some e =>
    if e.live s.time then
      if seconds ≤ 0 then { s with db := fun k => if k = key then none else s.db k }
      else { s with db := fun k =>
               if k = key then some { e with expireAt := some (s.time + seconds.toNat) }
               else s.db k }
    else s
  | none => s

/-! ## The Window Allocator (`SCRIPT`) -/

/-- Lua `math.ceil(t / duration_secs)` for `duration_secs ≥ 1`. -/
def ceilDiv (t duration_secs : Int) : Int := -((-t) / duration_secs)

/-- The counter key of the script:
`key_prefix .. ":" .. tostring(math.ceil(tonumber(current_timestamp[1])/duration_secs))`. -/
def windowKey ( key_prefix : String) (current_timestamp duration_secs : Int) : String :=
  key_prefix ++ ":" ++ toString (ceilDiv current_timestamp duration_secs)

/-- The Lua script `SCRIPT`, run atomically by the server on `KEYS[1]` and the
integers written in `ARGV[1..3]`: the returned integer, or the error raised
by a failed `redis.call`, and the server state afterwards. -/
def SCRIPT ( key_prefix : String) (duration_secs throughput batch_size : Int)
    (s : Redis) : Except Err Int × Redis :=
  let current_timestamp : Int := s.time
  let throughput := toDouble throughput
  let batch_size := toDouble batch_size
  let key := windowKey key_prefix current_timestamp duration_secs
  let n : Int :=
    match s.GET key with
    | none => 0
    | some v => toDouble v
  if n ≥ throughput then
    (.ok 0, s)
  else
    let increment := min (toDouble (throughput - n)) batch_size
    match s.INCRBY key increment with
    | .error err => (.error err, s)
    | .ok s1 =>
      let s2 := s1.EXPIRE key (duration_secs * 3)
      (.ok increment, s2)

/-- The increment the script computes on a window whose counter `n` leaves
room: `math.min(throughput - n, batch_size)`, on the doubles read from the
three integers. -/
def SCRIPT.increment (throughput batch_size n : Int) : Int :=
  min (toDouble (toDouble throughput - toDouble n)) (toDouble batch_size)

/-- The counter of a key as stored: an absent key counts as 0. -/
def Redis.counter (s : Redis) (key : String) : Int :=
  match s.GET key with
  | none => 0
  | some v => v

/-- Remaining time-to-live of a key in seconds (Redis `TTL`): `none` when the
key is absent, expired or has no deadline. -/
def Redis.TTL (s : Redis) (key : String) : Option Nat :=
  match s.db key with
  | some e =>
    if e.live s.time then
      match e.expireAt with
      | some deadline => some (deadline - s.time)
      | none => none
    else none
  | none => none

/-! ## The store client -/

/-- The value of a successful `EvalSha`: an integer reply (Go `int64`) or any
reply of another shape. -/
inductive Reply
  | int (n : Int)
  | other
deriving DecidableEq, Repr

/-- The commands `ratelimit.go` issues through `*redis.Client`, each followed
by `.Result()`.  A command returns a value or an error, and the next state
of whatever is behind the client.  `ScriptExists` is asked about one hash and
answers with its one flag (`exist[0]`); `ScriptLoad` is always given `SCRIPT`
and answers with the script's identifier. -/
structure Client (σ : Type) where
  ScriptExists : String → σ → Except Err Bool × σ
  ScriptLoad : σ → Except Err String × σ
  EvalSha : String → List String → List Int → σ → Except Err Reply × σ

/-- One exchange with the store: the command, its arguments and its outcome. -/
inductive Event
  | scriptExists (sha : String) (reply : Except Err Bool)
  | scriptLoad (reply : Except Err String)
  | evalSha (sha : String) (keys : List String) (args : List Int) (reply : Except Err Reply)

/-- The client `c` with a journal: every command issued is appended, with its
outcome, to the list carried next to the state. -/
def Client.logging {σ : Type} (c : Client σ) : Client (σ × List Event) where
  ScriptExists := fun sha st =>
    let out := c.ScriptExists sha st.1
    (out.1, (out.2, st.2 ++ [Event.scriptExists sha out.1]))
  ScriptLoad := fun st =>
    let out := c.ScriptLoad st.1
    (out.1, (out.2, st.2 ++ [Event.scriptLoad out.1]))
  EvalSha := fun sha keys args st =>
    let out := c.EvalSha sha keys args st.1
    (out.1, (out.2, st.2 ++ [Event.evalSha sha keys args out.1]))

/-- Whether an exchange is an Allocator invocation. -/
def Event.isEvalSha : Event → Bool
  | .evalSha _ _ _ _ => true
  | _ => false

/-- Whether an exchange is an Allocator invocation answered with a positive
count. -/
def Event.isPositiveGrant : Event → Bool
  | .evalSha _ _ _ (.ok (.int n)) => decide (0 < n)
  | _ => false

/-! ## The Coordinator -/

/-- `fmt.Sprintf("%x", sha1.Sum([]byte(SCRIPT)))`: the SHA-1 of the script
text, in lower-case hexadecimal. -/
def SCRIPT_SHA1 : String := "2c08a62a394f2be3d11131070fbff7ada542dab3"

/-- Go `type bucket struct`; `N` is an `int64`. -/
structure bucket where
  keyPrefix : String
  N : Int
deriving DecidableEq, Repr

/-- Go `type RedisRateLimiter struct`, without the client handle (passed to
the methods) and the mutex (every method body is one atomic step). -/
structure RedisRateLimiter where
  scriptSHA1 : String
  durationSecs : Int
  throughput : Int
  batchSize : Int
  keyPrefix : String
  buckets : String → Option bucket

/-- Go `time.Second`, in nanoseconds. -/
def Second : Int := 1000000000

/-- Go `NewRedisRateLimiter`; `duration` is a `time.Duration` in nanoseconds
and `/` on Go integers truncates toward zero. -/
def NewRedisRateLimiter (keyPrefix : String) (duration : Int) (throughput batchSize : Int) :
    RedisRateLimiter :=
  let durationSecs := Int.tdiv duration Second
  let durationSecs := if durationSecs < 1 then 1 else durationSecs
  { scriptSHA1 := ""
    durationSecs := durationSecs
    throughput := throughput
    batchSize := batchSize
    keyPrefix := keyPrefix
    buckets := fun _ => none }

/-- Assignment `r.buckets[token] = b` (or the update of `*b` in place). -/
def RedisRateLimiter.setBucket (r : RedisRateLimiter) (token : String) (b : bucket) :
    RedisRateLimiter :=
  { r with buckets := fun k => if k = token then some b else r.buckets k }

/-- The remaining count cached for a token; 0 when it has no bucket. -/
def RedisRateLimiter.remaining (r : RedisRateLimiter) (token : String) : Int :=
  match r.buckets token with
  | some b => b.N
  | none => 0

/-- Go `(*RedisRateLimiter).loadScript`: the returned `error` (`none` is
`nil`), the receiver and the store afterwards.  A failed `.Result()` yields
the zero value next to the error, so a failed load assigns `""`. -/
def loadScript {σ : Type} (c : Client σ) (r : RedisRateLimiter) (s : σ) :
    Option Err × RedisRateLimiter × σ :=
  let sha1 := SCRIPT_SHA1
  match c.ScriptExists sha1 s with
  | (.error err, s1) => (some err, r, s1)
  | (.ok exist, s1) =>
    if exist then
      (none, { r with scriptSHA1 := sha1 }, s1)
    else
      match c.ScriptLoad s1 with
      | (.ok v, s2) => (none, { r with scriptSHA1 := v }, s2)
      | (.error err, s2) => (some err, { r with scriptSHA1 := "" }, s2)

/-- What a `Take` call does: it returns `(granted, err)`, or the type
assertion `val.(int64)` panics. -/
inductive Result
  | ret (granted : Bool) (err : Option Err)
  | panicked
deriving DecidableEq, Repr

/-- Whether a `Take` call returned `granted = true`. -/
def Result.granted : Result → Bool
  | .ret granted _ => granted
  | .panicked => false

/-- Lines 121-142 of `Take`: the Allocator invocation and the merge of its
grant; `b` is the bucket found by the lookup (`exist` is `b.isSome`). -/
def Take.refill {σ : Type} (c : Client σ) (r : RedisRateLimiter) (token : String)
    (amount : Int) (b : Option bucket) (s : σ) : Result × RedisRateLimiter × σ :=
  match c.EvalSha r.scriptSHA1 [token] [r.durationSecs, r.throughput, r.batchSize] s with
  | (.error err, s1) => (.ret false (some err), r, s1)
  | (.ok .other, s1) => (.panicked, r, s1)
  | (.ok (.int count), s1) =>
    if count ≤ 0 then
      (.ret false none, r, s1)
    else
      let b1 : bucket :=
        match b with
        | some b => { b with N := wrap64 (b.N + count) }
        | none => { keyPrefix := r.keyPrefix ++ ":" ++ token, N := count }
      if b1.N ≥ amount then
        (.ret true none, r.setBucket token { b1 with N := wrap64 (b1.N - amount) }, s1)
      else
        (.ret false none, r.setBucket token b1, s1)

/-- Lines 109-113 of `Take`: the script is registered when no identifier is
held yet; the `error` of `loadScript`, if any. -/
def Take.register {σ : Type} (c : Client σ) (r : RedisRateLimiter) (s : σ) :
    Option Err × RedisRateLimiter × σ :=
  if r.scriptSHA1 = "" then loadScript c r s else (none, r, s)

/-- Go `(*RedisRateLimiter).Take`: the result, the receiver and the store
afterwards. -/
def Take {σ : Type} (c : Client σ) (r : RedisRateLimiter) (token : String) (amount : Int)
    (s : σ) : Result × RedisRateLimiter × σ :=
  match Take.register c r s with
  | (some err, r1, s1) => (.ret false (some err), r1, s1)
  | (none, r1, s1) =>
    match r1.buckets token with
    | some b =>
      if b.N ≥ amount then
        (.ret true none, r1.setBucket token { b with N := wrap64 (b.N - amount) }, s1)
      else
        Take.refill c r1 token amount (some b) s1
    | none => Take.refill c r1 token amount none s1

/-- The exchanges with the store made by one `Take` call, in order. -/
def Take.journal {σ : Type} (c : Client σ) (r : RedisRateLimiter) (token : String)
    (amount : Int) (s : σ) : List Event :=
  (Take c.logging r token amount (s, [])).2.2.2

/-! ## The Coordinator connected to the Redis server -/

/-- Redis `SCRIPT EXISTS sha`. -/
def Redis.scriptExists (s : Redis) (sha : String) : Bool :=
  s.scriptLoaded && decide (sha = SCRIPT_SHA1)

/-- Redis `SCRIPT LOAD` of `SCRIPT`: caches the script and answers with its
SHA-1. -/
def Redis.scriptLoad (s : Redis) : String × Redis :=
  (SCRIPT_SHA1, { s with scriptLoaded := true })

/-- Redis `EVALSHA sha 1 key arg...`: runs `SCRIPT` when it is cached under
`sha`; otherwise `NOSCRIPT`.  A call without the one key and three numbers
makes the script raise an error before its first write. -/
def Redis.evalSha (s : Redis) (sha : String) (keys : List String) (args : List Int) :
    Except Err Reply × Redis :=
  if s.scriptLoaded = true ∧ sha = SCRIPT_SHA1 then
    match keys, args with
    | [ key_prefix], [duration_secs, throughput, batch_size] =>
      let out := SCRIPT key_prefix duration_secs throughput batch_size s
      match out.1 with
      | .ok n => (.ok (.int n), out.2)
      | .error err => (.error err, out.2)
    | _, _ => (.error "ERR Error running script", s)
  else
    (.error "NOSCRIPT No matching script. Please use EVAL.", s)

/-- What the network does to one command. -/
inductive Fault
  | delivered
  | requestLost (err : Err)
  | replyLost (err : Err)
deriving DecidableEq, Repr

/-- The fate of each of the three commands a `Take` call may issue. -/
structure Net where
  scriptExists : Fault
  scriptLoad : Fault
  evalSha : Fault
deriving DecidableEq, Repr

/-- A network without failures. -/
def Net.reliable : Net := ⟨.delivered, .delivered, .delivered⟩

/-- A command sent over the network: a lost request leaves the server
untouched, a lost reply hides a command that did run. -/
def Fault.send {α : Type} (f : Fault) (command : Redis → Except Err α × Redis) (s : Redis) :
    Except Err α × Redis :=
  match f with
  | .delivered => command s
  | .requestLost err => (.error err, s)
  | .replyLost err => (.error err, (command s).2)

/-- The go-redis client talking to the modelled server over `net`. -/
def redisClient (net : Net) : Client Redis where
  ScriptExists := fun sha => net.scriptExists.send (fun s => (.ok (s.scriptExists sha), s))
  ScriptLoad := net.scriptLoad.send (fun s => (.ok s.scriptLoad.1, s.scriptLoad.2))
  EvalSha := fun sha keys args => net.evalSha.send (fun s => s.evalSha sha keys args)

/-- A `Take` call that returned `granted = true`, with the window in which the
server clock stood when it ran. -/
structure Grant where
  window : Int
  token : String
  amount : Int
deriving DecidableEq, Repr

/-- Any number of Coordinators (processes) sharing one Redis server, and the
grants made so far. -/
structure Cluster where
  redis : Redis
  limiters : List RedisRateLimiter
  granted : List Grant

/-- One event of a run: the server clock advances, or Coordinator `i` runs
`Take(token, amount)`.  A `Take` holds its Coordinator's mutex, touches only
that Coordinator and reaches the store through at most one atomic script
execution, so concurrent calls are serialised by the lock and the store. -/
inductive Step
  | tick (seconds : Nat)
  | take (i : Nat) (token : String) (amount : Int) (net : Net)

/-- Effect of one event on the cluster. -/
def Cluster.step (cl : Cluster) : Step → Cluster
  | .tick seconds => { cl with redis := { cl.redis with time := cl.redis.time + seconds } }
  | .take i token amount net =>
    match cl.limiters.get? i with
    | none => cl
    | some r =>
      let out := Take (redisClient net) r token amount cl.redis
      { redis := out.2.2
        limiters := cl.limiters.set i out.2.1
        granted :=
          if out.1.granted then
            cl.granted ++ [⟨ceilDiv cl.redis.time r.durationSecs, token, amount⟩]
          else cl.granted }

/-- Effect of a sequence of events. -/
def Cluster.run (cl : Cluster) (steps : List Step) : Cluster :=
  steps.foldl Cluster.step cl

/-- An empty store at server time `t0` (a server that writes no number from
`10 ^ 17` on as an integer) and one freshly constructed Coordinator per key
prefix, all with the same duration, throughput and batch size. -/
def Cluster.fresh (t0 : Nat) (prefixes : List String) (duration throughput batchSize : Int) :
    Cluster :=
  { redis := { time := t0, db := fun _ => none, scriptLoaded := false, large := fun _ => false }
    limiters := prefixes.map (fun p => NewRedisRateLimiter p duration throughput batchSize)
    granted := [] }

/-- Sum of the amounts of the granted `Take` calls for `token` that ran during
window `w`. -/
def grantedIn (w : Int) (token : String) (log : List Grant) : Int :=
  ((log.filter (fun g => decide (g.window = w ∧ g.token = token))).map Grant.amount).sum

/-- Sum over all Coordinators of the permits cached for `token`: the
remaining count of its bucket, a negative count holding none. -/
def cached (token : String) (limiters : List RedisRateLimiter) : Int :=
  (limiters.map (fun r => max (r.remaining token) 0)).sum

/-- The state of the counter of one window key: absent, standing for `v = 0`,
or holding `v` with a deadline later than every time of window `w`. -/
def windowEntry (d w : Int) (entry : Option Entry) (v : Int) : Prop :=
  (entry = none ∧ v = 0)
    ∨ ∃ dl : Nat, entry = some ⟨v, some dl⟩ ∧ ∀ t2 : Nat, ceilDiv t2 d = w → t2 < dl

/-- What holds of a cluster all along window `w`, for one token: the
Coordinators share the configuration and hold `int64` counts for the token,
and what was granted in the window plus what is still cached is covered by
what was cached at the start, `carry`, plus the window counter `v` of the
token, which respects the throughput; with a negative batch size, by `carry`
alone. -/
def windowInv (d throughput batchSize w : Int) (token : String) (carry : Int)
    (cl : Cluster) : Prop :=
  (∀ r ∈ cl.limiters, r.durationSecs = d ∧ r.throughput = throughput
      ∧ r.batchSize = batchSize ∧ -2 ^ 63 ≤ r.remaining token)
    ∧ ∃ v : Int, windowEntry d w (cl.redis.db (token ++ ":" ++ toString w)) v
        ∧ ((0 ≤ batchSize ∧ 0 ≤ v ∧ v ≤ throughput
              ∧ grantedIn w token cl.granted + cached token cl.limiters ≤ carry + v)
          ∨ (batchSize < 0
              ∧ grantedIn w token cl.granted + cached token cl.limiters ≤ carry))

/-- The states a Coordinator can be in: the freshly constructed one, and those
produced by `Take` calls (any token, any amount, any replies and errors)
against a store whose successful `SCRIPT LOAD` answers with a non-empty
identifier, as Redis does with the SHA-1 of the script. -/
inductive Reachable : RedisRateLimiter → Prop
  | fresh (keyPrefix : String) (duration throughput batchSize : Int) :
      Reachable (NewRedisRateLimiter keyPrefix duration throughput batchSize)
  | take {σ : Type} (c : Client σ) (r : RedisRateLimiter) (token : String) (amount : Int)
      (s : σ) (hload : ∀ s0 v, (c.ScriptLoad s0).1 = .ok v → v ≠ "") :
      Reachable r → Reachable (Take c r token amount s).2.1

/-- The increment an execution of the script performed: the integer it
returned, nothing when it failed. -/
def performed : Except Err Int → Int
  | .ok increment => increment
  | .error _ => 0

/-- Run of a sequence of Allocator executions for one key prefix, each at its
own server time and with its own batch size: the sum of the returned
increments and the store afterwards. -/
def allocate ( key_prefix : String) (duration_secs throughput : Int) :
    List (Nat × Int) → Redis → Int × Redis
  | [], s => (0, s)
  | (t, batch_size) :: rest, s =>
    let out := SCRIPT key_prefix duration_secs throughput batch_size { s with time := t }
    let tail := allocate key_prefix duration_secs throughput rest out.2
    (performed out.1 + tail.1, tail.2)

/-- The bucket after a positive count is merged into what the lookup found
(lines 131-136 of `Take`). -/
def merged (r : RedisRateLimiter) (token : String) (b : Option bucket) (count : Int) : bucket :=
  match b with
  | some b => { b with N := wrap64 (b.N + count) }
  | none => { keyPrefix := r.keyPrefix ++ ":" ++ token, N := count }

/-- The value of a decimal digit character. -/
def digitValue (c : Char) : Nat := c.toNat - 48

/-- The number written by a list of decimal digit characters, read from the
left starting at `acc`. -/
def digitsValue (acc : Nat) : List Char → Nat
  | [] => acc
  | c :: rest => digitsValue (acc * 10 + digitValue c) rest

/-! ## Histories of one Coordinator -/

/-- What the store answers to the commands of one `Take` call: to the
existence check, to the load and to the Allocator invocation, should the call
issue them. -/
structure Replies where
  scriptExists : Except Err Bool
  scriptLoad : Except Err String
  evalSha : Except Err Reply

/-- A store that answers as prescribed.  Every `Take` call against any client
is a `Take` call against such a store (`Take_replay`). -/
def Client.replay (p : Replies) : Client Unit where
  ScriptExists := fun _ s => (p.scriptExists, s)
  ScriptLoad := fun s => (p.scriptLoad, s)
  EvalSha := fun _ _ _ s => (p.evalSha, s)

/-- The answers a client gives to the commands of `Take c r token amount s`. -/
def Replies.of {σ : Type} (c : Client σ) (r : RedisRateLimiter) (token : String) (s : σ) :
    Replies where
  scriptExists := (c.ScriptExists SCRIPT_SHA1 s).1
  scriptLoad := (c.ScriptLoad (c.ScriptExists SCRIPT_SHA1 s).2).1
  evalSha :=
    (c.EvalSha (Take.register c r s).2.1.scriptSHA1 [token]
      [r.durationSecs, r.throughput, r.batchSize] (Take.register c r s).2.2).1

/-- One `Take` call of a history: its arguments and what the store answers. -/
structure Call where
  token : String
  amount : Int
  replies : Replies

/-- The result of a call made in state `r`. -/
def Call.result (call : Call) (r : RedisRateLimiter) : Result :=
  (Take (Client.replay call.replies) r call.token call.amount ()).1

/-- The Coordinator after a call made in state `r`. -/
def Call.after (call : Call) (r : RedisRateLimiter) : RedisRateLimiter :=
  (Take (Client.replay call.replies) r call.token call.amount ()).2.1

/-- The exchanges with the store of a call made in state `r`. -/
def Call.journal (call : Call) (r : RedisRateLimiter) : List Event :=
  Take.journal (Client.replay call.replies) r call.token call.amount ()

/-- The Coordinator after a sequence of calls. -/
def RedisRateLimiter.after (r : RedisRateLimiter) : List Call → RedisRateLimiter
  | [] => r
  | call :: rest => RedisRateLimiter.after (call.after r) rest

/-- A call as it happened: arguments, result and exchanges with the store. -/
structure Played where
  call : Call
  result : Result
  journal : List Event

/-- The calls of a history as they happened, starting in state `r`. -/
def RedisRateLimiter.trace (r : RedisRateLimiter) : List Call → List Played
  | [] => []
  | call :: rest =>
    ⟨call, call.result r, call.journal r⟩ :: RedisRateLimiter.trace (call.after r) rest

/-- The positive count an exchange brought in for `token`: the count returned
by an Allocator invocation made with that token as its key, when positive. -/
def Event.grantFor (token : String) : Event → Int
  | .evalSha _ keys _ (.ok (.int n)) => if keys = [token] ∧ 0 < n then n else 0
  | _ => 0

/-- Sum of the positive counts returned by the Allocator invocations made for
`token` in a history. -/
def obtained (token : String) (history : List Played) : Int :=
  (history.map (fun p => (p.journal.map (Event.grantFor token)).sum)).sum

/-- Sum of the amounts of the calls for `token` that returned `granted =
true` in a history. -/
def consumed (token : String) (history : List Played) : Int :=
  (history.map (fun p =>
    if p.result.granted = true ∧ p.call.token = token then p.call.amount else 0)).sum

/-- Number of Allocator invocations made in a history. -/
def invocations (history : List Played) : Nat :=
  (history.map (fun p => (p.journal.filter Event.isEvalSha).length)).sum

/-- Consecutive `Take(token, amount)` calls of one Coordinator, `k` of them,
each on the store the previous one left: the calls as they happened, the
Coordinator and the store afterwards. -/
def consecutive {σ : Type} (c : Client σ) (token : String) (amount : Int) :
    Nat → RedisRateLimiter → σ → List Played × RedisRateLimiter × σ
  | 0, r, s => ([], r, s)
  | k + 1, r, s =>
    let out := Take c r token amount s
    let rest := consecutive c token amount k out.2.1 out.2.2
    (⟨⟨token, amount, Replies.of c r token s⟩, out.1, Take.journal c r token amount s⟩ :: rest.1,
      rest.2)

/-! ## Concrete states used in examples -/

/-- The smallest `int64`, Go's `math.MinInt64`. -/
def Example.minInt64 : Int := -9223372036854775808

/-- The largest `int64`, Go's `math.MaxInt64`. -/
def Example.maxInt64 : Int := 9223372036854775807

/-- An empty store at server time 1, nothing in the script cache; a server
that writes no number from `10 ^ 17` on as an integer. -/
def Example.redis0 : Redis := ⟨1, fun _ => none, false, fun _ => false⟩

/-- A fresh Coordinator: duration 1 s, throughput 100, batch size 10. -/
def Example.limiter0 : RedisRateLimiter := NewRedisRateLimiter "p" Second 100 10

/-- The first `Take("u1", 5)` of that Coordinator on the empty store. -/
def Example.first : Result × RedisRateLimiter × Redis :=
  Take (redisClient .reliable) Example.limiter0 "u1" 5 Example.redis0

/-- A fresh Coordinator: duration 1 s, throughput 5, batch size 10. -/
def Example.small0 : RedisRateLimiter := NewRedisRateLimiter "p" Second 5 10

/-- Its first `Take("u1", 5)` on the empty store, which uses up the window. -/
def Example.smallFirst : Result × RedisRateLimiter × Redis :=
  Take (redisClient .reliable) Example.small0 "u1" 5 Example.redis0

/-- Two fresh Coordinators on an empty store at server time 7: duration 2 s,
throughput 10, batch size 4. -/
def Example.pair : Cluster := Cluster.fresh 7 ["p", "q"] (2 * Second) 10 4

/-- Calls of both Coordinators for one token, all inside window 4 (server
times 7 and 8). -/
def Example.busy : List Step :=
  [.take 0 "u1" 3 .reliable, .take 1 "u1" 4 .reliable, .tick 1, .take 0 "u1" 2 .reliable,
    .take 1 "u1" 1 .reliable, .take 0 "u1" 1 .reliable, .take 1 "u1" 2 .reliable]

/-- Two fresh Coordinators on an empty store at server time 1: duration 1 s,
throughput 10, batch size 10. -/
def Example.hoarders : Cluster := Cluster.fresh 1 ["p", "q"] Second 10 10

/-- Coordinator 0 takes 1 in window 1 and keeps 9; in window 2 it spends the
9 and Coordinator 1 takes 10. -/
def Example.carryOver : List Step :=
  [.take 0 "u1" 1 .reliable, .tick 1, .take 0 "u1" 9 .reliable, .take 1 "u1" 10 .reliable]

/-- The second `Take("u1", 5)` of the example Coordinator, right after the
first. -/
def Example.second : Result × RedisRateLimiter × Redis :=
  Take (redisClient .reliable) Example.first.2.1 "u1" 5 Example.first.2.2

/-- The third `Take("u1", 5)` of the example Coordinator. -/
def Example.third : Result × RedisRateLimiter × Redis :=
  Take (redisClient .reliable) Example.second.2.1 "u1" 5 Example.second.2.2

/-- A `Take("u1", 25)` of the fresh example Coordinator (batch size 10) on the
empty store. -/
def Example.refused : Result × RedisRateLimiter × Redis :=
  Take (redisClient .reliable) Example.limiter0 "u1" 25 Example.redis0

/-- The same `Take("u1", 25)` once more. -/
def Example.refusedAgain : Result × RedisRateLimiter × Redis :=
  Take (redisClient .reliable) Example.refused.2.1 "u1" 25 Example.refused.2.2

/-- A Coordinator with key prefix `"p"` takes 10 for token `"u1"` on the empty
store: duration 1 s, throughput 10, batch size 10. -/
def Example.tenantP : Result × RedisRateLimiter × Redis :=
  Take (redisClient .reliable) (NewRedisRateLimiter "p" Second 10 10) "u1" 10 Example.redis0

/-- Then a Coordinator with key prefix `"q"` and the same configuration takes
1 for token `"u1"` on the store the first one left. -/
def Example.tenantQ : Result × RedisRateLimiter × Redis :=
  Take (redisClient .reliable) (NewRedisRateLimiter "q" Second 10 10) "u1" 1
    Example.tenantP.2.2

/-- A `Take("u1", 5)` that registers the script and is granted a batch of 10
by the Allocator. -/
def Example.call1 : Call := ⟨"u1", 5, ⟨.ok false, .ok SCRIPT_SHA1, .ok (.int 10)⟩⟩

/-- A `Take("u1", 5)` against a store that would fail every command. -/
def Example.call2 : Call := ⟨"u1", 5, ⟨.error "unused", .error "unused", .error "unused"⟩⟩

/-- A `Take("u2", 3)` that is granted 2 by the Allocator. -/
def Example.call3 : Call := ⟨"u2", 3, ⟨.error "unused", .error "unused", .ok (.int 2)⟩⟩

/-- A history of three calls: the first is granted, the second is served from
the bucket, the third is refused and keeps its 2 permits. -/
def Example.calls : List Call := [Example.call1, Example.call2, Example.call3]

/-- A `Take("u1", math.MinInt64)` against a store that would fail every
command. -/
def Example.callMin : Call :=
  ⟨"u1", Example.minInt64, ⟨.error "unused", .error "unused", .error "unused"⟩⟩

/-- A history of two calls: a `Take("u1", 5)` granted a batch of 10, then a
`Take("u1", math.MinInt64)` served from the bucket that holds 5. -/
def Example.wrapping : List Call := [Example.call1, Example.callMin]

/-- The `Take("u1", math.MinInt64)` of the example Coordinator after its
first call left 5 in the bucket. -/
def Example.underflow : Result × RedisRateLimiter × Redis :=
  Take (redisClient .reliable) Example.first.2.1 "u1" Example.minInt64 Example.first.2.2

/-- The first `Take("u1", math.MinInt64)` of the fresh example Coordinator on
the empty store. -/
def Example.firstMin : Result × RedisRateLimiter × Redis :=
  Take (redisClient .reliable) Example.limiter0 "u1" Example.minInt64 Example.redis0

/-- The script with throughput and batch size `2 ^ 53 + 1` on the empty
store, duration 1 s. -/
def Example.rounded : Except Err Int × Redis :=
  SCRIPT "u1" 1 9007199254740993 9007199254740993 Example.redis0

/-- A fresh Coordinator: duration 1 s, throughput 12, batch size 10. -/
def Example.tight0 : RedisRateLimiter := NewRedisRateLimiter "p" Second 12 10

/-- Its first `Take("u1", 5)` on the empty store. -/
def Example.tightFirst : Result × RedisRateLimiter × Redis :=
  Take (redisClient .reliable) Example.tight0 "u1" 5 Example.redis0

/-- Its second `Take("u1", 5)`. -/
def Example.tightSecond : Result × RedisRateLimiter × Redis :=
  Take (redisClient .reliable) Example.tightFirst.2.1 "u1" 5 Example.tightFirst.2.2

/-- Its third `Take("u1", 5)`. -/
def Example.tightThird : Result × RedisRateLimiter × Redis :=
  Take (redisClient .reliable) Example.tightSecond.2.1 "u1" 5 Example.tightSecond.2.2

/-- Its fourth `Take("u1", 5)`. -/
def Example.tightFourth : Result × RedisRateLimiter × Redis :=
  Take (redisClient .reliable) Example.tightThird.2.1 "u1" 5 Example.tightThird.2.2

/-! ## Machine numbers: results -/

/-- Within the `int64` range nothing wraps. -/
theorem wrap64_of_range (x : Int) (h1 : -2 ^ 63 ≤ x) (h2 : x < 2 ^ 63) : wrap64 x = x := by
  unfold wrap64
  omega

/-- A wrapped value is an `int64`. -/
theorem wrap64_range (x : Int) : -2 ^ 63 ≤ wrap64 x ∧ wrap64 x < 2 ^ 63 := by
  unfold wrap64
  omega

/-- A value that is not below the `int64` range does not grow by wrapping. -/
theorem wrap64_le (x : Int) (h : -2 ^ 63 ≤ x) : wrap64 x ≤ x := by
  unfold wrap64
  omega

/-- Wrapping changes a value by a multiple of `2 ^ 64`. -/
theorem wrap64_mod (x : Int) : (wrap64 x - x) % 2 ^ 64 = 0 := by
  unfold wrap64
  omega

/-- A natural number of at most 53 binary digits has no excess digit. -/
theorem excessBits_small (fuel a : Nat) (h : a < 2 ^ 53) : excessBits fuel a = 0 := by
  cases fuel with
  | zero => rfl
  | succ fuel =>
    show (if a < 2 ^ 53 then 0 else excessBits fuel (a / 2) + 1) = 0
    rw [if_pos h]

/-- A natural number of more than 53 binary digits has one excess digit more
than its half. -/
theorem excessBits_large (fuel a : Nat) (h : 2 ^ 53 ≤ a) :
    excessBits (fuel + 1) a = excessBits fuel (a / 2) + 1 := by
  show (if a < 2 ^ 53 then 0 else excessBits fuel (a / 2) + 1) = _
  rw [if_neg (by omega)]

/-- Rounding to a multiple of `2 ^ e` yields at least the multiple below. -/
theorem roundTo_ge (e a : Nat) : a / 2 ^ e * 2 ^ e ≤ roundTo e a := by
  unfold roundTo
  simp only
  split
  · exact le_refl _
  · exact Nat.mul_le_mul_right _ (Nat.le_succ _)

/-- The quotient kept by the rounding of a number of more than 53 binary
digits has at least 53 of them. -/
theorem excessBits_quotient (fuel : Nat) :
    ∀ a : Nat, 2 ^ 53 ≤ a → 2 ^ 52 ≤ a / 2 ^ excessBits fuel a := by
  induction fuel with
  | zero =>
    intro a h
    simp only [excessBits, pow_zero, Nat.div_one]
    omega
  | succ fuel ih =>
    intro a h
    rw [excessBits_large fuel a h]
    have hdiv : a / 2 ^ (excessBits fuel (a / 2) + 1) = a / 2 / 2 ^ excessBits fuel (a / 2) := by
      rw [pow_succ, Nat.mul_comm, Nat.div_div_eq_div_mul]
    rw [hdiv]
    by_cases h2 : a / 2 < 2 ^ 53
    · rw [excessBits_small fuel _ h2]
      simp only [pow_zero, Nat.div_one]
      omega
    · exact ih (a / 2) (by omega)

/-- Natural numbers up to `2 ^ 53` are doubles. -/
theorem nearest_small (a : Nat) (h : a ≤ 2 ^ 53) : nearest a = a := by
  rcases Nat.lt_or_ge a (2 ^ 53) with hlt | hge
  · unfold nearest
    rw [excessBits_small _ _ hlt]
    simp [roundTo, Nat.mod_one]
  · have : a = 2 ^ 53 := by omega
    subst this
    decide

/-- The double nearest to a natural number from `2 ^ 53` on is at least
`2 ^ 53`. -/
theorem nearest_large (a : Nat) (h : 2 ^ 53 ≤ a) : 2 ^ 53 ≤ nearest a := by
  unfold nearest
  have hq := excessBits_quotient 1024 a h
  have he : 1 ≤ excessBits 1024 a := by
    rw [excessBits_large 1023 a h]
    omega
  refine le_trans ?_ (roundTo_ge _ a)
  calc 2 ^ 53 = 2 ^ 52 * 2 ^ 1 := by norm_num
    _ ≤ a / 2 ^ excessBits 1024 a * 2 ^ excessBits 1024 a :=
        Nat.mul_le_mul hq (Nat.pow_le_pow_right (by norm_num) he)

/-- Integers up to `2 ^ 53` in size are doubles: `tonumber` reads them
exactly. -/
theorem toDouble_of_small (x : Int) (h1 : -2 ^ 53 ≤ x) (h2 : x ≤ 2 ^ 53) : toDouble x = x := by
  unfold toDouble
  split
  · rw [nearest_small _ (by omega)]
    omega
  · rw [nearest_small _ (by omega)]
    omega

/-- An integer from `2 ^ 53` on is read as a double that is at least
`2 ^ 53`. -/
theorem toDouble_large (x : Int) (h : 2 ^ 53 ≤ x) : 2 ^ 53 ≤ toDouble x := by
  unfold toDouble
  rw [if_pos (by omega)]
  have := nearest_large x.toNat (by omega)
  omega

/-- An integer up to `-2 ^ 53` is read as a double that is at most
`-2 ^ 53`. -/
theorem toDouble_large_neg (x : Int) (h : x ≤ -2 ^ 53) : toDouble x ≤ -2 ^ 53 := by
  unfold toDouble
  rw [if_neg (by omega)]
  have := nearest_large (-x).toNat (by omega)
  omega

/-- Reading an integer as a double keeps its sign, and does not bring a
positive integer below 1 nor a negative one above -1. -/
theorem toDouble_sign (x : Int) :
    (0 ≤ x → 0 ≤ toDouble x) ∧ (1 ≤ x → 1 ≤ toDouble x) ∧ (x ≤ -1 → toDouble x ≤ -1) := by
  refine ⟨?_, ?_, ?_⟩
  · intro h
    by_cases hs : x ≤ 2 ^ 53
    · rw [toDouble_of_small x (by omega) hs]; exact h
    · have := toDouble_large x (by omega); omega
  · intro h
    by_cases hs : x ≤ 2 ^ 53
    · rw [toDouble_of_small x (by omega) hs]; exact h
    · have := toDouble_large x (by omega); omega
  · intro h
    by_cases hs : -2 ^ 53 ≤ x
    · rw [toDouble_of_small x hs (by omega)]; exact h
    · have := toDouble_large_neg x (by omega); omega

/-- The values behind the names: `2 ^ 53 + 1` and `2 ^ 53 + 3` are read as
`2 ^ 53` and `2 ^ 53 + 4`, the largest `int64` as `2 ^ 63`; `5 - MinInt64`
wraps to `MinInt64 + 5`. -/
theorem Example.numbers :
    toDouble 9007199254740993 = 9007199254740992
      ∧ toDouble 9007199254740995 = 9007199254740996
      ∧ toDouble Example.maxInt64 = 9223372036854775808
      ∧ toDouble 100 = 100
      ∧ wrap64 (5 - Example.minInt64) = -9223372036854775803
      ∧ wrap64 (5 - 3) = 2
      ∧ (9007199254740992 : Int) = 2 ^ 53
      ∧ Example.minInt64 = -2 ^ 63 ∧ Example.maxInt64 = 2 ^ 63 - 1 := by
  decide

/-! ## The Window Allocator: results -/

/-- The window identifier `ceilDiv t d` is `w` exactly on the times
`(w - 1) * d < t ≤ w * d`. -/
theorem ceilDiv_eq_iff (t d w : Int) (hd : 1 ≤ d) :
    ceilDiv t d = w ↔ (w - 1) * d < t ∧ t ≤ w * d := by
  unfold ceilDiv
  have hpos : 0 < d := by omega
  have h1 : (-t) / d * d ≤ -t := Int.ediv_mul_le (-t) (by omega)
  have h2 : -t < ((-t) / d + 1) * d := Int.lt_ediv_add_one_mul_self (-t) hpos
  constructor
  · intro h
    subst h
    constructor
    · nlinarith
    · nlinarith
  · rintro ⟨ha, hb⟩
    have h3 : (-t) / d < -w + 1 := by
      by_contra hcon
      have : (-w + 1) * d ≤ (-t) / d * d := by
        apply mul_le_mul_of_nonneg_right (by omega) (by omega)
      nlinarith
    have h4 : -w - 1 < (-t) / d := by
      by_contra hcon
      have : ((-t) / d + 1) * d ≤ (-w) * d := by
        apply mul_le_mul_of_nonneg_right (by omega) (by omega)
      nlinarith
    omega

/-- A deadline set `3 * d` seconds after a time of window `w` lies beyond
every time of window `w`. -/
theorem deadline_beyond_window (t t2 : Nat) (d w : Int) (hd : 1 ≤ d)
    (ht : ceilDiv t d = w) (ht2 : ceilDiv t2 d = w) : t2 < t + (d * 3).toNat := by
  have h1 := (ceilDiv_eq_iff t d w hd).mp ht
  have h2 := (ceilDiv_eq_iff t2 d w hd).mp ht2
  have h3 : ((d * 3).toNat : Int) = d * 3 := Int.toNat_of_nonneg (by omega)
  have : (t2 : Int) < t + (d * 3).toNat := by
    rw [h3]
    nlinarith
  exact_mod_cast this

/-- The script reads an absent counter as the double 0. -/
theorem toDouble_zero : toDouble 0 = 0 := by decide

/-- The script, as a function of the stored counter: 0 and no effect when
the counter, read as a double, reaches the throughput; otherwise the
increment goes to `INCRBY`, whose failure is the script's, and `EXPIRE`
follows. -/
theorem SCRIPT_eq ( key_prefix : String) (d throughput batch_size : Int) (s : Redis) :
    SCRIPT key_prefix d throughput batch_size s
      = if toDouble throughput ≤ toDouble (s.counter (windowKey key_prefix s.time d)) then
          (.ok 0, s)
        else
          match s.INCRBY (windowKey key_prefix s.time d)
              (SCRIPT.increment throughput batch_size
                (s.counter (windowKey key_prefix s.time d))) with
          | .error err => (.error err, s)
          | .ok s1 =>
            (.ok (SCRIPT.increment throughput batch_size
                (s.counter (windowKey key_prefix s.time d))),
              s1.EXPIRE (windowKey key_prefix s.time d) (d * 3)) := by
  unfold SCRIPT Redis.counter SCRIPT.increment
  simp only [ge_iff_le]
  generalize windowKey key_prefix s.time d = key
  cases hget : s.GET key with
  | none =>
    simp only [toDouble_zero]
  | some v =>
    simp only

/-- A successful `INCRBY` raises the counter by the increment, keeps the key
visible, and changes neither the clock, nor the script cache, nor any other
key. -/
theorem INCRBY_frame (s s1 : Redis) (key : String) (i : Int) (h : s.INCRBY key i = .ok s1) :
    s1.time = s.time ∧ s1.scriptLoaded = s.scriptLoaded ∧ s1.large = s.large
      ∧ (∀ k, k ≠ key → s1.db k = s.db k)
      ∧ ∃ ex : Option Nat, s1.db key = some ⟨s.counter key + i, ex⟩
          ∧ (⟨s.counter key + i, ex⟩ : Entry).live s.time = true := by
  unfold Redis.INCRBY at h
  split at h
  · simp at h
  · simp only at h
    split at h
    · simp at h
    · simp only [Except.ok.injEq] at h
      subst h
      refine ⟨rfl, rfl, rfl, fun k hk => by simp [hk], ?_⟩
      simp only [if_true]
      unfold Redis.counter Redis.GET
      cases hdb : s.db key with
      | none => exact ⟨none, by simp, rfl⟩
      | some e =>
        cases hl : e.live s.time with
        | true =>
          refine ⟨e.expireAt, by simp [hl], ?_⟩
          exact hl
        | false => exact ⟨none, by simp [hl], rfl⟩

/-- `INCRBY` with an increment below `10 ^ 17` in size that keeps the counter
in the 64-bit range succeeds. -/
theorem INCRBY_ok (s : Redis) (key : String) (i : Int) (h1 : -10 ^ 17 < i) (h2 : i < 10 ^ 17)
    (h3 : -2 ^ 63 ≤ s.counter key + i) (h4 : s.counter key + i < 2 ^ 63) :
    ∃ s1 : Redis, s.INCRBY key i = .ok s1 := by
  have hw : ¬ (s.writes i = false) := by
    unfold Redis.writes
    rw [decide_eq_true (show -10 ^ 17 < i ∧ i < 10 ^ 17 from ⟨h1, h2⟩)]
    simp
  unfold Redis.INCRBY
  unfold Redis.counter Redis.GET at h3 h4
  rw [if_neg hw]
  simp only
  cases hdb : s.db key with
  | none =>
    rw [hdb] at h3 h4
    simp only [zero_add] at h3 h4 ⊢
    have hcond : ¬ (i < -2 ^ 63 ∨ 2 ^ 63 ≤ i) := by omega
    rw [if_neg hcond]
    exact ⟨_, rfl⟩
  | some e =>
    rw [hdb] at h3 h4
    cases hl : e.live s.time with
    | true =>
      simp only [hl, if_true] at h3 h4 ⊢
      have hcond : ¬ (e.value + i < -2 ^ 63 ∨ 2 ^ 63 ≤ e.value + i) := by omega
      rw [if_neg hcond]
      exact ⟨_, rfl⟩
    | false =>
      simp only [hl, Bool.false_eq_true, if_false, zero_add] at h3 h4 ⊢
      have hcond : ¬ (i < -2 ^ 63 ∨ 2 ^ 63 ≤ i) := by omega
      rw [if_neg hcond]
      exact ⟨_, rfl⟩

/-- `EXPIRE` changes neither the clock, nor the script cache, nor any other
key. -/
theorem EXPIRE_frame (s : Redis) (key : String) (seconds : Int) :
    (s.EXPIRE key seconds).time = s.time
      ∧ (s.EXPIRE key seconds).scriptLoaded = s.scriptLoaded
      ∧ (s.EXPIRE key seconds).large = s.large
      ∧ ∀ k, k ≠ key → (s.EXPIRE key seconds).db k = s.db k := by
  unfold Redis.EXPIRE
  split
  · split
    · split
      · exact ⟨rfl, rfl, rfl, fun k hk => by simp [hk]⟩
      · exact ⟨rfl, rfl, rfl, fun k hk => by simp [hk]⟩
    · exact ⟨rfl, rfl, rfl, fun _ _ => rfl⟩
  · exact ⟨rfl, rfl, rfl, fun _ _ => rfl⟩

/-- `EXPIRE` with a positive timeout on a visible key sets its deadline. -/
theorem EXPIRE_set (s : Redis) (key : String) (seconds : Int) (e : Entry)
    (hdb : s.db key = some e) (hl : e.live s.time = true) (hs : 0 < seconds) :
    (s.EXPIRE key seconds).db key = some ⟨e.value, some (s.time + seconds.toNat)⟩ := by
  unfold Redis.EXPIRE
  simp [hdb, hl, not_le.mpr hs]

/-- The script reads only the clock and the keyspace, never moves the clock,
and writes to no key but its window key. -/
theorem SCRIPT_frame ( key_prefix : String) (d throughput batch_size : Int) (s : Redis) :
    (SCRIPT key_prefix d throughput batch_size s).2.time = s.time
      ∧ (SCRIPT key_prefix d throughput batch_size s).2.scriptLoaded = s.scriptLoaded
      ∧ (SCRIPT key_prefix d throughput batch_size s).2.large = s.large
      ∧ ∀ k, k ≠ windowKey key_prefix s.time d →
          (SCRIPT key_prefix d throughput batch_size s).2.db k = s.db k := by
  rw [SCRIPT_eq]
  split
  · exact ⟨rfl, rfl, rfl, fun _ _ => rfl⟩
  · split
    · exact ⟨rfl, rfl, rfl, fun _ _ => rfl⟩
    · rename_i s1 hincr
      obtain ⟨h1, h2, h3, h4, _⟩ := INCRBY_frame s s1 _ _ hincr
      obtain ⟨e1, e2, e3, e4⟩ := EXPIRE_frame s1 (windowKey key_prefix s.time d) (d * 3)
      exact ⟨e1.trans h1, e2.trans h2, e3.trans h3, fun k hk => (e4 k hk).trans (h4 k hk)⟩

/-- A failed execution of the script leaves the server as it was. -/
theorem SCRIPT_failed ( key_prefix : String) (d throughput batch_size : Int) (s : Redis)
    (err : Err) (h : (SCRIPT key_prefix d throughput batch_size s).1 = .error err) :
    (SCRIPT key_prefix d throughput batch_size s).2 = s := by
  rw [SCRIPT_eq] at h ⊢
  split
  · rfl
  · rename_i hn
    rw [if_neg hn] at h
    split
    · rfl
    · rename_i s1 hincr
      rw [hincr] at h
      simp at h

/-- The script on an exhausted window: 0, and nothing changes. -/
theorem SCRIPT_of_exhausted ( key_prefix : String) (d throughput batch_size : Int) (s : Redis)
    (hn : toDouble throughput ≤ toDouble (s.counter (windowKey key_prefix s.time d))) :
    SCRIPT key_prefix d throughput batch_size s = (.ok 0, s) := by
  rw [SCRIPT_eq, if_pos hn]

/-- The script on a window that has room, when the increment is below
`10 ^ 17` in size and keeps the counter in the 64-bit range: the grant, and
the entry written under the window key. -/
theorem SCRIPT_of_room ( key_prefix : String) (d throughput batch_size : Int) (s : Redis)
    (hd : 1 ≤ d)
    (hn : toDouble (s.counter (windowKey key_prefix s.time d)) < toDouble throughput)
    (h1 : -10 ^ 17 < SCRIPT.increment throughput batch_size
      (s.counter (windowKey key_prefix s.time d)))
    (h2 : SCRIPT.increment throughput batch_size
      (s.counter (windowKey key_prefix s.time d)) < 10 ^ 17)
    (h3 : -2 ^ 63 ≤ s.counter (windowKey key_prefix s.time d)
      + SCRIPT.increment throughput batch_size (s.counter (windowKey key_prefix s.time d)))
    (h4 : s.counter (windowKey key_prefix s.time d)
      + SCRIPT.increment throughput batch_size (s.counter (windowKey key_prefix s.time d))
        < 2 ^ 63) :
    (SCRIPT key_prefix d throughput batch_size s).1
        = .ok (SCRIPT.increment throughput batch_size
            (s.counter (windowKey key_prefix s.time d)))
      ∧ (SCRIPT key_prefix d throughput batch_size s).2.db (windowKey key_prefix s.time d)
        = some ⟨s.counter (windowKey key_prefix s.time d)
              + SCRIPT.increment throughput batch_size
                  (s.counter (windowKey key_prefix s.time d)),
            some (s.time + (d * 3).toNat)⟩ := by
  obtain ⟨s1, hincr⟩ := INCRBY_ok s _ _ h1 h2 h3 h4
  obtain ⟨ht, -, -, -, ex, hdb, hl⟩ := INCRBY_frame s s1 _ _ hincr
  rw [SCRIPT_eq, if_neg (not_le.mpr hn), hincr]
  refine ⟨rfl, ?_⟩
  have := EXPIRE_set s1 (windowKey key_prefix s.time d) (d * 3) _ hdb (by rw [ht]; exact hl)
    (by omega)
  rw [this, ht]

/-- The increment of the script on integers that doubles hold exactly. -/
theorem increment_exact (throughput batch_size n : Int) (hn : -2 ^ 53 ≤ n)
    (hlt : n < throughput) (ht : throughput ≤ 2 ^ 53)
    (hb : (-2 ^ 53 ≤ batch_size ∧ batch_size ≤ 2 ^ 53)
      ∨ (0 ≤ batch_size ∧ throughput - n ≤ 2 ^ 53)) :
    SCRIPT.increment throughput batch_size n = min (throughput - n) batch_size
      ∨ (2 ^ 53 < batch_size ∧ throughput - n ≤ 2 ^ 53
          ∧ SCRIPT.increment throughput batch_size n = throughput - n) := by
  unfold SCRIPT.increment
  rw [toDouble_of_small throughput (by omega) ht, toDouble_of_small n hn (by omega)]
  rcases hb with ⟨hb1, hb2⟩ | ⟨hb0, hroom⟩
  · left
    rw [toDouble_of_small batch_size hb1 hb2]
    by_cases hroom : throughput - n ≤ 2 ^ 53
    · rw [toDouble_of_small _ (by omega) hroom]
    · have := toDouble_large (throughput - n) (by omega)
      rw [min_eq_right (by omega), min_eq_right (by omega)]
  · rw [toDouble_of_small _ (by omega) hroom]
    by_cases hb2 : batch_size ≤ 2 ^ 53
    · left
      rw [toDouble_of_small batch_size (by omega) hb2]
    · right
      have := toDouble_large batch_size (by omega)
      exact ⟨by omega, hroom, min_eq_left (by omega)⟩

/-- The grant of the script has the sign of the batch size. -/
theorem SCRIPT_sign ( key_prefix : String) (d throughput batch_size : Int) (s : Redis)
    (count : Int) (h : (SCRIPT key_prefix d throughput batch_size s).1 = .ok count) :
    (0 ≤ batch_size → 0 ≤ count) ∧ (batch_size < 0 → count ≤ 0) := by
  rw [SCRIPT_eq] at h
  split at h
  · simp only [Except.ok.injEq] at h
    subst h
    exact ⟨fun _ => le_refl _, fun _ => le_refl _⟩
  · rename_i hn
    split at h
    · simp at h
    · simp only [Except.ok.injEq] at h
      subst h
      unfold SCRIPT.increment
      constructor
      · intro hb
        have h1 := (toDouble_sign batch_size).1 hb
        have h2 : 0 ≤ toDouble (toDouble throughput
            - toDouble (s.counter (windowKey key_prefix s.time d))) :=
          (toDouble_sign _).1 (by omega)
        exact le_min h2 h1
      · intro hb
        have h1 := (toDouble_sign batch_size).2.2 (by omega)
        exact le_trans (min_le_right _ _) (by omega)

/-- C3, as amended (Allocator grant).  For every key prefix, duration `d ≥ 1`
and server state, when the throughput, the batch size and the counter `n` of
the current window key (an absent key reads 0) are at most `2 ^ 53` in size,
the integers that Lua numbers hold exactly, and `n < throughput`, the script
returns exactly `min (throughput - n) batchSize`, the counter becomes `n`
plus that value, the key's time-to-live is `3 * d` seconds, and the grant is
at most `min batchSize (throughput - n)`. -/
theorem SCRIPT_grant ( key_prefix : String) (d throughput batch_size : Int) (s : Redis)
    (hd : 1 ≤ d) (hn : s.counter (windowKey key_prefix s.time d) < throughput)
    (hn53 : -2 ^ 53 ≤ s.counter (windowKey key_prefix s.time d))
    (ht53 : throughput ≤ 2 ^ 53)
    (hb53 : -2 ^ 53 ≤ batch_size ∧ batch_size ≤ 2 ^ 53) :
    (SCRIPT key_prefix d throughput batch_size s).1
        = .ok (min (throughput - s.counter (windowKey key_prefix s.time d)) batch_size)
      ∧ (SCRIPT key_prefix d throughput batch_size s).2.counter (windowKey key_prefix s.time d)
        = s.counter (windowKey key_prefix s.time d)
          + min (throughput - s.counter (windowKey key_prefix s.time d)) batch_size
      ∧ (∃ ttl : Nat, (SCRIPT key_prefix d throughput batch_size s).2.TTL
            (windowKey key_prefix s.time d) = some ttl ∧ (ttl : Int) = 3 * d)
      ∧ performed (SCRIPT key_prefix d throughput batch_size s).1
        ≤ min batch_size (throughput - s.counter (windowKey key_prefix s.time d)) := by
  have hnat : ((d * 3).toNat : Int) = 3 * d := by
    rw [Int.toNat_of_nonneg (by omega)]; ring
  have hpos : 0 < (d * 3).toNat := by omega
  have htime := (SCRIPT_frame key_prefix d throughput batch_size s).1
  have hinc : SCRIPT.increment throughput batch_size (s.counter (windowKey key_prefix s.time d))
      = min (throughput - s.counter (windowKey key_prefix s.time d)) batch_size := by
    rcases increment_exact throughput batch_size _ hn53 hn ht53 (Or.inl hb53) with h | ⟨h, -, -⟩
    · exact h
    · omega
  have hlo : min (1 : Int) (-2 ^ 53)
      ≤ min (throughput - s.counter (windowKey key_prefix s.time d)) batch_size :=
    min_le_min (by omega) hb53.1
  have hhi : min (throughput - s.counter (windowKey key_prefix s.time d)) batch_size
      ≤ batch_size := min_le_right _ _
  have hhi2 : min (throughput - s.counter (windowKey key_prefix s.time d)) batch_size
      ≤ throughput - s.counter (windowKey key_prefix s.time d) := min_le_left _ _
  rw [min_eq_right (by norm_num)] at hlo
  obtain ⟨hret, hentry⟩ := SCRIPT_of_room key_prefix d throughput batch_size s hd
    (by rw [toDouble_of_small _ hn53 (by omega), toDouble_of_small _ (by omega) ht53]
        exact hn)
    (by rw [hinc]; omega) (by rw [hinc]; omega) (by rw [hinc]; omega) (by rw [hinc]; omega)
  rw [hinc] at hret hentry
  refine ⟨hret, ?_, ?_, ?_⟩
  · simp only [Redis.counter, Redis.GET, hentry, htime, Entry.live]
    simp [hpos]
  · refine ⟨(d * 3).toNat, ?_, hnat⟩
    simp only [Redis.TTL, hentry, htime, Entry.live]
    simp [hpos]
  · rw [hret, min_comm]
    exact le_refl _

/-- Witness for C3: throughput 5, batch size 10, fresh window: the script
grants 5. -/
theorem SCRIPT_grant_witness :
    ((1 : Int) ≤ 1
        ∧ Example.redis0.counter (windowKey "u1" Example.redis0.time 1) < 5
        ∧ -2 ^ 53 ≤ Example.redis0.counter (windowKey "u1" Example.redis0.time 1)
        ∧ (5 : Int) ≤ 2 ^ 53 ∧ -2 ^ 53 ≤ (10 : Int) ∧ (10 : Int) ≤ 2 ^ 53)
      ∧ (SCRIPT "u1" 1 5 10 Example.redis0).1 = .ok 5 :=
  ⟨⟨by decide, by decide, by decide, by decide, by decide, by decide⟩,
    (SCRIPT_grant "u1" 1 5 10 Example.redis0 (by decide) (by decide) (by decide) (by decide)
      ⟨by decide, by decide⟩).1.trans rfl⟩

/-- Counterexample to C3 as stated: throughput and batch size `2 ^ 53 + 1`,
fresh window.  The counter 0 is below the throughput and
`min (throughput - 0) batchSize` is `2 ^ 53 + 1`, but `tonumber` reads both
arguments as `2 ^ 53`: the script returns `2 ^ 53` and leaves the counter
there.  With throughput and batch size `MaxInt64` the increment is `2 ^ 63`,
which `INCRBY` refuses: the script fails. -/
theorem SCRIPT_grant_fails_beyond_doubles :
    Example.redis0.counter (windowKey "u1" Example.redis0.time 1) = 0
      ∧ (0 : Int) < 9007199254740993
      ∧ min ((9007199254740993 : Int) - 0) 9007199254740993 = 9007199254740993
      ∧ Example.rounded.1 = .ok 9007199254740992
      ∧ Example.rounded.1 ≠ .ok (min ((9007199254740993 : Int) - 0) 9007199254740993)
      ∧ Example.rounded.2.counter (windowKey "u1" Example.redis0.time 1) = 9007199254740992
      ∧ (∃ err, (SCRIPT "u1" 1 Example.maxInt64 Example.maxInt64 Example.redis0).1
          = .error err) :=
  ⟨by decide, by decide, by decide, rfl,
    fun h =>
      absurd
        (Except.ok.inj
          ((show Example.rounded.1 = .ok 9007199254740992 from rfl).symm.trans h))
        (by decide),
    by decide, ⟨_, rfl⟩⟩

/-- C4, as amended (Allocator exhaustion).  For every key prefix, duration
`d ≥ 1`, batch size `≥ 1` and server state, when the throughput and the
current window counter `n` (an absent key reads 0) are at most `2 ^ 53` in
size, the script returns 0 if and only if `n ≥ throughput`, and in that case
the server state is returned exactly as it was. -/
theorem SCRIPT_exhausted ( key_prefix : String) (d throughput batch_size : Int) (s : Redis)
    (_hd : 1 ≤ d) (hb : 1 ≤ batch_size)
    (ht53 : -2 ^ 53 ≤ throughput ∧ throughput ≤ 2 ^ 53)
    (hn53 : -2 ^ 53 ≤ s.counter (windowKey key_prefix s.time d)
      ∧ s.counter (windowKey key_prefix s.time d) ≤ 2 ^ 53) :
    ((SCRIPT key_prefix d throughput batch_size s).1 = .ok 0
        ↔ throughput ≤ s.counter (windowKey key_prefix s.time d))
      ∧ (throughput ≤ s.counter (windowKey key_prefix s.time d) →
          (SCRIPT key_prefix d throughput batch_size s).2 = s) := by
  have hT := toDouble_of_small throughput ht53.1 ht53.2
  have hN := toDouble_of_small _ hn53.1 hn53.2
  by_cases hn : throughput ≤ s.counter (windowKey key_prefix s.time d)
  · have := SCRIPT_of_exhausted key_prefix d throughput batch_size s (by rw [hT, hN]; exact hn)
    rw [this]
    exact ⟨⟨fun _ => hn, fun _ => rfl⟩, fun _ => rfl⟩
  · refine ⟨⟨?_, fun h => absurd h hn⟩, fun h => absurd h hn⟩
    intro h0
    exfalso
    rw [SCRIPT_eq, if_neg (by rw [hT, hN]; exact hn)] at h0
    have hinc : 1 ≤ SCRIPT.increment throughput batch_size
        (s.counter (windowKey key_prefix s.time d)) := by
      unfold SCRIPT.increment
      rw [hT, hN]
      exact le_min ((toDouble_sign _).2.1 (by omega)) ((toDouble_sign _).2.1 hb)
    split at h0
    · simp at h0
    · simp only [Except.ok.injEq] at h0
      omega

/-- Witness for C4: throughput 5 and batch size 10 on the store left by a
`Take` that used up the window. -/
theorem SCRIPT_exhausted_witness :
    ((1 : Int) ≤ 1 ∧ (1 : Int) ≤ 10 ∧ (-2 ^ 53 ≤ (5 : Int) ∧ (5 : Int) ≤ 2 ^ 53)
        ∧ -2 ^ 53 ≤ Example.smallFirst.2.2.counter (windowKey "u1" Example.smallFirst.2.2.time 1)
        ∧ Example.smallFirst.2.2.counter (windowKey "u1" Example.smallFirst.2.2.time 1)
          ≤ 2 ^ 53)
      ∧ (((SCRIPT "u1" 1 5 10 Example.smallFirst.2.2).1 = .ok 0
          ↔ 5 ≤ Example.smallFirst.2.2.counter (windowKey "u1" Example.smallFirst.2.2.time 1))
        ∧ (5 ≤ Example.smallFirst.2.2.counter (windowKey "u1" Example.smallFirst.2.2.time 1) →
          (SCRIPT "u1" 1 5 10 Example.smallFirst.2.2).2 = Example.smallFirst.2.2)) :=
  ⟨⟨by decide, by decide, ⟨by decide, by decide⟩, by decide, by decide⟩,
    SCRIPT_exhausted "u1" 1 5 10 Example.smallFirst.2.2 (by decide) (by decide)
      ⟨by decide, by decide⟩ ⟨by decide, by decide⟩⟩

/-- Counterexample to C4 as stated: on the store on which the counter of the
window stands at `2 ^ 53`, with throughput `2 ^ 53 + 1` and batch size 1, the
counter is below the throughput, yet `tonumber` reads the throughput as
`2 ^ 53` and the script returns 0. -/
theorem SCRIPT_exhausted_fails_beyond_doubles :
    Example.rounded.2.counter (windowKey "u1" Example.rounded.2.time 1) = 9007199254740992
      ∧ (1 : Int) ≤ 1
      ∧ ¬ ((9007199254740993 : Int)
            ≤ Example.rounded.2.counter (windowKey "u1" Example.rounded.2.time 1))
      ∧ (SCRIPT "u1" 1 9007199254740993 1 Example.rounded.2).1 = .ok 0 :=
  ⟨by decide, by decide, by decide, rfl⟩

/-- The counter read at a time of window `w` from a store whose entry for
the window key is absent, or holds `v` with a deadline beyond the window. -/
theorem counter_of_window_entry (key : String) (d w v : Int) (s : Redis) (now : Nat)
    (hnow : ceilDiv now d = w)
    (hinv : (s.db key = none ∧ v = 0)
      ∨ ∃ dl : Nat, s.db key = some ⟨v, some dl⟩ ∧ ∀ t2 : Nat, ceilDiv t2 d = w → t2 < dl) :
    ({ s with time := now } : Redis).counter key = v := by
  rcases hinv with ⟨hnone, hv0⟩ | ⟨dl, hsome, hlive⟩
  · simp [Redis.counter, Redis.GET, hnone, hv0]
  · simp [Redis.counter, Redis.GET, hsome, Entry.live, hlive now hnow]

/-- One Allocator execution in window `w`, on a store whose counter for the
window key is absent, or present with value `v` and a deadline beyond the
window, with a throughput between 0 and `2 ^ 53` and a counter that a
negative batch size does not bring more than `2 ^ 53` below the throughput:
the same holds afterwards for `v` plus the returned increment, which stays
within the throughput and is not below the batch size when that is
negative. -/
theorem SCRIPT_window_step ( key_prefix : String) (d throughput batch_size w v : Int)
    (s : Redis) (t : Nat) (hd : 1 ≤ d) (ht : ceilDiv t d = w) (hth : 0 ≤ throughput)
    (ht53 : throughput ≤ 2 ^ 53) (hv : v ≤ throughput)
    (hlow : throughput - 2 ^ 53 ≤ v + min batch_size 0)
    (hinv : (s.db ( key_prefix ++ ":" ++ toString w) = none ∧ v = 0)
      ∨ ∃ dl : Nat, s.db ( key_prefix ++ ":" ++ toString w) = some ⟨v, some dl⟩
          ∧ ∀ t2 : Nat, ceilDiv t2 d = w → t2 < dl) :
    v + performed (SCRIPT key_prefix d throughput batch_size { s with time := t }).1
        ≤ throughput
      ∧ min batch_size 0
        ≤ performed (SCRIPT key_prefix d throughput batch_size { s with time := t }).1
      ∧ (((SCRIPT key_prefix d throughput batch_size { s with time := t }).2.db
              ( key_prefix ++ ":" ++ toString w) = none
            ∧ v + performed
                (SCRIPT key_prefix d throughput batch_size { s with time := t }).1 = 0)
        ∨ ∃ dl : Nat, (SCRIPT key_prefix d throughput batch_size { s with time := t }).2.db
              ( key_prefix ++ ":" ++ toString w)
            = some ⟨v + performed
                (SCRIPT key_prefix d throughput batch_size { s with time := t }).1, some dl⟩
          ∧ ∀ t2 : Nat, ceilDiv t2 d = w → t2 < dl) := by
  have hdl : ∀ t2 : Nat, ceilDiv t2 d = w → t2 < t + (d * 3).toNat :=
    fun t2 ht2 => deadline_beyond_window t t2 d w hd ht ht2
  have hkey : windowKey key_prefix (({ s with time := t } : Redis).time) d
      = key_prefix ++ ":" ++ toString w := by
    show key_prefix ++ ":" ++ toString (ceilDiv t d) = _
    rw [ht]
  have hcount : ({ s with time := t } : Redis).counter
      (windowKey key_prefix (({ s with time := t } : Redis).time) d) = v := by
    rw [hkey]
    exact counter_of_window_entry _ d w v s t ht hinv
  have hm0 : min batch_size 0 ≤ 0 := min_le_right _ _
  have hmb : min batch_size 0 ≤ batch_size := min_le_left _ _
  by_cases hex : throughput ≤ v
  · have := SCRIPT_of_exhausted key_prefix d throughput batch_size { s with time := t }
      (by rw [hcount, toDouble_of_small _ (by omega) ht53, toDouble_of_small v (by omega) (by omega)]
          exact hex)
    rw [this]
    simp only [performed, add_zero]
    exact ⟨hv, hm0, hinv⟩
  · have hroom : throughput - v ≤ 2 ^ 53 := by omega
    have hinc := increment_exact throughput batch_size v (by omega) (by omega) ht53
      (by
        by_cases hb : 0 ≤ batch_size
        · exact Or.inr ⟨hb, hroom⟩
        · left
          rw [min_eq_left (by omega)] at hlow
          constructor <;> omega)
    have hbounds : SCRIPT.increment throughput batch_size v ≤ throughput - v
        ∧ min batch_size 0 ≤ SCRIPT.increment throughput batch_size v := by
      rcases hinc with h | ⟨h1, -, h3⟩
      · rw [h]
        refine ⟨min_le_left _ _, ?_⟩
        exact le_min (by omega) hmb
      · rw [h3]
        exact ⟨le_refl _, by omega⟩
    have hlo53 : -2 ^ 53 ≤ min batch_size 0 := by omega
    obtain ⟨hret, hentry⟩ := SCRIPT_of_room key_prefix d throughput batch_size
      { s with time := t } hd
      (by rw [hcount, toDouble_of_small _ (by omega) ht53,
            toDouble_of_small v (by omega) (by omega)]
          omega)
      (by rw [hcount]; omega) (by rw [hcount]; omega) (by rw [hcount]; omega)
      (by rw [hcount]; omega)
    rw [hcount] at hret hentry
    rw [hkey] at hentry
    rw [hret]
    simp only [performed]
    exact ⟨by omega, hbounds.2, Or.inr ⟨t + (d * 3).toNat, hentry, hdl⟩⟩

/-- The negative batch sizes of a run add up to at most 0. -/
theorem negative_batches_nonpos (calls : List (Nat × Int)) :
    (calls.map (fun call => min call.2 0)).sum ≤ 0 := by
  induction calls with
  | nil => exact le_refl _
  | cons call rest ih =>
    simp only [List.map_cons, List.sum_cons]
    have := min_le_right call.2 0
    omega

/-- The invariant of `SCRIPT_window_step` along a run of Allocator executions
that all fall into window `w`. -/
theorem allocate_window ( key_prefix : String) (d throughput w : Int) (hd : 1 ≤ d)
    (hth : 0 ≤ throughput) (ht53 : throughput ≤ 2 ^ 53) (calls : List (Nat × Int)) :
    ∀ (s : Redis) (v : Int), (∀ call ∈ calls, ceilDiv call.1 d = w) → v ≤ throughput →
      throughput - 2 ^ 53 ≤ v + (calls.map (fun call => min call.2 0)).sum →
      ((s.db ( key_prefix ++ ":" ++ toString w) = none ∧ v = 0)
        ∨ ∃ dl : Nat, s.db ( key_prefix ++ ":" ++ toString w) = some ⟨v, some dl⟩
            ∧ ∀ t2 : Nat, ceilDiv t2 d = w → t2 < dl) →
      v + (allocate key_prefix d throughput calls s).1 ≤ throughput
        ∧ (((allocate key_prefix d throughput calls s).2.db
                ( key_prefix ++ ":" ++ toString w) = none
              ∧ v + (allocate key_prefix d throughput calls s).1 = 0)
          ∨ ∃ dl : Nat, (allocate key_prefix d throughput calls s).2.db
                ( key_prefix ++ ":" ++ toString w)
              = some ⟨v + (allocate key_prefix d throughput calls s).1, some dl⟩
            ∧ ∀ t2 : Nat, ceilDiv t2 d = w → t2 < dl) := by
  induction calls with
  | nil =>
    intro s v _ hv _ hinv
    simpa [allocate] using ⟨hv, hinv⟩
  | cons call rest ih =>
    intro s v hw hv hlow hinv
    obtain ⟨t, batch_size⟩ := call
    have ht : ceilDiv t d = w := hw (t, batch_size) (List.mem_cons_self _ _)
    simp only [List.map_cons, List.sum_cons] at hlow
    have hrest := negative_batches_nonpos rest
    obtain ⟨hv1, hlo1, hinv1⟩ :=
      SCRIPT_window_step key_prefix d throughput batch_size w v s t hd ht hth ht53 hv
        (by omega) hinv
    have := ih (SCRIPT key_prefix d throughput batch_size { s with time := t }).2
      (v + performed (SCRIPT key_prefix d throughput batch_size { s with time := t }).1)
      (fun c hc => hw c (List.mem_cons_of_mem _ hc)) hv1 (by omega) hinv1
    simpa [allocate, add_assoc] using this

/-- C1, as amended (Allocator cap invariant).  For every key prefix, duration
`d ≥ 1`, throughput `≥ 0` and every finite sequence of script executions that
fall into one window `w` (any times of that window, any batch sizes such that
the throughput minus the sum of the negative ones is at most `2 ^ 53`; with
batch sizes `≥ 0`, any throughput up to `2 ^ 53`), started on a store where
the window key is absent: the counter read under the key at any time of the
window equals the sum of the increments returned, and is never greater than
throughput. -/
theorem allocate_cap ( key_prefix : String) (d throughput w : Int)
    (calls : List (Nat × Int)) (s : Redis) (now : Nat) (hd : 1 ≤ d) (hth : 0 ≤ throughput)
    (hexact : throughput - (calls.map (fun call => min call.2 0)).sum ≤ 2 ^ 53)
    (hcalls : ∀ call ∈ calls, ceilDiv call.1 d = w) (hnow : ceilDiv now d = w)
    (habsent : s.db ( key_prefix ++ ":" ++ toString w) = none) :
    ({ (allocate key_prefix d throughput calls s).2 with time := now } : Redis).counter
          ( key_prefix ++ ":" ++ toString w)
        = (allocate key_prefix d throughput calls s).1
      ∧ ({ (allocate key_prefix d throughput calls s).2 with time := now } : Redis).counter
          ( key_prefix ++ ":" ++ toString w) ≤ throughput := by
  have hneg := negative_batches_nonpos calls
  obtain ⟨hle, hinv⟩ := allocate_window key_prefix d throughput w hd hth (by omega) calls s 0
    hcalls hth (by omega) (Or.inl ⟨habsent, rfl⟩)
  have hc := counter_of_window_entry ( key_prefix ++ ":" ++ toString w) d w _ _ now hnow hinv
  rw [zero_add] at hc hle
  exact ⟨hc, hc ▸ hle⟩

/-- Witness for C1: three executions in window 4 of duration 2 (times 7, 8, 7)
with throughput 25 and batch sizes 10, 10, 10 grant 10 + 10 + 5. -/
theorem allocate_cap_witness :
    ((1 : Int) ≤ 2 ∧ (0 : Int) ≤ 25
        ∧ (25 : Int) - ([((7 : Nat), (10 : Int)), (8, 10), (7, 10)].map
            (fun call => min call.2 0)).sum ≤ 2 ^ 53
        ∧ (∀ call ∈ [((7 : Nat), (10 : Int)), (8, 10), (7, 10)], ceilDiv call.1 2 = 4)
        ∧ ceilDiv (8 : Nat) 2 = 4
        ∧ Example.redis0.db ("u1" ++ ":" ++ toString (4 : Int)) = none)
      ∧ (allocate "u1" 2 25 [(7, 10), (8, 10), (7, 10)] Example.redis0).1 = 25
      ∧ ({ (allocate "u1" 2 25 [(7, 10), (8, 10), (7, 10)] Example.redis0).2
            with time := 8 } : Redis).counter ("u1" ++ ":" ++ toString (4 : Int)) ≤ 25 :=
  ⟨⟨by decide, by decide, by decide, by decide, by decide, by decide⟩, by decide,
    (allocate_cap "u1" 2 25 4 [(7, 10), (8, 10), (7, 10)] Example.redis0 8
      (by decide) (by decide) (by decide) (by decide) (by decide) (by decide)).2⟩

/-- Counterexample to C1 as stated: with throughput `-1` the script grants
nothing, and the counter of the window, read as 0, is greater than the
throughput. -/
theorem allocate_cap_fails_for_negative_throughput :
    (allocate "u1" 1 (-1) [(1, 10)] Example.redis0).1 = 0
      ∧ ¬ (({ (allocate "u1" 1 (-1) [(1, 10)] Example.redis0).2 with time := 1 } : Redis).counter
            (windowKey "u1" 1 1) ≤ -1) := by
  decide

/-- The bounds of `allocate_cap` are needed.  With throughput and batch size
`2 ^ 53 + 3`, which `tonumber` reads as `2 ^ 53 + 4`, one execution on a fresh
window raises the counter to `2 ^ 53 + 4`, above the throughput.  With
throughput `2 ^ 53`, a batch size of `-3` followed by one of `2 ^ 53 + 4`
leaves the counter at `2 ^ 53 + 1`: the room `2 ^ 53 + 3` is rounded up. -/
theorem allocate_cap_fails_beyond_doubles :
    ({ (allocate "u1" 1 9007199254740995 [(1, 9007199254740995)] Example.redis0).2
          with time := 1 } : Redis).counter (windowKey "u1" 1 1) = 9007199254740996
      ∧ ¬ (({ (allocate "u1" 1 9007199254740995 [(1, 9007199254740995)] Example.redis0).2
            with time := 1 } : Redis).counter (windowKey "u1" 1 1) ≤ 9007199254740995)
      ∧ ({ (allocate "u1" 1 9007199254740992 [(1, -3), (1, 9007199254740996)]
            Example.redis0).2 with time := 1 } : Redis).counter (windowKey "u1" 1 1)
          = 9007199254740993
      ∧ ¬ (({ (allocate "u1" 1 9007199254740992 [(1, -3), (1, 9007199254740996)]
            Example.redis0).2 with time := 1 } : Redis).counter (windowKey "u1" 1 1)
          ≤ 9007199254740992) := by
  decide

/-! ## The Coordinator: structure of a `Take` call -/

/-- Registration touches neither the buckets nor the configuration. -/
theorem register_frame {σ : Type} (c : Client σ) (r : RedisRateLimiter) (s : σ) :
    (Take.register c r s).2.1.buckets = r.buckets
      ∧ (Take.register c r s).2.1.durationSecs = r.durationSecs
      ∧ (Take.register c r s).2.1.throughput = r.throughput
      ∧ (Take.register c r s).2.1.batchSize = r.batchSize
      ∧ (Take.register c r s).2.1.keyPrefix = r.keyPrefix := by
  unfold Take.register loadScript
  by_cases hsha : r.scriptSHA1 = ""
  · rw [if_pos hsha]
    rcases hex : c.ScriptExists SCRIPT_SHA1 s with ⟨_ | ex, s1⟩
    · simp [hex]
    · cases ex
      · rcases hld : c.ScriptLoad s1 with ⟨_ | v, s2⟩ <;> simp [hex, hld]
      · simp [hex]
  · simp [hsha]

/-- With an identifier in hand, registration does nothing. -/
theorem register_held {σ : Type} (c : Client σ) (r : RedisRateLimiter) (s : σ)
    (hsha : r.scriptSHA1 ≠ "") : Take.register c r s = (none, r, s) := by
  simp [Take.register, hsha]

/-- Registration through the journalling client: same outcome, and the
journal grows by exchanges none of which is an Allocator invocation. -/
theorem register_logging {σ : Type} (c : Client σ) (r : RedisRateLimiter) (s : σ)
    (l : List Event) :
    ∃ J : List Event, (∀ e ∈ J, e.isEvalSha = false)
      ∧ (r.scriptSHA1 ≠ "" → J = [])
      ∧ (r.scriptSHA1 = "" →
          J.head? = some (Event.scriptExists SCRIPT_SHA1 (c.ScriptExists SCRIPT_SHA1 s).1))
      ∧ Take.register c.logging r (s, l)
        = ((Take.register c r s).1, (Take.register c r s).2.1,
            ((Take.register c r s).2.2, l ++ J)) := by
  unfold Take.register loadScript
  by_cases hsha : r.scriptSHA1 = ""
  · simp only [if_pos hsha]
    rcases hex : c.ScriptExists SCRIPT_SHA1 s with ⟨_ | ex, s1⟩
    · exact ⟨[Event.scriptExists SCRIPT_SHA1 (c.ScriptExists SCRIPT_SHA1 s).1],
        by simp [Event.isEvalSha], by simp [hsha], by simp [hex], by simp [Client.logging, hex]⟩
    · cases ex
      · rcases hld : c.ScriptLoad s1 with ⟨_ | v, s2⟩
        · exact ⟨[Event.scriptExists SCRIPT_SHA1 (c.ScriptExists SCRIPT_SHA1 s).1,
              Event.scriptLoad (c.ScriptLoad s1).1],
            by simp [Event.isEvalSha], by simp [hsha], by simp [hex],
            by simp [Client.logging, hex, hld]⟩
        · exact ⟨[Event.scriptExists SCRIPT_SHA1 (c.ScriptExists SCRIPT_SHA1 s).1,
              Event.scriptLoad (c.ScriptLoad s1).1],
            by simp [Event.isEvalSha], by simp [hsha], by simp [hex],
            by simp [Client.logging, hex, hld]⟩
      · exact ⟨[Event.scriptExists SCRIPT_SHA1 (c.ScriptExists SCRIPT_SHA1 s).1],
          by simp [Event.isEvalSha], by simp [hsha], by simp [hex], by simp [Client.logging, hex]⟩
  · exact ⟨[], by simp, by simp, by simp [hsha], by simp [hsha]⟩

/-- The refill through the journalling client: same outcome, and the journal
grows by exactly the one Allocator invocation. -/
theorem refill_logging {σ : Type} (c : Client σ) (r : RedisRateLimiter) (token : String)
    (amount : Int) (b : Option bucket) (s : σ) (l : List Event) :
    Take.refill c.logging r token amount b (s, l)
      = ((Take.refill c r token amount b s).1, (Take.refill c r token amount b s).2.1,
          ((Take.refill c r token amount b s).2.2,
            l ++ [Event.evalSha r.scriptSHA1 [token]
                    [r.durationSecs, r.throughput, r.batchSize]
                    (c.EvalSha r.scriptSHA1 [token]
                      [r.durationSecs, r.throughput, r.batchSize] s).1])) := by
  unfold Take.refill
  rcases hev : c.EvalSha r.scriptSHA1 [token] [r.durationSecs, r.throughput, r.batchSize] s
    with ⟨_ | (count | _), s1⟩
  · simp [Client.logging, hev]
  · by_cases h0 : count ≤ 0
    · simp [Client.logging, hev, h0]
    · simp only [Client.logging, hev, h0, if_false]
      split <;> rfl
  · simp [Client.logging, hev]

/-- A `Take` call whose registration fails returns that error. -/
theorem Take_of_register_error {σ : Type} (c : Client σ) (r : RedisRateLimiter)
    (token : String) (amount : Int) (s : σ) (err : Err)
    (hreg : (Take.register c r s).1 = some err) :
    Take c r token amount s
      = (.ret false (some err), (Take.register c r s).2.1, (Take.register c r s).2.2) := by
  unfold Take
  rcases hr : Take.register c r s with ⟨e, r1, s1⟩
  rw [hr] at hreg
  simp only at hreg
  subst hreg
  rfl

/-- A `Take` call on the fast path. -/
theorem Take_of_fast {σ : Type} (c : Client σ) (r : RedisRateLimiter)
    (token : String) (amount : Int) (s : σ) (b : bucket)
    (hreg : (Take.register c r s).1 = none) (hb : r.buckets token = some b)
    (hle : amount ≤ b.N) :
    Take c r token amount s
      = (.ret true none,
          (Take.register c r s).2.1.setBucket token { b with N := wrap64 (b.N - amount) },
          (Take.register c r s).2.2) := by
  have hfr := (register_frame c r s).1
  unfold Take
  rcases hr : Take.register c r s with ⟨e, r1, s1⟩
  rw [hr] at hreg hfr
  simp only at hreg hfr
  subst hreg
  simp only [hfr, hb, ge_iff_le, hle, if_true]

/-- A `Take` call off the fast path is the refill. -/
theorem Take_of_slow {σ : Type} (c : Client σ) (r : RedisRateLimiter)
    (token : String) (amount : Int) (s : σ)
    (hreg : (Take.register c r s).1 = none)
    (hslow : ∀ b, r.buckets token = some b → b.N < amount) :
    Take c r token amount s
      = Take.refill c (Take.register c r s).2.1 token amount (r.buckets token)
          (Take.register c r s).2.2 := by
  have hfr := (register_frame c r s).1
  unfold Take
  rcases hr : Take.register c r s with ⟨e, r1, s1⟩
  rw [hr] at hreg hfr
  simp only at hreg hfr
  subst hreg
  simp only [hfr]
  cases hb : r.buckets token with
  | none => rfl
  | some b =>
    have := hslow b hb
    simp only [ge_iff_le, not_le.mpr this, if_false]

/-- The three ways a `Take` call can go, with its journal: registration
exchanges `J` (none an Allocator invocation), then nothing more when
registration fails or the fast path applies, and exactly one Allocator
invocation otherwise. -/
theorem Take_journal_cases {σ : Type} (c : Client σ) (r : RedisRateLimiter)
    (token : String) (amount : Int) (s : σ) :
    ∃ J : List Event, (∀ e ∈ J, e.isEvalSha = false)
      ∧ (r.scriptSHA1 ≠ "" → J = [])
      ∧ (r.scriptSHA1 = "" →
          J.head? = some (Event.scriptExists SCRIPT_SHA1 (c.ScriptExists SCRIPT_SHA1 s).1))
      ∧ (((∃ err, (Take.register c r s).1 = some err) ∧ Take.journal c r token amount s = J)
        ∨ ((Take.register c r s).1 = none ∧ (∃ b, r.buckets token = some b ∧ amount ≤ b.N)
            ∧ Take.journal c r token amount s = J)
        ∨ ((Take.register c r s).1 = none ∧ (∀ b, r.buckets token = some b → b.N < amount)
            ∧ Take.journal c r token amount s
              = J ++ [Event.evalSha (Take.register c r s).2.1.scriptSHA1 [token]
                  [r.durationSecs, r.throughput, r.batchSize]
                  (c.EvalSha (Take.register c r s).2.1.scriptSHA1 [token]
                    [r.durationSecs, r.throughput, r.batchSize]
                    (Take.register c r s).2.2).1])) := by
  obtain ⟨J, hJ, hJ0, hJ1, hlog⟩ := register_logging c r s []
  obtain ⟨hfb, hfd, hft, hfs, _⟩ := register_frame c r s
  refine ⟨J, hJ, hJ0, hJ1, ?_⟩
  have hregl : (Take.register c.logging r (s, [])).1 = (Take.register c r s).1 := by rw [hlog]
  cases hreg : (Take.register c r s).1 with
  | some err =>
    left
    refine ⟨⟨err, rfl⟩, ?_⟩
    unfold Take.journal
    rw [Take_of_register_error c.logging r token amount (s, []) err (by rw [hregl, hreg]), hlog]
    simp
  | none =>
    right
    by_cases hfast : ∃ b, r.buckets token = some b ∧ amount ≤ b.N
    · left
      obtain ⟨b, hb, hle⟩ := hfast
      refine ⟨rfl, ⟨b, hb, hle⟩, ?_⟩
      unfold Take.journal
      rw [Take_of_fast c.logging r token amount (s, []) b (by rw [hregl, hreg]) hb hle, hlog]
      simp
    · right
      have hslow : ∀ b, r.buckets token = some b → b.N < amount := by
        intro b hb
        by_contra hcon
        exact hfast ⟨b, hb, not_lt.mp hcon⟩
      refine ⟨rfl, hslow, ?_⟩
      unfold Take.journal
      rw [Take_of_slow c.logging r token amount (s, []) (by rw [hregl, hreg]) hslow, hlog]
      simp only [refill_logging, hfd, hft, hfs, List.nil_append]

/-- The journalling client does not change what a `Take` call does. -/
theorem Take_logging {σ : Type} (c : Client σ) (r : RedisRateLimiter)
    (token : String) (amount : Int) (s : σ) (l : List Event) :
    (Take c.logging r token amount (s, l)).1 = (Take c r token amount s).1
      ∧ (Take c.logging r token amount (s, l)).2.1 = (Take c r token amount s).2.1
      ∧ (Take c.logging r token amount (s, l)).2.2.1 = (Take c r token amount s).2.2 := by
  obtain ⟨J, -, -, -, hlog⟩ := register_logging c r s l
  have hregl : (Take.register c.logging r (s, l)).1 = (Take.register c r s).1 := by rw [hlog]
  cases hreg : (Take.register c r s).1 with
  | some err =>
    rw [Take_of_register_error c.logging r token amount (s, l) err (by rw [hregl, hreg]),
      Take_of_register_error c r token amount s err hreg, hlog]
    simp
  | none =>
    by_cases hfast : ∃ b, r.buckets token = some b ∧ amount ≤ b.N
    · obtain ⟨b, hb, hle⟩ := hfast
      rw [Take_of_fast c.logging r token amount (s, l) b (by rw [hregl, hreg]) hb hle,
        Take_of_fast c r token amount s b hreg hb hle, hlog]
      simp
    · have hslow : ∀ b, r.buckets token = some b → b.N < amount := by
        intro b hb
        by_contra hcon
        exact hfast ⟨b, hb, not_lt.mp hcon⟩
      rw [Take_of_slow c.logging r token amount (s, l) (by rw [hregl, hreg]) hslow,
        Take_of_slow c r token amount s hreg hslow, hlog]
      simp [refill_logging]

/-- The remaining count is read from the bucket map alone. -/
theorem remaining_congr (r1 r2 : RedisRateLimiter) (token : String)
    (h : r1.buckets = r2.buckets) : r1.remaining token = r2.remaining token := by
  simp [RedisRateLimiter.remaining, h]

/-- The remaining count right after a bucket is stored. -/
theorem remaining_setBucket (r : RedisRateLimiter) (token : String) (b : bucket) :
    (r.setBucket token b).remaining token = b.N := by
  simp [RedisRateLimiter.remaining, RedisRateLimiter.setBucket]

/-- A refill whose Allocator invocation fails. -/
theorem refill_error {σ : Type} (c : Client σ) (r : RedisRateLimiter) (token : String)
    (amount : Int) (b : Option bucket) (s : σ) (err : Err)
    (h : (c.EvalSha r.scriptSHA1 [token] [r.durationSecs, r.throughput, r.batchSize] s).1
          = .error err) :
    Take.refill c r token amount b s
      = (.ret false (some err), r,
          (c.EvalSha r.scriptSHA1 [token] [r.durationSecs, r.throughput, r.batchSize] s).2) := by
  unfold Take.refill
  rcases hev : c.EvalSha r.scriptSHA1 [token] [r.durationSecs, r.throughput, r.batchSize] s
    with ⟨_ | (count | _), s1⟩ <;> simp_all

/-- A refill answered with something that is not an integer. -/
theorem refill_other {σ : Type} (c : Client σ) (r : RedisRateLimiter) (token : String)
    (amount : Int) (b : Option bucket) (s : σ)
    (h : (c.EvalSha r.scriptSHA1 [token] [r.durationSecs, r.throughput, r.batchSize] s).1
          = .ok .other) :
    Take.refill c r token amount b s
      = (.panicked, r,
          (c.EvalSha r.scriptSHA1 [token] [r.durationSecs, r.throughput, r.batchSize] s).2) := by
  unfold Take.refill
  rcases hev : c.EvalSha r.scriptSHA1 [token] [r.durationSecs, r.throughput, r.batchSize] s
    with ⟨_ | (count | _), s1⟩ <;> simp_all

/-- A refill answered with a count that is not positive. -/
theorem refill_nonpositive {σ : Type} (c : Client σ) (r : RedisRateLimiter) (token : String)
    (amount : Int) (b : Option bucket) (s : σ) (count : Int)
    (h : (c.EvalSha r.scriptSHA1 [token] [r.durationSecs, r.throughput, r.batchSize] s).1
          = .ok (.int count)) (hcount : count ≤ 0) :
    Take.refill c r token amount b s
      = (.ret false none, r,
          (c.EvalSha r.scriptSHA1 [token] [r.durationSecs, r.throughput, r.batchSize] s).2) := by
  unfold Take.refill
  rcases hev : c.EvalSha r.scriptSHA1 [token] [r.durationSecs, r.throughput, r.batchSize] s
    with ⟨_ | (k | _), s1⟩ <;> simp_all

/-- A refill answered with a positive count. -/
theorem refill_positive {σ : Type} (c : Client σ) (r : RedisRateLimiter) (token : String)
    (amount : Int) (b : Option bucket) (s : σ) (count : Int)
    (h : (c.EvalSha r.scriptSHA1 [token] [r.durationSecs, r.throughput, r.batchSize] s).1
          = .ok (.int count)) (hcount : 0 < count) :
    Take.refill c r token amount b s
      = (if amount ≤ (merged r token b count).N then
          (.ret true none,
            r.setBucket token
              { merged r token b count with
                N := wrap64 ((merged r token b count).N - amount) },
            (c.EvalSha r.scriptSHA1 [token] [r.durationSecs, r.throughput, r.batchSize] s).2)
        else
          (.ret false none, r.setBucket token (merged r token b count),
            (c.EvalSha r.scriptSHA1 [token] [r.durationSecs, r.throughput, r.batchSize] s).2)) := by
  unfold Take.refill merged
  rcases hev : c.EvalSha r.scriptSHA1 [token] [r.durationSecs, r.throughput, r.batchSize] s
    with ⟨_ | (k | _), s1⟩
  · simp_all
  · rw [hev] at h
    simp only [Except.ok.injEq, Reply.int.injEq] at h
    subst h
    simp only [not_le.mpr hcount, if_false, ge_iff_le]
  · simp_all

/-- A Coordinator that holds a bucket holds a script identifier. -/
theorem Reachable.registered {r : RedisRateLimiter} (hr : Reachable r) :
    ∀ token b, r.buckets token = some b → r.scriptSHA1 ≠ "" := by
  induction hr with
  | fresh keyPrefix duration throughput batchSize =>
    intro token b hb
    simp [NewRedisRateLimiter] at hb
  | @take σ c r token amount s hload _ ih =>
    intro tok b hb
    -- the identifier after registration
    have hregsha : (Take.register c r s).1 = none → (Take.register c r s).2.1.scriptSHA1 ≠ "" := by
      unfold Take.register loadScript
      by_cases hsha : r.scriptSHA1 = ""
      · rw [if_pos hsha]
        rcases hex : c.ScriptExists SCRIPT_SHA1 s with ⟨_ | ex, s1⟩
        · simp [hex]
        · cases ex
          · rcases hld : c.ScriptLoad s1 with ⟨_ | v, s2⟩
            · simp [hex, hld]
            · have := hload s1 v (by rw [hld])
              simpa [hex, hld] using this
          · simp only [hex, if_true]
            intro _
            decide
      · simp [hsha]
    have hfb := (register_frame c r s).1
    cases hreg : (Take.register c r s).1 with
    | some err =>
      rw [Take_of_register_error c r token amount s err hreg] at hb ⊢
      simp only at hb ⊢
      rw [hfb] at hb
      have hne := ih tok b hb
      rw [register_held c r s hne]
      exact hne
    | none =>
      have hne := hregsha hreg
      by_cases hfast : ∃ b, r.buckets token = some b ∧ amount ≤ b.N
      · obtain ⟨b0, hb0, hle⟩ := hfast
        rw [Take_of_fast c r token amount s b0 hreg hb0 hle]
        exact hne
      · have hslow : ∀ b, r.buckets token = some b → b.N < amount := by
          intro b hb
          by_contra hcon
          exact hfast ⟨b, hb, not_lt.mp hcon⟩
        rw [Take_of_slow c r token amount s hreg hslow]
        unfold Take.refill
        rcases hev : c.EvalSha (Take.register c r s).2.1.scriptSHA1 [token]
            [(Take.register c r s).2.1.durationSecs, (Take.register c r s).2.1.throughput,
              (Take.register c r s).2.1.batchSize] (Take.register c r s).2.2
          with ⟨_ | (k | _), s1⟩
        · exact hne
        · simp only
          split
          · exact hne
          · split <;> exact hne
        · exact hne

/-- An Allocator invocation in the journal of a `Take` call: registration went
through, the fast path did not apply, and the reply is that of the `EvalSha`
issued by the refill. -/
theorem journal_evalSha {σ : Type} (c : Client σ) (r : RedisRateLimiter) (token : String)
    (amount : Int) (s : σ) (sha : String) (keys : List String) (args : List Int)
    (reply : Except Err Reply)
    (h : Event.evalSha sha keys args reply ∈ Take.journal c r token amount s) :
    (Take.register c r s).1 = none
      ∧ (∀ b, r.buckets token = some b → b.N < amount)
      ∧ (c.EvalSha (Take.register c r s).2.1.scriptSHA1 [token]
          [(Take.register c r s).2.1.durationSecs, (Take.register c r s).2.1.throughput,
            (Take.register c r s).2.1.batchSize] (Take.register c r s).2.2).1 = reply := by
  obtain ⟨hfb, hfd, hft, hfs, _⟩ := register_frame c r s
  obtain ⟨J, hJ, -, -, hcases⟩ := Take_journal_cases c r token amount s
  have hnotJ : Event.evalSha sha keys args reply ∉ J := by
    intro hmem
    have := hJ _ hmem
    simp [Event.isEvalSha] at this
  rcases hcases with ⟨-, hj⟩ | ⟨-, -, hj⟩ | ⟨hreg, hslow, hj⟩
  · rw [hj] at h; exact absurd h hnotJ
  · rw [hj] at h; exact absurd h hnotJ
  · rw [hj] at h
    rcases List.mem_append.mp h with hmem | hmem
    · exact absurd hmem hnotJ
    · simp only [List.mem_singleton, Event.evalSha.injEq] at hmem
      refine ⟨hreg, hslow, ?_⟩
      rw [hfd, hft, hfs]
      exact hmem.2.2.2.symm

/-! ## The Coordinator: results -/

/-- C5, as amended (Take fast path).  In every reachable Coordinator state,
when the token's Local Bucket exists with remaining count `N ≥ amount` and
`N - amount` does not exceed the largest `int64` (as for every amount `≥ 0`
on an `int64` count), `Take` returns `(true, nil)`, the bucket's remaining
count becomes exactly `N - amount`, the state behind the client is returned
untouched whatever the client is, and the journal of the call is empty: no
script registration and no Allocator invocation is made. -/
theorem Take_fast_path {σ : Type} (c : Client σ) (r : RedisRateLimiter) (token : String)
    (amount : Int) (s : σ) (b : bucket) (hr : Reachable r)
    (hb : r.buckets token = some b) (hle : amount ≤ b.N) (hrange : b.N - amount < 2 ^ 63) :
    Take c r token amount s
        = (.ret true none, r.setBucket token { b with N := b.N - amount }, s)
      ∧ (Take c r token amount s).2.1.remaining token = b.N - amount
      ∧ Take.journal c r token amount s = [] := by
  have hsha := hr.registered token b hb
  have hreg := register_held c r s hsha
  have hw : wrap64 (b.N - amount) = b.N - amount := wrap64_of_range _ (by omega) hrange
  have h1 : Take c r token amount s
      = (.ret true none, r.setBucket token { b with N := b.N - amount }, s) := by
    rw [Take_of_fast c r token amount s b (by rw [hreg]) hb hle, hreg, hw]
  refine ⟨h1, ?_, ?_⟩
  · rw [h1]
    exact remaining_setBucket r token _
  · obtain ⟨J, -, hJ0, -, hcases⟩ := Take_journal_cases c r token amount s
    have hJ := hJ0 hsha
    rcases hcases with ⟨-, hj⟩ | ⟨-, -, hj⟩ | ⟨-, hslow, -⟩
    · rw [hj, hJ]
    · rw [hj, hJ]
    · exact absurd (hslow b hb) (not_lt.mpr hle)

/-- C6, as amended (Take after a positive grant).  When the Allocator
invocation made by `Take` succeeds with a positive count `c` (so the Local
Bucket was absent or held `N < amount`; `N` reads 0 for an absent bucket) and
neither `N + c` nor `N + c - amount` exceeds the largest `int64`, `N` being
an `int64`, `Take` returns no error and the bucket exists afterwards; if
`N + c ≥ amount` the call is granted and the remaining count is
`N + c - amount`, otherwise it is not granted and the remaining count is
`N + c`. -/
theorem Take_positive_grant {σ : Type} (c : Client σ) (r : RedisRateLimiter) (token : String)
    (amount : Int) (s : σ) (sha : String) (keys : List String) (args : List Int) (count : Int)
    (hgrant : Event.evalSha sha keys args (.ok (.int count)) ∈ Take.journal c r token amount s)
    (hcount : 0 < count) (hlow : -2 ^ 63 ≤ r.remaining token)
    (hsum : r.remaining token + count < 2 ^ 63)
    (hdiff : r.remaining token + count - amount < 2 ^ 63) :
    (r.buckets token = none ∨ r.remaining token < amount)
      ∧ (Take c r token amount s).1
        = .ret (decide (amount ≤ r.remaining token + count)) none
      ∧ (∃ b, (Take c r token amount s).2.1.buckets token = some b)
      ∧ (amount ≤ r.remaining token + count →
          (Take c r token amount s).2.1.remaining token = r.remaining token + count - amount)
      ∧ (r.remaining token + count < amount →
          (Take c r token amount s).2.1.remaining token = r.remaining token + count) := by
  obtain ⟨hreg, hslow, hev⟩ := journal_evalSha c r token amount s sha keys args _ hgrant
  have hfb := (register_frame c r s).1
  have hm : (merged (Take.register c r s).2.1 token (r.buckets token) count).N
      = r.remaining token + count := by
    unfold merged
    unfold RedisRateLimiter.remaining at hlow hsum ⊢
    cases hrb : r.buckets token with
    | none => simp
    | some b0 =>
      rw [hrb] at hlow hsum
      simp only at hlow hsum ⊢
      exact wrap64_of_range _ (by omega) hsum
  have hT := Take_of_slow c r token amount s hreg hslow
  rw [refill_positive c _ token amount (r.buckets token) _ count hev hcount, hm] at hT
  refine ⟨?_, ?_, ?_, ?_, ?_⟩
  · cases hb : r.buckets token with
    | none => exact Or.inl rfl
    | some b =>
      right
      have := hslow b hb
      simpa [RedisRateLimiter.remaining, hb] using this
  · rw [hT]
    by_cases hle : amount ≤ r.remaining token + count
    · simp [hle]
    · simp [hle]
  · rw [hT]
    by_cases hle : amount ≤ r.remaining token + count
    · simp [hle, RedisRateLimiter.setBucket]
    · simp [hle, RedisRateLimiter.setBucket]
  · intro hle
    rw [hT, if_pos hle]
    simp only
    rw [remaining_setBucket]
    exact wrap64_of_range _ (by omega) hdiff
  · intro hlt
    rw [hT, if_neg (not_le.mpr hlt)]
    simp only
    rw [remaining_setBucket, hm]

/-- C7 (Take on an exhausted window).  When the Allocator invocation made by
`Take` succeeds with a count that is not positive (0 is what the script
returns on an exhausted window), `Take` returns `(false, nil)` and the bucket
map is exactly as before the call.  With throughput 5 and batch size 10, after
a granted `Take(token, 5)` in a fresh window, `Take(token, 1)` in the same
window is not granted. -/
theorem Take_exhausted {σ : Type} (c : Client σ) (r : RedisRateLimiter) (token : String)
    (amount : Int) (s : σ) (sha : String) (keys : List String) (args : List Int) (count : Int)
    (hreply : Event.evalSha sha keys args (.ok (.int count)) ∈ Take.journal c r token amount s)
    (hcount : count ≤ 0) :
    ((Take c r token amount s).1 = .ret false none
        ∧ (Take c r token amount s).2.1.buckets = r.buckets)
      ∧ (Example.smallFirst.1 = .ret true none
        ∧ (Take (redisClient .reliable) Example.smallFirst.2.1 "u1" 1 Example.smallFirst.2.2).1
          = .ret false none) := by
  refine ⟨?_, by decide⟩
  obtain ⟨hreg, hslow, hev⟩ := journal_evalSha c r token amount s sha keys args _ hreply
  have hfb := (register_frame c r s).1
  have hT := Take_of_slow c r token amount s hreg hslow
  rw [refill_nonpositive c _ token amount (r.buckets token) _ count hev hcount] at hT
  rw [hT]
  exact ⟨rfl, hfb⟩

/-- C8 (No waste on failure).  When the Allocator invocation made by `Take`
fails with a shared-store error, `Take` returns `(false, that error)` and the
bucket map is identical to the one before the call. -/
theorem Take_allocator_error {σ : Type} (c : Client σ) (r : RedisRateLimiter)
    (token : String) (amount : Int) (s : σ) (sha : String) (keys : List String)
    (args : List Int) (err : Err)
    (hfail : Event.evalSha sha keys args (.error err) ∈ Take.journal c r token amount s) :
    (Take c r token amount s).1 = .ret false (some err)
      ∧ (Take c r token amount s).2.1.buckets = r.buckets := by
  obtain ⟨hreg, hslow, hev⟩ := journal_evalSha c r token amount s sha keys args _ hfail
  have hfb := (register_frame c r s).1
  have hT := Take_of_slow c r token amount s hreg hslow
  rw [refill_error c _ token amount (r.buckets token) _ err hev] at hT
  rw [hT]
  exact ⟨rfl, hfb⟩

/-- C9 (Script registration failure).  When the Coordinator holds no script
identifier and registration fails (the existence check fails, or the script
is reported absent and loading it fails), `Take` returns `(false, that
error)`, its journal holds no Allocator invocation, the Coordinator (bucket
map included) is exactly as before and its script identifier is still empty;
the next `Take`, whatever it is, starts with the existence check again. -/
theorem Take_registration_failure {σ : Type} (c : Client σ) (r : RedisRateLimiter)
    (token : String) (amount : Int) (s : σ) (err : Err) (hsha : r.scriptSHA1 = "")
    (hfail : (c.ScriptExists SCRIPT_SHA1 s).1 = .error err
      ∨ ((c.ScriptExists SCRIPT_SHA1 s).1 = .ok false
          ∧ (c.ScriptLoad (c.ScriptExists SCRIPT_SHA1 s).2).1 = .error err)) :
    (Take c r token amount s).1 = .ret false (some err)
      ∧ (∀ e ∈ Take.journal c r token amount s, e.isEvalSha = false)
      ∧ (Take c r token amount s).2.1 = r
      ∧ (Take c r token amount s).2.1.buckets = r.buckets
      ∧ (Take c r token amount s).2.1.scriptSHA1 = ""
      ∧ (∀ {τ : Type} (c2 : Client τ) (token2 : String) (amount2 : Int) (s2 : τ),
          (Take.journal c2 (Take c r token amount s).2.1 token2 amount2 s2).head?
            = some (Event.scriptExists SCRIPT_SHA1 (c2.ScriptExists SCRIPT_SHA1 s2).1)) := by
  have hreg : (Take.register c r s).1 = some err ∧ (Take.register c r s).2.1 = r := by
    unfold Take.register loadScript
    rw [if_pos hsha]
    rcases hex : c.ScriptExists SCRIPT_SHA1 s with ⟨_ | ex, s1⟩
    · rw [hex] at hfail
      simp only [Except.error.injEq, reduceCtorEq, false_and, or_false] at hfail
      simp [hex, hfail]
    · rw [hex] at hfail
      simp only [reduceCtorEq, Except.ok.injEq, false_or] at hfail
      obtain ⟨hfalse, hld⟩ := hfail
      subst hfalse
      rcases hld2 : c.ScriptLoad s1 with ⟨_ | v, s2⟩
      · rw [hld2] at hld
        simp only [Except.error.injEq] at hld
        subst hld
        simp only [hex, hld2, Bool.false_eq_true, if_false, true_and]
        cases r
        simp only at hsha
        subst hsha
        rfl
      · rw [hld2] at hld
        simp at hld
  have hT := Take_of_register_error c r token amount s err hreg.1
  rw [hreg.2] at hT
  have hr' : (Take c r token amount s).2.1 = r := by rw [hT]
  refine ⟨by rw [hT], ?_, hr', by rw [hr'], by rw [hr', hsha], ?_⟩
  · obtain ⟨J, hJ, -, -, hcases⟩ := Take_journal_cases c r token amount s
    rcases hcases with ⟨-, hj⟩ | ⟨hnone, -, -⟩ | ⟨hnone, -, -⟩
    · rw [hj]; exact hJ
    · rw [hreg.1] at hnone; simp at hnone
    · rw [hreg.1] at hnone; simp at hnone
  · intro τ c2 token2 amount2 s2
    rw [hr']
    obtain ⟨J, -, -, hJ1, hcases⟩ := Take_journal_cases c2 r token2 amount2 s2
    have hhead := hJ1 hsha
    rcases hcases with ⟨-, hj⟩ | ⟨-, -, hj⟩ | ⟨-, -, hj⟩
    · rw [hj, hhead]
    · rw [hj, hhead]
    · rw [hj]
      cases J with
      | nil => simp at hhead
      | cons e rest => simpa using hhead

/-- C10, as amended (Monotonic local consumption).  For every amount `≥ 0`, a
`Take` call whose journal holds no positive Allocator grant (fast path,
Allocator returning 0, shared-store error, failed registration) leaves the
token's remaining cached count no larger than it was before the call. -/
theorem Take_monotone {σ : Type} (c : Client σ) (r : RedisRateLimiter) (token : String)
    (amount : Int) (s : σ) (hamount : 0 ≤ amount)
    (hnogrant : ∀ e ∈ Take.journal c r token amount s, e.isPositiveGrant = false) :
    (Take c r token amount s).2.1.remaining token ≤ r.remaining token := by
  have hfb := (register_frame c r s).1
  obtain ⟨J, -, -, -, hcases⟩ := Take_journal_cases c r token amount s
  rcases hcases with ⟨⟨err, hreg⟩, -⟩ | ⟨hreg, ⟨b, hb, hle⟩, -⟩ | ⟨hreg, hslow, hj⟩
  · rw [Take_of_register_error c r token amount s err hreg]
    exact le_of_eq (remaining_congr _ _ token hfb)
  · rw [Take_of_fast c r token amount s b hreg hb hle]
    simp only
    rw [remaining_setBucket]
    simp only [RedisRateLimiter.remaining, hb]
    have := wrap64_le (b.N - amount) (by omega)
    omega
  · obtain ⟨_, hfd, hft, hfs, _⟩ := register_frame c r s
    have hlast := hnogrant _ (by rw [hj]; exact List.mem_append_right _ (List.mem_singleton_self _))
    rw [Take_of_slow c r token amount s hreg hslow]
    rw [← hfd, ← hft, ← hfs] at hlast
    rcases hev : (c.EvalSha (Take.register c r s).2.1.scriptSHA1 [token]
        [(Take.register c r s).2.1.durationSecs, (Take.register c r s).2.1.throughput,
          (Take.register c r s).2.1.batchSize] (Take.register c r s).2.2).1
      with err | (count | _)
    · rw [refill_error c _ token amount _ _ err hev]
      exact le_of_eq (remaining_congr _ _ token hfb)
    · rw [hev] at hlast
      simp only [Event.isPositiveGrant, decide_eq_false_iff_not, not_lt] at hlast
      rw [refill_nonpositive c _ token amount _ _ count hev hlast]
      exact le_of_eq (remaining_congr _ _ token hfb)
    · rw [refill_other c _ token amount _ _ hev]
      exact le_of_eq (remaining_congr _ _ token hfb)

/-- The go-redis client over a reliable network answers a successful
`SCRIPT LOAD` with a non-empty identifier. -/
theorem reliable_load_nonempty (s0 : Redis) (v : String)
    (h : ((redisClient .reliable).ScriptLoad s0).1 = .ok v) : v ≠ "" := by
  simp only [redisClient, Net.reliable, Fault.send, Redis.scriptLoad, Except.ok.injEq] at h
  subst h
  decide

/-- The Coordinator state after the first `Take` of the example is reachable. -/
theorem Example.first_reachable : Reachable Example.first.2.1 :=
  Reachable.take (redisClient .reliable) Example.limiter0 "u1" 5 Example.redis0
    reliable_load_nonempty (Reachable.fresh "p" Second 100 10)

/-- Witness for C5: after the first `Take("u1", 5)` granted 10 and left 5, a
second `Take("u1", 5)` is served from the bucket, leaves 0 and talks to
nobody. -/
theorem Take_fast_path_witness :
    (Example.first.2.1.buckets "u1" = some ⟨"p:u1", 5⟩ ∧ (5 : Int) ≤ 5
        ∧ (5 : Int) - 5 < 2 ^ 63)
      ∧ (Take (redisClient .reliable) Example.first.2.1 "u1" 5 Example.first.2.2).1
        = .ret true none
      ∧ (Take (redisClient .reliable) Example.first.2.1 "u1" 5
          Example.first.2.2).2.1.remaining "u1" = 0
      ∧ Take.journal (redisClient .reliable) Example.first.2.1 "u1" 5 Example.first.2.2 = [] :=
  have h := Take_fast_path (redisClient .reliable) Example.first.2.1 "u1" 5 Example.first.2.2
    ⟨"p:u1", 5⟩ Example.first_reachable (by decide) (by decide) (by decide)
  ⟨⟨by decide, by decide, by decide⟩, by rw [h.1], h.2.1, h.2.2⟩

/-- The journal of the first `Take("u1", 5)` of the example: the existence
check, the load, and one Allocator invocation granting 10. -/
theorem Example.first_journal :
    Take.journal (redisClient .reliable) Example.limiter0 "u1" 5 Example.redis0
      = [Event.scriptExists SCRIPT_SHA1 (.ok false), Event.scriptLoad (.ok SCRIPT_SHA1),
          Event.evalSha SCRIPT_SHA1 ["u1"] [1, 100, 10] (.ok (.int 10))] := by
  rfl

/-- Witness for C6: the first `Take("u1", 5)` of the example is granted 10 by
the Allocator, is granted, and leaves 5. -/
theorem Take_positive_grant_witness :
    (Event.evalSha SCRIPT_SHA1 ["u1"] [1, 100, 10] (.ok (.int 10))
        ∈ Take.journal (redisClient .reliable) Example.limiter0 "u1" 5 Example.redis0
      ∧ (0 : Int) < 10 ∧ -2 ^ 63 ≤ Example.limiter0.remaining "u1"
      ∧ Example.limiter0.remaining "u1" + 10 < 2 ^ 63
      ∧ Example.limiter0.remaining "u1" + 10 - 5 < 2 ^ 63)
      ∧ Example.first.1 = .ret true none
      ∧ Example.first.2.1.remaining "u1" = 5 :=
  have hmem : Event.evalSha SCRIPT_SHA1 ["u1"] [1, 100, 10] (.ok (.int 10))
      ∈ Take.journal (redisClient .reliable) Example.limiter0 "u1" 5 Example.redis0 := by
    rw [Example.first_journal]; simp
  have h := Take_positive_grant (redisClient .reliable) Example.limiter0 "u1" 5 Example.redis0
    SCRIPT_SHA1 ["u1"] [1, 100, 10] 10 hmem (by decide) (by decide) (by decide) (by decide)
  ⟨⟨hmem, by decide, by decide, by decide, by decide⟩, h.2.1.trans (by decide),
    (h.2.2.2.1 (by decide)).trans (by decide)⟩

/-- Witness for C7: throughput 5, batch size 10; after the granted
`Take("u1", 5)`, the Allocator answers `Take("u1", 1)` with 0. -/
theorem Take_exhausted_witness :
    (Event.evalSha SCRIPT_SHA1 ["u1"] [1, 5, 10] (.ok (.int 0))
        ∈ Take.journal (redisClient .reliable) Example.smallFirst.2.1 "u1" 1
            Example.smallFirst.2.2
      ∧ (0 : Int) ≤ 0)
      ∧ (Take (redisClient .reliable) Example.smallFirst.2.1 "u1" 1 Example.smallFirst.2.2).1
        = .ret false none
      ∧ (Take (redisClient .reliable) Example.smallFirst.2.1 "u1" 1
          Example.smallFirst.2.2).2.1.buckets = Example.smallFirst.2.1.buckets :=
  have hj : Take.journal (redisClient .reliable) Example.smallFirst.2.1 "u1" 1
      Example.smallFirst.2.2
      = [Event.evalSha SCRIPT_SHA1 ["u1"] [1, 5, 10] (.ok (.int 0))] := rfl
  have hmem : Event.evalSha SCRIPT_SHA1 ["u1"] [1, 5, 10] (.ok (.int 0))
      ∈ Take.journal (redisClient .reliable) Example.smallFirst.2.1 "u1" 1
          Example.smallFirst.2.2 := by
    rw [hj]; simp
  ⟨⟨hmem, by decide⟩,
    (Take_exhausted (redisClient .reliable) Example.smallFirst.2.1 "u1" 1
      Example.smallFirst.2.2 SCRIPT_SHA1 ["u1"] [1, 5, 10] 0 hmem (by decide)).1⟩

/-- A network on which the Allocator invocation times out. -/
theorem Example.timeout_journal :
    Take.journal (redisClient ⟨.delivered, .delivered, .requestLost "i/o timeout"⟩)
        Example.limiter0 "u1" 5 Example.redis0
      = [Event.scriptExists SCRIPT_SHA1 (.ok false), Event.scriptLoad (.ok SCRIPT_SHA1),
          Event.evalSha SCRIPT_SHA1 ["u1"] [1, 100, 10] (.error "i/o timeout")] := by
  rfl

/-- Witness for C8: the Allocator invocation of the first `Take("u1", 5)`
times out; the call returns that error and no bucket appears. -/
theorem Take_allocator_error_witness :
    Event.evalSha SCRIPT_SHA1 ["u1"] [1, 100, 10] (.error "i/o timeout")
        ∈ Take.journal (redisClient ⟨.delivered, .delivered, .requestLost "i/o timeout"⟩)
            Example.limiter0 "u1" 5 Example.redis0
      ∧ (Take (redisClient ⟨.delivered, .delivered, .requestLost "i/o timeout"⟩)
          Example.limiter0 "u1" 5 Example.redis0).1 = .ret false (some "i/o timeout")
      ∧ (Take (redisClient ⟨.delivered, .delivered, .requestLost "i/o timeout"⟩)
          Example.limiter0 "u1" 5 Example.redis0).2.1.buckets = Example.limiter0.buckets :=
  have hmem : Event.evalSha SCRIPT_SHA1 ["u1"] [1, 100, 10] (.error "i/o timeout")
      ∈ Take.journal (redisClient ⟨.delivered, .delivered, .requestLost "i/o timeout"⟩)
          Example.limiter0 "u1" 5 Example.redis0 := by
    rw [Example.timeout_journal]; simp
  ⟨hmem, Take_allocator_error (redisClient ⟨.delivered, .delivered, .requestLost "i/o timeout"⟩)
    Example.limiter0 "u1" 5 Example.redis0 SCRIPT_SHA1 ["u1"] [1, 100, 10] "i/o timeout" hmem⟩

/-- Witness for C9: the existence check of the first `Take("u1", 5)` is
refused; the call returns that error and the Coordinator is as before. -/
theorem Take_registration_failure_witness :
    (Example.limiter0.scriptSHA1 = ""
      ∧ ((redisClient ⟨.requestLost "connection refused", .delivered, .delivered⟩).ScriptExists
          SCRIPT_SHA1 Example.redis0).1 = .error "connection refused")
      ∧ (Take (redisClient ⟨.requestLost "connection refused", .delivered, .delivered⟩)
          Example.limiter0 "u1" 5 Example.redis0).1 = .ret false (some "connection refused")
      ∧ (Take (redisClient ⟨.requestLost "connection refused", .delivered, .delivered⟩)
          Example.limiter0 "u1" 5 Example.redis0).2.1 = Example.limiter0 :=
  have h := Take_registration_failure
    (redisClient ⟨.requestLost "connection refused", .delivered, .delivered⟩)
    Example.limiter0 "u1" 5 Example.redis0 "connection refused" rfl (Or.inl rfl)
  ⟨⟨rfl, rfl⟩, h.1, h.2.2.1⟩

/-- Witness for C10 as amended: a `Take("u1", 2)` served from a bucket holding
5 leaves no more than 5. -/
theorem Take_monotone_witness :
    ((0 : Int) ≤ 2
      ∧ ∀ e ∈ Take.journal (redisClient .reliable) Example.first.2.1 "u1" 2 Example.first.2.2,
          e.isPositiveGrant = false)
      ∧ (Take (redisClient .reliable) Example.first.2.1 "u1" 2
          Example.first.2.2).2.1.remaining "u1" ≤ Example.first.2.1.remaining "u1" :=
  ⟨⟨by decide, by decide⟩,
    Take_monotone (redisClient .reliable) Example.first.2.1 "u1" 2 Example.first.2.2
      (by decide) (by decide)⟩

/-- Counterexample to C10 as stated: on a bucket holding 5, `Take("u1", -3)`
takes the fast path (no Allocator grant: the journal is empty) and leaves the
bucket at 8. -/
theorem Take_monotone_fails_for_negative_amount :
    Example.first.2.1.remaining "u1" = 5
      ∧ (∀ e ∈ Take.journal (redisClient .reliable) Example.first.2.1 "u1" (-3)
            Example.first.2.2, e.isPositiveGrant = false)
      ∧ (Take (redisClient .reliable) Example.first.2.1 "u1" (-3) Example.first.2.2).1
        = .ret true none
      ∧ (Take (redisClient .reliable) Example.first.2.1 "u1" (-3)
          Example.first.2.2).2.1.remaining "u1" = 8
      ∧ ¬ ((Take (redisClient .reliable) Example.first.2.1 "u1" (-3)
            Example.first.2.2).2.1.remaining "u1" ≤ Example.first.2.1.remaining "u1") := by
  decide



/-- Counterexample to C5 as stated: the bucket of `"u1"` holds 5, in a
reachable state, and `Take("u1", math.MinInt64)` takes the fast path
(`5 ≥ MinInt64`); the subtraction `5 - MinInt64` overflows and leaves
`-9223372036854775803`, not `5 - MinInt64 = 9223372036854775813`. -/
theorem Take_fast_path_fails_on_overflow :
    Example.first.2.1.buckets "u1" = some ⟨"p:u1", 5⟩
      ∧ Example.minInt64 ≤ 5
      ∧ Example.underflow.1 = .ret true none
      ∧ Example.underflow.2.1.remaining "u1" = -9223372036854775803
      ∧ (5 : Int) - Example.minInt64 = 9223372036854775813
      ∧ Example.underflow.2.1.remaining "u1" ≠ 5 - Example.minInt64 := by
  decide

/-- Counterexample to C6 as stated: the first `Take("u1", math.MinInt64)` of
a fresh Coordinator.  The bucket is absent, the Allocator grants 10,
`0 + 10 ≥ MinInt64`, the call is granted, and `10 - MinInt64` overflows: the
bucket holds `-9223372036854775798`, not `9223372036854775818`. -/
theorem Take_positive_grant_fails_on_overflow :
    Example.limiter0.buckets "u1" = none
      ∧ Take.journal (redisClient .reliable) Example.limiter0 "u1" Example.minInt64
          Example.redis0
        = [Event.scriptExists SCRIPT_SHA1 (.ok false), Event.scriptLoad (.ok SCRIPT_SHA1),
            Event.evalSha SCRIPT_SHA1 ["u1"] [1, 100, 10] (.ok (.int 10))]
      ∧ Example.minInt64 ≤ Example.limiter0.remaining "u1" + 10
      ∧ Example.firstMin.1 = .ret true none
      ∧ Example.firstMin.2.1.remaining "u1" = -9223372036854775798
      ∧ Example.limiter0.remaining "u1" + 10 - Example.minInt64 = 9223372036854775818
      ∧ Example.firstMin.2.1.remaining "u1"
        ≠ Example.limiter0.remaining "u1" + 10 - Example.minInt64 :=
  ⟨by decide, rfl, by decide, by decide, by decide, by decide, by decide⟩

/-! ## Coordinators sharing one store -/

/-- Registration over the network changes nothing in the server but the
script cache. -/
theorem register_redis (net : Net) (r : RedisRateLimiter) (s : Redis) :
    ∃ flag : Bool, (Take.register (redisClient net) r s).2.2 = { s with scriptLoaded := flag } := by
  unfold Take.register loadScript
  by_cases hsha : r.scriptSHA1 = ""
  · rw [if_pos hsha]
    obtain ⟨f1, f2, f3⟩ := net
    cases f1 <;> cases f2 <;> cases hL : s.scriptLoaded <;>
      simp only [redisClient, Fault.send, Redis.scriptExists, Redis.scriptLoad, hL,
        Bool.false_and, Bool.true_and, decide_True, Bool.false_eq_true, if_false, if_true] <;>
      first
        | exact ⟨s.scriptLoaded, rfl⟩
        | exact ⟨true, rfl⟩
  · rw [if_neg hsha]
    exact ⟨s.scriptLoaded, rfl⟩

/-- An `EVALSHA` sent over the network either leaves the server as it is and
fails, or runs the script; in the latter case the caller gets the count the
script returned, or an error: that of the script, or that of a lost reply. -/
theorem evalSha_redis (net : Net) (sha tok : String) (d throughput batch_size : Int)
    (s : Redis) :
    (((redisClient net).EvalSha sha [tok] [d, throughput, batch_size] s).2 = s
        ∧ ∃ err, ((redisClient net).EvalSha sha [tok] [d, throughput, batch_size] s).1
            = .error err)
      ∨ (((redisClient net).EvalSha sha [tok] [d, throughput, batch_size] s).2
            = (SCRIPT tok d throughput batch_size s).2
          ∧ ((∃ n, (SCRIPT tok d throughput batch_size s).1 = .ok n
                ∧ ((redisClient net).EvalSha sha [tok] [d, throughput, batch_size] s).1
                  = .ok (.int n))
              ∨ ∃ err, ((redisClient net).EvalSha sha [tok] [d, throughput, batch_size] s).1
                  = .error err)) := by
  obtain ⟨f1, f2, f3⟩ := net
  by_cases hrun : s.scriptLoaded = true ∧ sha = SCRIPT_SHA1
  · cases f3 with
    | delivered =>
      right
      simp only [redisClient, Fault.send, Redis.evalSha, hrun, and_self, if_true]
      generalize SCRIPT tok d throughput batch_size s = out
      obtain ⟨o1, o2⟩ := out
      cases o1 <;> simp
    | requestLost err =>
      left
      simp [redisClient, Fault.send]
    | replyLost err =>
      right
      simp only [redisClient, Fault.send, Redis.evalSha, hrun, and_self, if_true]
      generalize SCRIPT tok d throughput batch_size s = out
      obtain ⟨o1, o2⟩ := out
      cases o1 <;> simp
  · left
    cases f3 <;> simp [redisClient, Fault.send, Redis.evalSha, hrun]

/-- What one `Take` call over the network does to its Coordinator and to the
server.  The clock and the configuration are untouched, only the bucket of
the token may change, it holds an `int64` afterwards if it did before, and
the permits accounted for, those cached afterwards plus the amount when
granted, are covered by those cached before plus a `credit`: either nothing,
with the keyspace untouched or changed by one run of the script, or the
positive count that one run of the script returned.  The script runs on the
server as registration left it, with the script cache in some state. -/
theorem Take_redis_effect (net : Net) (r : RedisRateLimiter) (tok : String) (a : Int)
    (s : Redis) :
    ∃ (credit : Int) (flag : Bool),
      (Take (redisClient net) r tok a s).2.2.time = s.time
      ∧ (Take (redisClient net) r tok a s).2.1.durationSecs = r.durationSecs
      ∧ (Take (redisClient net) r tok a s).2.1.throughput = r.throughput
      ∧ (Take (redisClient net) r tok a s).2.1.batchSize = r.batchSize
      ∧ (∀ t, t ≠ tok → (Take (redisClient net) r tok a s).2.1.buckets t = r.buckets t)
      ∧ (-2 ^ 63 ≤ r.remaining tok →
          -2 ^ 63 ≤ (Take (redisClient net) r tok a s).2.1.remaining tok
            ∧ max ((Take (redisClient net) r tok a s).2.1.remaining tok) 0
                + (if (Take (redisClient net) r tok a s).1.granted then a else 0)
              ≤ max (r.remaining tok) 0 + credit)
      ∧ ((credit = 0 ∧ (Take (redisClient net) r tok a s).2.2.db = s.db)
        ∨ ((credit = 0
              ∨ (0 < credit
                  ∧ (SCRIPT tok r.durationSecs r.throughput r.batchSize
                      { s with scriptLoaded := flag }).1 = .ok credit))
            ∧ (Take (redisClient net) r tok a s).2.2.db
              = (SCRIPT tok r.durationSecs r.throughput r.batchSize
                  { s with scriptLoaded := flag }).2.db)) := by
  obtain ⟨hfb, hfd, hft, hfs, _⟩ := register_frame (redisClient net) r s
  obtain ⟨flag, hflag⟩ := register_redis net r s
  have hrem : (Take.register (redisClient net) r s).2.1.remaining tok = r.remaining tok :=
    remaining_congr _ _ tok hfb
  have hsame : ∀ x : Int, -2 ^ 63 ≤ x → -2 ^ 63 ≤ x ∧ max x 0 + 0 ≤ max x 0 + 0 :=
    fun x hx => ⟨hx, le_refl _⟩
  cases hreg : (Take.register (redisClient net) r s).1 with
  | some err =>
    rw [Take_of_register_error (redisClient net) r tok a s err hreg]
    refine ⟨0, flag, ?_, hfd, hft, hfs, ?_, ?_, Or.inl ⟨rfl, ?_⟩⟩
    · simp [hflag]
    · intro t _; rw [hfb]
    · intro h
      simpa [Result.granted, hrem] using h
    · simp [hflag]
  | none =>
    by_cases hfast : ∃ b, r.buckets tok = some b ∧ a ≤ b.N
    · obtain ⟨b, hb, hle⟩ := hfast
      rw [Take_of_fast (redisClient net) r tok a s b hreg hb hle]
      refine ⟨0, flag, ?_, hfd, hft, hfs, ?_, ?_, Or.inl ⟨rfl, ?_⟩⟩
      · simp [hflag]
      · intro t ht
        simp [RedisRateLimiter.setBucket, ht, hfb]
      · intro _
        simp only [remaining_setBucket, Result.granted, if_true]
        have h1 := wrap64_le (b.N - a) (by omega)
        have h2 := (wrap64_range (b.N - a)).1
        have h3 : r.remaining tok = b.N := by simp [RedisRateLimiter.remaining, hb]
        rw [h3]
        refine ⟨h2, ?_⟩
        rcases le_total (wrap64 (b.N - a)) 0 with h | h
        · rw [max_eq_right h]
          have := le_max_left b.N 0
          omega
        · rw [max_eq_left h]
          have := le_max_left b.N 0
          omega
      · simp [hflag]
    · have hslow : ∀ b, r.buckets tok = some b → b.N < a := by
        intro b hb
        by_contra hcon
        exact hfast ⟨b, hb, not_lt.mp hcon⟩
      rw [Take_of_slow (redisClient net) r tok a s hreg hslow]
      have hargs : (redisClient net).EvalSha (Take.register (redisClient net) r s).2.1.scriptSHA1
            [tok] [(Take.register (redisClient net) r s).2.1.durationSecs,
              (Take.register (redisClient net) r s).2.1.throughput,
              (Take.register (redisClient net) r s).2.1.batchSize]
            (Take.register (redisClient net) r s).2.2
          = (redisClient net).EvalSha (Take.register (redisClient net) r s).2.1.scriptSHA1
              [tok] [r.durationSecs, r.throughput, r.batchSize]
              (Take.register (redisClient net) r s).2.2 := by
        rw [hfd, hft, hfs]
      have htime2 := (SCRIPT_frame tok r.durationSecs r.throughput r.batchSize
        { s with scriptLoaded := flag }).1
      rcases evalSha_redis net (Take.register (redisClient net) r s).2.1.scriptSHA1 tok
          r.durationSecs r.throughput r.batchSize (Take.register (redisClient net) r s).2.2
        with ⟨hs2, err, herr⟩ | ⟨hs2, ⟨n, hn, hok⟩ | ⟨err, herr⟩⟩
      · rw [refill_error (redisClient net) _ tok a _ _ err (by rw [hargs]; exact herr), hargs]
        refine ⟨0, flag, ?_, hfd, hft, hfs, ?_, ?_, Or.inl ⟨rfl, ?_⟩⟩
        · rw [hs2, hflag]
        · intro t _; rw [hfb]
        · intro h
          simpa [Result.granted, hrem] using h
        · rw [hs2, hflag]
      · rw [hflag] at hs2 hn
        by_cases hpos : 0 < n
        · rw [refill_positive (redisClient net) _ tok a _ _ _ (by rw [hargs]; exact hok) hpos,
            hargs]
          have hM : -2 ^ 63 ≤ r.remaining tok →
              -2 ^ 63 ≤ (merged (Take.register (redisClient net) r s).2.1 tok
                  (r.buckets tok) n).N
                ∧ (merged (Take.register (redisClient net) r s).2.1 tok (r.buckets tok) n).N
                  ≤ max (r.remaining tok) 0 + n := by
            intro hlow
            unfold merged
            unfold RedisRateLimiter.remaining at hlow ⊢
            cases hrb : r.buckets tok with
            | none =>
              simp only [max_self]
              omega
            | some b0 =>
              rw [hrb] at hlow
              simp only at hlow ⊢
              have h1 := wrap64_le (b0.N + n) (by omega)
              have h2 := (wrap64_range (b0.N + n)).1
              have := le_max_left b0.N 0
              exact ⟨h2, by omega⟩
          refine ⟨n, flag, ?_, ?_, ?_, ?_, ?_, ?_, Or.inr ⟨Or.inr ⟨hpos, hn⟩, ?_⟩⟩
          · split <;> simp [hflag, hs2, htime2]
          · split <;> simpa [RedisRateLimiter.setBucket] using hfd
          · split <;> simpa [RedisRateLimiter.setBucket] using hft
          · split <;> simpa [RedisRateLimiter.setBucket] using hfs
          · intro t ht
            split <;> simp [RedisRateLimiter.setBucket, ht, hfb]
          · intro hlow
            obtain ⟨hM1, hM2⟩ := hM hlow
            split
            · rename_i hle
              simp only [remaining_setBucket, Result.granted, if_true]
              have h1 := wrap64_le ((merged (Take.register (redisClient net) r s).2.1 tok
                (r.buckets tok) n).N - a) (by omega)
              have h2 := (wrap64_range ((merged (Take.register (redisClient net) r s).2.1 tok
                (r.buckets tok) n).N - a)).1
              refine ⟨h2, ?_⟩
              rcases le_total (wrap64 ((merged (Take.register (redisClient net) r s).2.1 tok
                (r.buckets tok) n).N - a)) 0 with h | h
              · rw [max_eq_right h]
                omega
              · rw [max_eq_left h]
                omega
            · simp only [remaining_setBucket, Result.granted, Bool.false_eq_true, if_false,
                add_zero]
              refine ⟨hM1, ?_⟩
              have := le_max_left (r.remaining tok) 0
              have := le_max_right (r.remaining tok) 0
              exact max_le hM2 (by omega)
          · split <;> simp [hflag, hs2]
        · rw [refill_nonpositive (redisClient net) _ tok a _ _ _ (by rw [hargs]; exact hok)
            (not_lt.mp hpos), hargs]
          refine ⟨0, flag, ?_, hfd, hft, hfs, ?_, ?_, Or.inr ⟨Or.inl rfl, ?_⟩⟩
          · simp [hflag, hs2, htime2]
          · intro t _; rw [hfb]
          · intro h
            simpa [Result.granted, hrem] using h
          · simp [hflag, hs2]
      · rw [hflag] at hs2
        rw [refill_error (redisClient net) _ tok a _ _ err (by rw [hargs]; exact herr), hargs]
        refine ⟨0, flag, ?_, hfd, hft, hfs, ?_, ?_, Or.inr ⟨Or.inl rfl, ?_⟩⟩
        · simp [hflag, hs2, htime2]
        · intro t _; rw [hfb]
        · intro h
          simpa [Result.granted, hrem] using h
        · simp [hflag, hs2]

/-- The window identifier does not decrease with time. -/
theorem ceilDiv_mono (t1 t2 d : Int) (hd : 1 ≤ d) (h : t1 ≤ t2) :
    ceilDiv t1 d ≤ ceilDiv t2 d := by
  unfold ceilDiv
  have := Int.ediv_le_ediv (show 0 < d by omega) (show -t2 ≤ -t1 by omega)
  omega

/-- Whatever one execution of the script in window `w` does, the entry of the
window key is afterwards absent or holds a deadline beyond the window, if it
was so before. -/
theorem SCRIPT_window_entry ( key_prefix : String) (d throughput batch_size w v : Int)
    (s : Redis) (hd : 1 ≤ d) (ht : ceilDiv s.time d = w)
    (hinv : windowEntry d w (s.db ( key_prefix ++ ":" ++ toString w)) v) :
    ∃ v2 : Int, windowEntry d w
      ((SCRIPT key_prefix d throughput batch_size s).2.db ( key_prefix ++ ":" ++ toString w))
      v2 := by
  have hkey : windowKey key_prefix s.time d = key_prefix ++ ":" ++ toString w := by
    unfold windowKey
    rw [ht]
  rw [SCRIPT_eq]
  split
  · exact ⟨v, hinv⟩
  · split
    · exact ⟨v, hinv⟩
    · rename_i s1 hincr
      obtain ⟨h1, -, -, -, ex, he, hl⟩ := INCRBY_frame s s1 _ _ hincr
      have := EXPIRE_set s1 (windowKey key_prefix s.time d) (d * 3) _ he (by rw [h1]; exact hl)
        (by omega)
      rw [hkey] at this
      show ∃ v2 : Int, windowEntry d w
        ((s1.EXPIRE (windowKey key_prefix s.time d) (d * 3)).db
          ( key_prefix ++ ":" ++ toString w)) v2
      rw [hkey]
      refine ⟨_, Or.inr ⟨s1.time + (d * 3).toNat, this, ?_⟩⟩
      intro t2 ht2
      rw [h1]
      exact deadline_beyond_window s.time t2 d w hd ht ht2

/-- Replacing one Coordinator changes the cached total by the change of what
it caches. -/
theorem cached_set (token : String) (r2 : RedisRateLimiter) :
    ∀ (l : List RedisRateLimiter) (i : Nat) (r : RedisRateLimiter), l.get? i = some r →
      cached token (l.set i r2)
        = cached token l - max (r.remaining token) 0 + max (r2.remaining token) 0 := by
  intro l
  induction l with
  | nil => intro i r h; simp at h
  | cons x rest ih =>
    intro i r h
    cases i with
    | zero =>
      simp only [List.get?_cons_zero, Option.some.injEq] at h
      subst h
      simp only [cached, List.set_cons_zero, List.map_cons, List.sum_cons]
      omega
    | succ j =>
      simp only [List.get?_cons_succ] at h
      have := ih j r h
      simp only [cached, List.set_cons_succ, List.map_cons, List.sum_cons] at this ⊢
      omega

/-- The cached total is not negative. -/
theorem cached_nonneg (token : String) (l : List RedisRateLimiter) : 0 ≤ cached token l := by
  unfold cached
  apply List.sum_nonneg
  intro x hx
  obtain ⟨r, _, rfl⟩ := List.mem_map.mp hx
  exact le_max_right _ _

/-- Where every Coordinator holds a non-negative count, the cached total is
the sum of the counts. -/
theorem cached_of_nonneg (token : String) (l : List RedisRateLimiter)
    (h : ∀ r ∈ l, 0 ≤ r.remaining token) :
    cached token l = (l.map (fun r => r.remaining token)).sum := by
  induction l with
  | nil => rfl
  | cons x rest ih =>
    have hx := h x (List.mem_cons_self _ _)
    have := ih (fun r hr => h r (List.mem_cons_of_mem _ hr))
    simp only [cached, List.map_cons, List.sum_cons] at this ⊢
    rw [this, max_eq_left hx]

/-- The sum granted in a window after one more grant is logged. -/
theorem grantedIn_append (w : Int) (token : String) (log : List Grant) (g : Grant) :
    grantedIn w token (log ++ [g])
      = grantedIn w token log + (if g.window = w ∧ g.token = token then g.amount else 0) := by
  unfold grantedIn
  by_cases h : g.window = w ∧ g.token = token
  · simp [List.filter_append, List.filter_cons, h]
  · simp [List.filter_append, List.filter_cons, h]

/-- Two window keys of the same window are equal only for the same token. -/
theorem windowKey_token_inj (tok token : String) (w : Int)
    (h : tok ++ ":" ++ toString w = token ++ ":" ++ toString w) : tok = token := by
  have h1 := congrArg String.data h
  simp only [String.data_append] at h1
  have h2 := List.append_cancel_right h1
  have h3 := List.append_cancel_right h2
  exact String.ext h3

/-- The remaining count of a token is read from its bucket alone. -/
theorem remaining_of_bucket (r1 r2 : RedisRateLimiter) (token : String)
    (h : r1.buckets token = r2.buckets token) : r1.remaining token = r2.remaining token := by
  simp [RedisRateLimiter.remaining, h]

/-- A `Take` step of a Coordinator that does not exist changes nothing. -/
theorem step_take_none (cl : Cluster) (i : Nat) (tok : String) (a : Int) (net : Net)
    (h : cl.limiters.get? i = none) : cl.step (.take i tok a net) = cl := by
  simp only [Cluster.step, h]

/-- A `Take` step of Coordinator `i`. -/
theorem step_take_some (cl : Cluster) (i : Nat) (tok : String) (a : Int) (net : Net)
    (r : RedisRateLimiter) (h : cl.limiters.get? i = some r) :
    cl.step (.take i tok a net)
      = { redis := (Take (redisClient net) r tok a cl.redis).2.2
          limiters := cl.limiters.set i (Take (redisClient net) r tok a cl.redis).2.1
          granted :=
            if (Take (redisClient net) r tok a cl.redis).1.granted then
              cl.granted ++ [⟨ceilDiv cl.redis.time r.durationSecs, tok, a⟩]
            else cl.granted } := by
  simp only [Cluster.step, h]

/-- A `Take` call executed during window `w` preserves the window invariant,
for a throughput between 0 and `2 ^ 53`. -/
theorem windowInv_take (d throughput batchSize w : Int) (token : String) (carry : Int)
    (cl : Cluster) (i : Nat) (tok : String) (a : Int) (net : Net) (hd : 1 ≤ d)
    (hth : 0 ≤ throughput) (ht53 : throughput ≤ 2 ^ 53)
    (ht : ceilDiv cl.redis.time d = w)
    (hinv : windowInv d throughput batchSize w token carry cl) :
    windowInv d throughput batchSize w token carry (cl.step (.take i tok a net)) := by
  cases hget : cl.limiters.get? i with
  | none => rw [step_take_none cl i tok a net hget]; exact hinv
  | some r =>
    rw [step_take_some cl i tok a net r hget]
    unfold windowInv
    simp only
    obtain ⟨hcfg, v, hentry, hcase⟩ := hinv
    obtain ⟨hrd, hrt, hrb, hr0⟩ := hcfg r (List.get?_mem hget)
    obtain ⟨credit, flag, htime, hod, hot, hob, hbuckets, hacc, hdb⟩ :=
      Take_redis_effect net r tok a cl.redis
    have hcached := cached_set token (Take (redisClient net) r tok a cl.redis).2.1
      cl.limiters i r hget
    have hwk : windowKey tok cl.redis.time r.durationSecs = tok ++ ":" ++ toString w := by
      unfold windowKey
      rw [hrd, ht]
    rw [hrd, hrt, hrb] at hdb
    rw [hrd] at hwk
    by_cases htok : tok = token
    · subst htok
      obtain ⟨hrange, hacc2⟩ := hacc hr0
      have hcfg2 : ∀ x ∈ cl.limiters.set i (Take (redisClient net) r tok a cl.redis).2.1,
          x.durationSecs = d ∧ x.throughput = throughput ∧ x.batchSize = batchSize
            ∧ -2 ^ 63 ≤ x.remaining tok := by
        intro x hx
        rcases List.mem_or_eq_of_mem_set hx with hmem | heq
        · exact hcfg x hmem
        · subst heq
          exact ⟨hod.trans hrd, hot.trans hrt, hob.trans hrb, hrange⟩
      have hlog : grantedIn w tok
          (if (Take (redisClient net) r tok a cl.redis).1.granted = true then
            cl.granted ++ [⟨ceilDiv cl.redis.time r.durationSecs, tok, a⟩]
          else cl.granted)
          = grantedIn w tok cl.granted
            + (if (Take (redisClient net) r tok a cl.redis).1.granted = true then a else 0) := by
        split
        · rw [grantedIn_append]
          simp [hrd, ht]
        · simp
      refine ⟨hcfg2, ?_⟩
      rcases hdb with ⟨hc0, hsame⟩ | ⟨hcr, hrun⟩
      · refine ⟨v, ?_, ?_⟩
        · simp only [hsame]; exact hentry
        · simp only [hlog, hcached]
          rcases hcase with ⟨hb, hv0, hv, hsum⟩ | ⟨hb, hsum⟩
          · exact Or.inl ⟨hb, hv0, hv, by omega⟩
          · exact Or.inr ⟨hb, by omega⟩
      · rcases hcase with ⟨hb, hv0, hv, hsum⟩ | ⟨hb, hsum⟩
        · obtain ⟨hle, hlo, hentry2⟩ := SCRIPT_window_step tok d throughput batchSize w v
            { cl.redis with scriptLoaded := flag } cl.redis.time hd ht hth ht53 hv
            (by rw [min_eq_right hb]; omega) hentry
          rw [min_eq_right hb] at hlo
          have hcredit : credit ≤ performed (SCRIPT tok d throughput batchSize
              { ({ cl.redis with scriptLoaded := flag } : Redis) with
                time := cl.redis.time }).1 := by
            rcases hcr with hc0 | ⟨hpos, hceq⟩
            · rw [hc0]
              exact hlo
            · show credit ≤ performed (SCRIPT tok d throughput batchSize
                { cl.redis with scriptLoaded := flag }).1
              rw [hceq]
              exact le_refl _
          have hlo2 : 0 ≤ performed (SCRIPT tok d throughput batchSize
              { ({ cl.redis with scriptLoaded := flag } : Redis) with
                time := cl.redis.time }).1 := hlo
          have hle2 : v + performed (SCRIPT tok d throughput batchSize
              { ({ cl.redis with scriptLoaded := flag } : Redis) with
                time := cl.redis.time }).1 ≤ throughput := hle
          clear hle hlo
          generalize performed (SCRIPT tok d throughput batchSize
              { ({ cl.redis with scriptLoaded := flag } : Redis) with
                time := cl.redis.time }).1 = p at hle2 hlo2 hentry2 hcredit
          refine ⟨v + p, ?_, Or.inl ⟨hb, by omega, hle2, ?_⟩⟩
          · simp only [hrun]; exact hentry2
          · simp only [hlog, hcached]
            omega
        · obtain ⟨v2, hentry2⟩ := SCRIPT_window_entry tok d throughput batchSize w v
            { cl.redis with scriptLoaded := flag } hd ht hentry
          refine ⟨v2, ?_, Or.inr ⟨hb, ?_⟩⟩
          · simp only [hrun]; exact hentry2
          · simp only [hlog, hcached]
            rcases hcr with hc0 | ⟨hpos, hceq⟩
            · omega
            · have := (SCRIPT_sign tok d throughput batchSize
                { cl.redis with scriptLoaded := flag } credit hceq).2 hb
              omega
    · have hkey : token ++ ":" ++ toString w
          ≠ windowKey tok ({ cl.redis with scriptLoaded := flag } : Redis).time d := by
        show token ++ ":" ++ toString w ≠ windowKey tok cl.redis.time d
        rw [hwk]
        intro heq
        exact htok (windowKey_token_inj tok token w heq.symm)
      have hrem : (Take (redisClient net) r tok a cl.redis).2.1.remaining token
          = r.remaining token :=
        remaining_of_bucket _ _ token (hbuckets token (fun h => htok h.symm))
      have hcfg2 : ∀ x ∈ cl.limiters.set i (Take (redisClient net) r tok a cl.redis).2.1,
          x.durationSecs = d ∧ x.throughput = throughput ∧ x.batchSize = batchSize
            ∧ -2 ^ 63 ≤ x.remaining token := by
        intro x hx
        rcases List.mem_or_eq_of_mem_set hx with hmem | heq
        · exact hcfg x hmem
        · subst heq
          exact ⟨hod.trans hrd, hot.trans hrt, hob.trans hrb, hrem ▸ hr0⟩
      have hlog : grantedIn w token
          (if (Take (redisClient net) r tok a cl.redis).1.granted = true then
            cl.granted ++ [⟨ceilDiv cl.redis.time r.durationSecs, tok, a⟩]
          else cl.granted)
          = grantedIn w token cl.granted := by
        split
        · rw [grantedIn_append]
          simp [htok]
        · rfl
      have hdbkey : (Take (redisClient net) r tok a cl.redis).2.2.db (token ++ ":" ++ toString w)
          = cl.redis.db (token ++ ":" ++ toString w) := by
        rcases hdb with ⟨_, hsame⟩ | ⟨_, hrun⟩
        · rw [hsame]
        · rw [hrun]
          exact (SCRIPT_frame tok d throughput batchSize
            { cl.redis with scriptLoaded := flag }).2.2.2 _ hkey
      refine ⟨hcfg2, v, ?_, ?_⟩
      · simp only [hdbkey]; exact hentry
      · simp only [hlog, hcached, hrem]
        rcases hcase with ⟨hb, hv0, hv, hsum⟩ | ⟨hb, hsum⟩
        · exact Or.inl ⟨hb, hv0, hv, by omega⟩
        · exact Or.inr ⟨hb, by omega⟩

/-- No step moves the server clock backwards. -/
theorem step_time_le (cl : Cluster) (st : Step) : cl.redis.time ≤ (cl.step st).redis.time := by
  cases st with
  | tick seconds => simp [Cluster.step]
  | take i tok a net =>
    cases hget : cl.limiters.get? i with
    | none => rw [step_take_none cl i tok a net hget]
    | some r =>
      rw [step_take_some cl i tok a net r hget]
      obtain ⟨_, _, htime, _⟩ := Take_redis_effect net r tok a cl.redis
      exact le_of_eq htime.symm

/-- No run moves the server clock backwards. -/
theorem run_time_le (steps : List Step) :
    ∀ cl : Cluster, cl.redis.time ≤ (cl.run steps).redis.time := by
  induction steps with
  | nil => intro cl; exact le_refl _
  | cons st rest ih =>
    intro cl
    exact le_trans (step_time_le cl st) (ih (cl.step st))

/-- The window invariant holds all along a run that starts and ends in
window `w`. -/
theorem windowInv_run (d throughput batchSize w : Int) (token : String) (carry : Int)
    (hd : 1 ≤ d) (hth : 0 ≤ throughput) (ht53 : throughput ≤ 2 ^ 53) (steps : List Step) :
    ∀ cl : Cluster, ceilDiv cl.redis.time d = w → ceilDiv (cl.run steps).redis.time d = w →
      windowInv d throughput batchSize w token carry cl →
      windowInv d throughput batchSize w token carry (cl.run steps) := by
  induction steps with
  | nil => intro cl _ _ hinv; exact hinv
  | cons st rest ih =>
    intro cl hstart hend hinv
    have h1 : ceilDiv cl.redis.time d ≤ ceilDiv (cl.step st).redis.time d :=
      ceilDiv_mono _ _ d hd (by exact_mod_cast step_time_le cl st)
    have h2 : ceilDiv (cl.step st).redis.time d ≤ ceilDiv ((cl.step st).run rest).redis.time d :=
      ceilDiv_mono _ _ d hd (by exact_mod_cast run_time_le rest (cl.step st))
    have hmid : ceilDiv (cl.step st).redis.time d = w := by
      have hend2 : ceilDiv ((cl.step st).run rest).redis.time d = w := hend
      omega
    refine ih (cl.step st) hmid hend ?_
    cases st with
    | tick seconds => exact hinv
    | take i tok a net =>
      exact windowInv_take d throughput batchSize w token carry cl i tok a net hd hth ht53
        hstart hinv

/-- What the window invariant says about the grants of the window. -/
theorem windowInv_bound (d throughput batchSize w : Int) (token : String) (carry : Int)
    (cl : Cluster) (hth : 0 ≤ throughput)
    (hinv : windowInv d throughput batchSize w token carry cl) :
    grantedIn w token cl.granted ≤ throughput + carry := by
  obtain ⟨-, v, -, hcase⟩ := hinv
  have := cached_nonneg token cl.limiters
  rcases hcase with ⟨-, -, hv, hsum⟩ | ⟨-, hsum⟩ <;> omega

/-- The window invariant at the start of a window whose counter is absent. -/
theorem windowInv_start (d throughput batchSize w : Int) (token : String) (cl : Cluster)
    (hth : 0 ≤ throughput)
    (hcfg : ∀ r ∈ cl.limiters, r.durationSecs = d ∧ r.throughput = throughput
      ∧ r.batchSize = batchSize ∧ -2 ^ 63 ≤ r.remaining token)
    (habsent : cl.redis.db (token ++ ":" ++ toString w) = none)
    (hlog : grantedIn w token cl.granted = 0) :
    windowInv d throughput batchSize w token (cached token cl.limiters) cl := by
  refine ⟨hcfg, 0, Or.inl ⟨habsent, rfl⟩, ?_⟩
  rw [hlog]
  by_cases hb : 0 ≤ batchSize
  · exact Or.inl ⟨hb, le_refl _, hth, by omega⟩
  · exact Or.inr ⟨by omega, by omega⟩

/-- C2, as amended (Global cap invariant).  Take any window `w`, any token and
any moment of the window at which the store holds no counter for that token
and window; the Coordinators sharing the store are configured with the same
duration `d ≥ 1`, throughput between 0 and `2 ^ 53` and batch size, and hold
`int64` counts for the token.  For every interleaving of `Take` calls and
clock ticks from that moment that stays inside the window, the sum of the
amounts of the granted `Take` calls for the token is at most throughput plus
the permits cached for the token at that moment (the sum of the remaining
counts, a negative one counting as nothing). -/
theorem window_cap (d throughput batchSize w : Int) (token : String) (redis : Redis)
    (limiters : List RedisRateLimiter) (steps : List Step) (hd : 1 ≤ d)
    (hth : 0 ≤ throughput) (ht53 : throughput ≤ 2 ^ 53)
    (hcfg : ∀ r ∈ limiters,
      r.durationSecs = d ∧ r.throughput = throughput ∧ r.batchSize = batchSize)
    (hheld : ∀ r ∈ limiters, -2 ^ 63 ≤ r.remaining token)
    (hstart : ceilDiv redis.time d = w)
    (hend : ceilDiv (Cluster.run ⟨redis, limiters, []⟩ steps).redis.time d = w)
    (habsent : redis.db (token ++ ":" ++ toString w) = none) :
    grantedIn w token (Cluster.run ⟨redis, limiters, []⟩ steps).granted
      ≤ throughput + cached token limiters := by
  have hinit : windowInv d throughput batchSize w token (cached token limiters)
      ⟨redis, limiters, []⟩ :=
    windowInv_start d throughput batchSize w token ⟨redis, limiters, []⟩ hth
      (fun r hr => ⟨(hcfg r hr).1, (hcfg r hr).2.1, (hcfg r hr).2.2, hheld r hr⟩) habsent rfl
  exact windowInv_bound d throughput batchSize w token _ _ hth
    (windowInv_run d throughput batchSize w token (cached token limiters) hd hth ht53 steps
      ⟨redis, limiters, []⟩ hstart hend hinit)

/-- Witness for C2 as amended: two fresh Coordinators, throughput 10, batch
size 4; whatever they are granted for `"u1"` inside window 4 sums to at most
10 (here 3 + 4 + 2 + 1, with two calls refused). -/
theorem window_cap_witness :
    ((1 : Int) ≤ 2 ∧ (0 : Int) ≤ 10 ∧ (10 : Int) ≤ 2 ^ 53
        ∧ (∀ r ∈ Example.pair.limiters,
            r.durationSecs = 2 ∧ r.throughput = 10 ∧ r.batchSize = 4)
        ∧ (∀ r ∈ Example.pair.limiters, -2 ^ 63 ≤ r.remaining "u1")
        ∧ ceilDiv Example.pair.redis.time 2 = 4
        ∧ ceilDiv (Cluster.run ⟨Example.pair.redis, Example.pair.limiters, []⟩
            Example.busy).redis.time 2 = 4
        ∧ Example.pair.redis.db ("u1" ++ ":" ++ toString (4 : Int)) = none)
      ∧ cached "u1" Example.pair.limiters = 0
      ∧ grantedIn 4 "u1" (Cluster.run ⟨Example.pair.redis, Example.pair.limiters, []⟩
          Example.busy).granted = 10
      ∧ grantedIn 4 "u1" (Cluster.run ⟨Example.pair.redis, Example.pair.limiters, []⟩
          Example.busy).granted ≤ 10 + cached "u1" Example.pair.limiters :=
  ⟨⟨by decide, by decide, by decide, by decide, by decide, by decide, by decide, by decide⟩,
    by decide, by decide,
    window_cap 2 10 4 4 "u1" Example.pair.redis Example.pair.limiters Example.busy
      (by decide) (by decide) (by decide) (by decide) (by decide) (by decide) (by decide)
      (by decide)⟩

/-- Counterexample to C2 as stated: from an empty store and two fresh
Coordinators with throughput 10, the `Take` calls with positive amounts that
are granted during window 2 sum to 19: Coordinator 0 spends there the 9
permits it kept from window 1, without asking the Allocator. -/
theorem window_cap_fails_after_carry_over :
    (Example.hoarders.run Example.carryOver).granted
        = [⟨1, "u1", 1⟩, ⟨2, "u1", 9⟩, ⟨2, "u1", 10⟩]
      ∧ grantedIn 2 "u1" (Example.hoarders.run Example.carryOver).granted = 19
      ∧ ¬ (grantedIn 2 "u1" (Example.hoarders.run Example.carryOver).granted ≤ 10) := by
  decide

/-- The window duration of a constructed Coordinator is at least one second. -/
theorem NewRedisRateLimiter_duration (keyPrefix : String) (duration throughput batchSize : Int) :
    1 ≤ (NewRedisRateLimiter keyPrefix duration throughput batchSize).durationSecs := by
  simp only [NewRedisRateLimiter]
  split <;> omega

/-- Freshly constructed Coordinators share their configuration and cache
nothing. -/
theorem fresh_limiters (t0 : Nat) (prefixes : List String)
    (duration throughput batchSize : Int) (token : String) :
    (∀ r ∈ (Cluster.fresh t0 prefixes duration throughput batchSize).limiters,
        r.durationSecs = (NewRedisRateLimiter "" duration throughput batchSize).durationSecs
          ∧ r.throughput = throughput ∧ r.batchSize = batchSize
          ∧ -2 ^ 63 ≤ r.remaining token)
      ∧ cached token (Cluster.fresh t0 prefixes duration throughput batchSize).limiters = 0 := by
  constructor
  · intro r hr
    simp only [Cluster.fresh, List.mem_map] at hr
    obtain ⟨p, _, rfl⟩ := hr
    simp [NewRedisRateLimiter, RedisRateLimiter.remaining]
  · simp only [cached, Cluster.fresh, List.map_map]
    apply List.sum_eq_zero
    intro x hx
    obtain ⟨p, _, rfl⟩ := List.mem_map.mp hx
    simp [NewRedisRateLimiter, RedisRateLimiter.remaining]

/-- The first window: from an empty store and freshly constructed
Coordinators with one duration, throughput between 0 and `2 ^ 53` and batch
size, as long as the server clock stays in the window in which the run
started, the amounts granted for a token sum to at most throughput. -/
theorem fresh_window_cap (t0 : Nat) (prefixes : List String) (duration throughput batchSize : Int)
    (token : String) (steps : List Step) (hth : 0 ≤ throughput) (ht53 : throughput ≤ 2 ^ 53)
    (hend : ceilDiv ((Cluster.fresh t0 prefixes duration throughput batchSize).run steps).redis.time
        (NewRedisRateLimiter "" duration throughput batchSize).durationSecs
      = ceilDiv t0 (NewRedisRateLimiter "" duration throughput batchSize).durationSecs) :
    grantedIn (ceilDiv t0 (NewRedisRateLimiter "" duration throughput batchSize).durationSecs)
        token ((Cluster.fresh t0 prefixes duration throughput batchSize).run steps).granted
      ≤ throughput := by
  have hd := NewRedisRateLimiter_duration "" duration throughput batchSize
  obtain ⟨hlim, hzero⟩ := fresh_limiters t0 prefixes duration throughput batchSize token
  have hinit := windowInv_start
    (NewRedisRateLimiter "" duration throughput batchSize).durationSecs throughput batchSize
    (ceilDiv t0 (NewRedisRateLimiter "" duration throughput batchSize).durationSecs) token
    (Cluster.fresh t0 prefixes duration throughput batchSize) hth hlim rfl rfl
  have hbound : grantedIn
      (ceilDiv t0 (NewRedisRateLimiter "" duration throughput batchSize).durationSecs) token
      ((Cluster.fresh t0 prefixes duration throughput batchSize).run steps).granted
      ≤ throughput + cached token
        (Cluster.fresh t0 prefixes duration throughput batchSize).limiters :=
    windowInv_bound _ throughput batchSize _ token _ _ hth
      (windowInv_run _ throughput batchSize _ token _ hd hth ht53 steps
        (Cluster.fresh t0 prefixes duration throughput batchSize) rfl hend hinit)
  rw [hzero] at hbound
  omega

/-! ## Window keys are injective -/

/-- A decimal digit character is not the separator, not the minus sign, and
has its own value. -/
theorem digitChar_spec (k : Nat) (hk : k < 10) :
    Nat.digitChar k ≠ ':' ∧ Nat.digitChar k ≠ '-'
      ∧ digitValue (Nat.digitChar k) = k := by
  interval_cases k <;> decide

/-- Reading digits appended to other digits. -/
theorem digitsValue_append (l1 l2 : List Char) :
    ∀ acc, digitsValue acc (l1 ++ l2) = digitsValue (digitsValue acc l1) l2 := by
  induction l1 with
  | nil => intro acc; rfl
  | cons c rest ih => intro acc; exact ih _

/-- The digits produced for `n` are put in front of the accumulator, are
decimal digits, and read back as `n`. -/
theorem toDigitsCore_spec (fuel : Nat) :
    ∀ (n : Nat) (ds : List Char), n < fuel →
      ∃ L : List Char, Nat.toDigitsCore 10 fuel n ds = L ++ ds ∧ L ≠ []
        ∧ (∀ c ∈ L, c ≠ ':' ∧ c ≠ '-') ∧ digitsValue 0 L = n := by
  induction fuel with
  | zero => intro n ds h; omega
  | succ fuel ih =>
    intro n ds h
    obtain ⟨hc1, hc2, hval⟩ := digitChar_spec (n % 10) (Nat.mod_lt _ (by decide))
    unfold Nat.toDigitsCore
    simp only
    by_cases h0 : n / 10 = 0
    · rw [if_pos h0]
      refine ⟨[Nat.digitChar (n % 10)], rfl, by simp, ?_, ?_⟩
      · intro c hc
        simp only [List.mem_singleton] at hc
        subst hc
        exact ⟨hc1, hc2⟩
      · show 0 * 10 + digitValue (Nat.digitChar (n % 10)) = n
        rw [hval]
        omega
    · rw [if_neg h0]
      obtain ⟨L, hL, -, hchars, hread⟩ := ih (n / 10) (Nat.digitChar (n % 10) :: ds) (by omega)
      refine ⟨L ++ [Nat.digitChar (n % 10)], by simp [hL], by simp, ?_, ?_⟩
      · intro c hc
        rcases List.mem_append.mp hc with hc | hc
        · exact hchars c hc
        · simp only [List.mem_singleton] at hc
          subst hc
          exact ⟨hc1, hc2⟩
      · rw [digitsValue_append, hread]
        show n / 10 * 10 + digitValue (Nat.digitChar (n % 10)) = n
        rw [hval]
        omega

/-- The characters of the decimal rendering of a natural number. -/
theorem toString_nat_spec (n : Nat) :
    (toString n).data ≠ [] ∧ (∀ c ∈ (toString n).data, c ≠ ':' ∧ c ≠ '-')
      ∧ digitsValue 0 (toString n).data = n := by
  obtain ⟨L, hL, hne, hchars, hread⟩ := toDigitsCore_spec (n + 1) n [] (by omega)
  have hdata : (toString n).data = L := by
    show (Nat.repr n).data = L
    simp only [Nat.repr, Nat.toDigits, hL, List.append_nil, List.asString]
  rw [hdata]
  exact ⟨hne, hchars, hread⟩

/-- The rendering of an integer contains no separator. -/
theorem toString_int_no_colon (w : Int) : ∀ c ∈ (toString w).data, c ≠ ':' := by
  cases w with
  | ofNat m =>
    intro c hc
    exact ((toString_nat_spec m).2.1 c hc).1
  | negSucc m =>
    intro c hc
    have hdata : (toString (Int.negSucc m)).data = '-' :: (toString (m + 1)).data := rfl
    rw [hdata] at hc
    rcases List.mem_cons.mp hc with hc | hc
    · subst hc; decide
    · exact ((toString_nat_spec (m + 1)).2.1 c hc).1

/-- Integers with the same rendering are equal. -/
theorem toString_int_injective (w1 w2 : Int) (h : toString w1 = toString w2) : w1 = w2 := by
  have hd := congrArg String.data h
  have hneg : ∀ m : Nat, (toString (Int.negSucc m)).data = '-' :: (toString (m + 1)).data :=
    fun _ => rfl
  have hpos : ∀ m : Nat, (toString (Int.ofNat m)).data = (toString m).data := fun _ => rfl
  cases w1 with
  | ofNat m1 =>
    cases w2 with
    | ofNat m2 =>
      rw [hpos, hpos] at hd
      have h1 := (toString_nat_spec m1).2.2
      have h2 := (toString_nat_spec m2).2.2
      rw [hd] at h1
      rw [show m1 = m2 from h1.symm.trans h2]
    | negSucc m2 =>
      rw [hpos, hneg] at hd
      have := ((toString_nat_spec m1).2.1 '-' (by rw [hd]; exact List.mem_cons_self _ _)).2
      exact absurd rfl this
  | negSucc m1 =>
    cases w2 with
    | ofNat m2 =>
      rw [hpos, hneg] at hd
      have := ((toString_nat_spec m2).2.1 '-' (by rw [← hd]; exact List.mem_cons_self _ _)).2
      exact absurd rfl this
    | negSucc m2 =>
      rw [hneg, hneg] at hd
      have hd2 := (List.cons.inj hd).2
      have h1 := (toString_nat_spec (m1 + 1)).2.2
      have h2 := (toString_nat_spec (m2 + 1)).2.2
      rw [hd2] at h1
      have : m1 = m2 := by omega
      rw [this]

/-- Two lists split at a separator that occurs in neither tail are split at
the same place. -/
theorem split_at_last (c : Char) (r1 r2 : List Char) (h1 : c ∉ r1) (h2 : c ∉ r2) :
    ∀ l1 l2 : List Char, l1 ++ c :: r1 = l2 ++ c :: r2 → l1 = l2 ∧ r1 = r2 := by
  intro l1
  induction l1 with
  | nil =>
    intro l2 h
    cases l2 with
    | nil => exact ⟨rfl, (List.cons.inj h).2⟩
    | cons y l2 =>
      have := (List.cons.inj h).2
      exact absurd (this ▸ List.mem_append_right _ (List.mem_cons_self _ _)) h1
  | cons x l1 ih =>
    intro l2 h
    cases l2 with
    | nil =>
      have := (List.cons.inj h).2
      exact absurd (this ▸ List.mem_append_right _ (List.mem_cons_self _ _)) h2
    | cons y l2 =>
      obtain ⟨hxy, hrest⟩ := List.cons.inj h
      obtain ⟨hl, hr⟩ := ih l2 hrest
      exact ⟨by rw [hxy, hl], hr⟩

/-- Distinct (token, window identifier) pairs have distinct counter keys,
whatever characters the tokens contain. -/
theorem key_injective (tok1 tok2 : String) (w1 w2 : Int)
    (h : tok1 ++ ":" ++ toString w1 = tok2 ++ ":" ++ toString w2) : tok1 = tok2 ∧ w1 = w2 := by
  have hd := congrArg String.data h
  simp only [String.data_append] at hd
  rw [List.append_assoc, List.append_assoc] at hd
  simp only [List.singleton_append] at hd
  obtain ⟨ht, hw⟩ := split_at_last ':' _ _
    (fun hm => toString_int_no_colon w1 ':' hm rfl)
    (fun hm => toString_int_no_colon w2 ':' hm rfl) _ _ hd
  exact ⟨String.ext ht, toString_int_injective w1 w2 (String.ext hw)⟩

/-! ## Windows: rollover, arithmetic, expiry -/

/-- C11, as amended (Window rollover).  For every key prefix, duration
`d ≥ 1`, throughput `≥ 1` and batch size `≥ 1` the smaller of which is at
most `2 ^ 53`, and server times `t1`, `t2` whose window identifiers differ,
the counter keys `prefix:windowID` of the two times differ, and on every
store at time `t2` whose counter key for `t2` is absent or expired (no
earlier allocation in that window), whatever the counter of `t1`'s window
holds, the script grants `min throughput batchSize`, which is positive. -/
theorem window_rollover ( key_prefix : String) (d throughput batch_size : Int) (t1 t2 : Nat)
    (hd : 1 ≤ d) (hth : 1 ≤ throughput) (hb : 1 ≤ batch_size)
    (hexact : min throughput batch_size ≤ 2 ^ 53)
    (hw : ceilDiv t1 d ≠ ceilDiv t2 d) :
    windowKey key_prefix t1 d ≠ windowKey key_prefix t2 d
      ∧ ∀ s : Redis, s.time = t2 → s.GET (windowKey key_prefix t2 d) = none →
          (SCRIPT key_prefix d throughput batch_size s).1 = .ok (min throughput batch_size)
            ∧ 0 < min throughput batch_size := by
  refine ⟨?_, ?_⟩
  · intro hkey
    exact hw (key_injective key_prefix key_prefix _ _ hkey).2
  · intro s ht hget
    have hcount : s.counter (windowKey key_prefix s.time d) = 0 := by
      simp [Redis.counter, ht, hget]
    have hT1 := (toDouble_sign throughput).2.1 hth
    have hB1 := (toDouble_sign batch_size).2.1 hb
    have hinc : SCRIPT.increment throughput batch_size 0 = min throughput batch_size := by
      unfold SCRIPT.increment
      rw [toDouble_zero, sub_zero]
      by_cases hts : throughput ≤ 2 ^ 53
      · rw [toDouble_of_small throughput (by omega) hts, toDouble_of_small throughput (by omega) hts]
        by_cases hbs : batch_size ≤ 2 ^ 53
        · rw [toDouble_of_small batch_size (by omega) hbs]
        · have := toDouble_large batch_size (by omega)
          rw [min_eq_left (by omega), min_eq_left (by omega)]
      · have hbs : batch_size ≤ 2 ^ 53 := by
          rcases min_choice throughput batch_size with h | h
          · rw [h] at hexact; omega
          · rw [h] at hexact; exact hexact
        have h1 := toDouble_large throughput (by omega)
        have h2 := toDouble_large (toDouble throughput) h1
        rw [toDouble_of_small batch_size (by omega) hbs]
        rw [min_eq_right (by omega), min_eq_right (by omega)]
    have hpos : 0 < min throughput batch_size := lt_min (by omega) (by omega)
    have := (SCRIPT_of_room key_prefix d throughput batch_size s hd
      (by rw [hcount, toDouble_zero]; omega)
      (by rw [hcount, hinc]; omega) (by rw [hcount, hinc]; omega)
      (by rw [hcount, hinc]; omega) (by rw [hcount, hinc]; omega)).1
    rw [hcount, hinc] at this
    exact ⟨this, hpos⟩

/-- Witness for C11: throughput 5, batch size 10, duration 1 s.  The store
left by the `Take` that used up window 1 has its counter at 5; one second
later, in window 2, the script grants 5 again. -/
theorem window_rollover_witness :
    ((1 : Int) ≤ 1 ∧ (1 : Int) ≤ 5 ∧ (1 : Int) ≤ 10 ∧ min (5 : Int) 10 ≤ 2 ^ 53
        ∧ ceilDiv (1 : Nat) 1 ≠ ceilDiv (2 : Nat) 1)
      ∧ Example.smallFirst.2.2.counter (windowKey "u1" (1 : Nat) 1) = 5
      ∧ windowKey "u1" (1 : Nat) 1 ≠ windowKey "u1" (2 : Nat) 1
      ∧ (SCRIPT "u1" 1 5 10 { Example.smallFirst.2.2 with time := 2 }).1 = .ok (min 5 10) :=
  have h := window_rollover "u1" 1 5 10 1 2 (by decide) (by decide) (by decide) (by decide)
    (by decide)
  ⟨⟨by decide, by decide, by decide, by decide, by decide⟩, by decide, h.1,
    (h.2 { Example.smallFirst.2.2 with time := 2 } rfl (by decide)).1⟩

/-- Counterexample to C11 as stated: duration 1 s, throughput and batch size
`2 ^ 53 + 1`.  The windows of the times 1 and 2 differ; on the empty store at
time 2 the script grants `2 ^ 53`, which is not `min throughput batchSize`. -/
theorem window_rollover_fails_beyond_doubles :
    ceilDiv (1 : Nat) 1 ≠ ceilDiv (2 : Nat) 1
      ∧ ({ Example.redis0 with time := 2 } : Redis).GET (windowKey "u1" (2 : Nat) 1) = none
      ∧ (SCRIPT "u1" 1 9007199254740993 9007199254740993 { Example.redis0 with time := 2 }).1
        = .ok 9007199254740992
      ∧ min (9007199254740993 : Int) 9007199254740993 ≠ 9007199254740992 :=
  ⟨by decide, by decide, rfl, by decide⟩

/-- C17 (Window arithmetic).  For every duration `d ≥ 1` and server times in
whole seconds, the window identifier used in the counter key is `ceilDiv t d`,
it does not decrease with `t`, and for every `w ≥ 1` it equals `w` exactly for
the times `(w - 1) * d < t ≤ w * d`, that is for the `d` consecutive seconds
`(w - 1) * d + j`, `1 ≤ j ≤ d`. -/
theorem window_arithmetic (d : Int) (hd : 1 ≤ d) :
    (∀ ( key_prefix : String) (t : Nat),
        windowKey key_prefix t d = key_prefix ++ ":" ++ toString (ceilDiv t d))
      ∧ (∀ t1 t2 : Nat, t1 ≤ t2 → ceilDiv t1 d ≤ ceilDiv t2 d)
      ∧ (∀ (w : Int) (t : Nat), 1 ≤ w →
          (ceilDiv t d = w ↔ (w - 1) * d < t ∧ (t : Int) ≤ w * d))
      ∧ (∀ (w : Int) (t : Nat), 1 ≤ w →
          (ceilDiv t d = w ↔ ∃ j : Int, 1 ≤ j ∧ j ≤ d ∧ (t : Int) = (w - 1) * d + j)) := by
  refine ⟨fun _ _ => rfl, ?_, ?_, ?_⟩
  · intro t1 t2 h
    exact ceilDiv_mono t1 t2 d hd (by exact_mod_cast h)
  · intro w t _
    exact ceilDiv_eq_iff t d w hd
  · intro w t _
    rw [ceilDiv_eq_iff t d w hd]
    constructor
    · rintro ⟨h1, h2⟩
      refine ⟨t - (w - 1) * d, by omega, ?_, by ring⟩
      have : w * d = (w - 1) * d + d := by ring
      omega
    · rintro ⟨j, hj1, hj2, hj⟩
      have : w * d = (w - 1) * d + d := by ring
      constructor <;> omega

/-- Witness for C17: with duration 3 s, window 4 is the seconds 10, 11, 12. -/
theorem window_arithmetic_witness :
    (1 : Int) ≤ 3
      ∧ ceilDiv (9 : Nat) 3 = 3 ∧ ceilDiv (10 : Nat) 3 = 4 ∧ ceilDiv (11 : Nat) 3 = 4
      ∧ ceilDiv (12 : Nat) 3 = 4 ∧ ceilDiv (13 : Nat) 3 = 5
      ∧ (ceilDiv (11 : Nat) 3 = 4 ↔ (4 - 1) * 3 < ((11 : Nat) : Int) ∧ ((11 : Nat) : Int) ≤ 4 * 3) :=
  ⟨by decide, by decide, by decide, by decide, by decide, by decide,
    (window_arithmetic 3 (by decide)).2.2.1 4 11 (by decide)⟩

/-- What a granting execution of the script leaves under the window key: the
old counter plus the grant, with the deadline `3 * d` seconds ahead. -/
theorem SCRIPT_of_grant ( key_prefix : String) (d throughput batch_size : Int) (s : Redis)
    (hd : 1 ≤ d) (count : Int)
    (hret : (SCRIPT key_prefix d throughput batch_size s).1 = .ok count) (hgrant : 0 < count) :
    (SCRIPT key_prefix d throughput batch_size s).2.db (windowKey key_prefix s.time d)
      = some ⟨s.counter (windowKey key_prefix s.time d) + count,
          some (s.time + (d * 3).toNat)⟩ := by
  rw [SCRIPT_eq] at hret ⊢
  split at hret
  · simp only [Except.ok.injEq] at hret
    omega
  · rename_i hn
    rw [if_neg hn]
    split at hret
    · simp at hret
    · rename_i s1 hincr
      simp only [Except.ok.injEq] at hret
      show (s1.EXPIRE (windowKey key_prefix s.time d) (d * 3)).db
        (windowKey key_prefix s.time d) = _
      obtain ⟨h1, -, -, -, ex, he, hl⟩ := INCRBY_frame s s1 _ _ hincr
      have := EXPIRE_set s1 (windowKey key_prefix s.time d) (d * 3) _ he (by rw [h1]; exact hl)
        (by omega)
      rw [hret, h1] at this
      exact this

/-- C20 (Counter outlives its window).  For every duration `d ≥ 1` and every
script execution at server time `t` that grants a positive count, with
`w = ceilDiv t d` the window of `t`: the counter key then holds the old
counter plus the grant with the expiration deadline `t + 3 * d`; that
deadline is strictly later than the last second `w * d` of window `w`; and
at every time of window `w` from `t` on the counter is still read with that
value, so it is not reset by expiration while the window is current. -/
theorem counter_outlives_window ( key_prefix : String) (d throughput batch_size : Int)
    (s : Redis) (count : Int) (hd : 1 ≤ d)
    (hret : (SCRIPT key_prefix d throughput batch_size s).1 = .ok count)
    (hgrant : 0 < count) :
    (∃ deadline : Nat,
        (SCRIPT key_prefix d throughput batch_size s).2.db (windowKey key_prefix s.time d)
          = some ⟨s.counter (windowKey key_prefix s.time d) + count, some deadline⟩
        ∧ (deadline : Int) = s.time + 3 * d)
      ∧ ceilDiv s.time d * d < s.time + 3 * d
      ∧ ∀ t2 : Nat, s.time ≤ t2 → ceilDiv t2 d = ceilDiv s.time d →
          ({ (SCRIPT key_prefix d throughput batch_size s).2 with time := t2 } : Redis).GET
              (windowKey key_prefix s.time d)
            = some (s.counter (windowKey key_prefix s.time d) + count) := by
  have hnat : ((d * 3).toNat : Int) = 3 * d := by
    rw [Int.toNat_of_nonneg (by omega)]; ring
  have hwin := (ceilDiv_eq_iff s.time d (ceilDiv s.time d) hd).mp rfl
  have hlive : ∀ t2 : Nat, ceilDiv t2 d = ceilDiv s.time d → t2 < s.time + (d * 3).toNat :=
    fun t2 ht2 => deadline_beyond_window s.time t2 d _ hd rfl ht2
  have hentry := SCRIPT_of_grant key_prefix d throughput batch_size s hd count hret hgrant
  refine ⟨⟨s.time + (d * 3).toNat, hentry, ?_⟩, ?_, ?_⟩
  · push_cast
    rw [hnat]
  · have : ceilDiv s.time d * d = (ceilDiv s.time d - 1) * d + d := by ring
    omega
  · intro t2 _ ht2
    have := hlive t2 ht2
    simp only [Redis.GET, hentry, Entry.live, this, decide_True, if_true]

/-- Witness for C20: duration 2 s, a grant of 10 at second 7 (window 4, last
second 8) sets the deadline 13, and the counter is still read at second 8. -/
theorem counter_outlives_window_witness :
    ((1 : Int) ≤ 2
        ∧ (SCRIPT "u1" 2 100 10 ⟨7, fun _ => none, true, fun _ => false⟩).1 = .ok 10
        ∧ (0 : Int) < 10)
      ∧ (SCRIPT "u1" 2 100 10 ⟨7, fun _ => none, true, fun _ => false⟩).2.db "u1:4"
        = some ⟨10, some 13⟩
      ∧ ceilDiv (7 : Nat) 2 * 2 < (7 : Nat) + 3 * 2
      ∧ ({ (SCRIPT "u1" 2 100 10 ⟨7, fun _ => none, true, fun _ => false⟩).2
            with time := 8 } : Redis).GET "u1:4" = some 10 :=
  have h := counter_outlives_window "u1" 2 100 10 ⟨7, fun _ => none, true, fun _ => false⟩ 10
    (by decide) rfl (by decide)
  ⟨⟨by decide, rfl, by decide⟩, by decide, h.2.1,
    (h.2.2 8 (by decide) (by decide)).trans (by decide)⟩

/-! ## Construction -/

/-- C14 (Construction).  For every duration in nanoseconds (zero, negative
and non-whole-second values included), throughput and batch size,
`NewRedisRateLimiter` yields a Coordinator whose window duration in seconds
is `max 1 (duration / 1 s)`, the division truncating toward zero, whose key
prefix, throughput and batch size are the arguments, whose bucket map is
empty and whose script identifier is empty. -/
theorem NewRedisRateLimiter_spec (keyPrefix : String) (duration throughput batchSize : Int) :
    (NewRedisRateLimiter keyPrefix duration throughput batchSize).durationSecs
        = max 1 (Int.tdiv duration Second)
      ∧ (NewRedisRateLimiter keyPrefix duration throughput batchSize).keyPrefix = keyPrefix
      ∧ (NewRedisRateLimiter keyPrefix duration throughput batchSize).throughput = throughput
      ∧ (NewRedisRateLimiter keyPrefix duration throughput batchSize).batchSize = batchSize
      ∧ (∀ token, (NewRedisRateLimiter keyPrefix duration throughput batchSize).buckets token
          = none)
      ∧ (NewRedisRateLimiter keyPrefix duration throughput batchSize).scriptSHA1 = "" := by
  refine ⟨?_, rfl, rfl, rfl, fun _ => rfl, rfl⟩
  simp only [NewRedisRateLimiter]
  split
  · rw [max_eq_left (by omega)]
  · rw [max_eq_right (by omega)]

/-- Durations of 0 s, -5 s, 0.5 s, 1.5 s, -1.5 s, 2.999999999 s and 60 s give
windows of 1, 1, 1, 1, 1, 2 and 60 seconds. -/
theorem NewRedisRateLimiter_examples :
    (NewRedisRateLimiter "p" 0 100 10).durationSecs = 1
      ∧ (NewRedisRateLimiter "p" (-5 * Second) 100 10).durationSecs = 1
      ∧ (NewRedisRateLimiter "p" 500000000 100 10).durationSecs = 1
      ∧ (NewRedisRateLimiter "p" 1500000000 100 10).durationSecs = 1
      ∧ (NewRedisRateLimiter "p" (-1500000000) 100 10).durationSecs = 1
      ∧ (NewRedisRateLimiter "p" 2999999999 100 10).durationSecs = 2
      ∧ (NewRedisRateLimiter "p" (60 * Second) 100 10).durationSecs = 60 := by
  decide

/-! ## Tokens do not interfere -/

/-- A `Take` call, whatever the client, changes neither the configuration nor
the bucket of any other token. -/
theorem Take_frame {σ : Type} (c : Client σ) (r : RedisRateLimiter) (token : String)
    (amount : Int) (s : σ) :
    (Take c r token amount s).2.1.durationSecs = r.durationSecs
      ∧ (Take c r token amount s).2.1.throughput = r.throughput
      ∧ (Take c r token amount s).2.1.batchSize = r.batchSize
      ∧ (Take c r token amount s).2.1.keyPrefix = r.keyPrefix
      ∧ ∀ other, other ≠ token → (Take c r token amount s).2.1.buckets other = r.buckets other := by
  obtain ⟨hfb, hfd, hft, hfs, hfk⟩ := register_frame c r s
  cases hreg : (Take.register c r s).1 with
  | some err =>
    rw [Take_of_register_error c r token amount s err hreg]
    exact ⟨hfd, hft, hfs, hfk, fun _ _ => by rw [hfb]⟩
  | none =>
    by_cases hfast : ∃ b, r.buckets token = some b ∧ amount ≤ b.N
    · obtain ⟨b, hb, hle⟩ := hfast
      rw [Take_of_fast c r token amount s b hreg hb hle]
      refine ⟨hfd, hft, hfs, hfk, ?_⟩
      intro other ho
      simp [RedisRateLimiter.setBucket, ho, hfb]
    · have hslow : ∀ b, r.buckets token = some b → b.N < amount := by
        intro b hb
        by_contra hcon
        exact hfast ⟨b, hb, not_lt.mp hcon⟩
      rw [Take_of_slow c r token amount s hreg hslow]
      rcases hev : (c.EvalSha (Take.register c r s).2.1.scriptSHA1 [token]
          [(Take.register c r s).2.1.durationSecs, (Take.register c r s).2.1.throughput,
            (Take.register c r s).2.1.batchSize] (Take.register c r s).2.2).1
        with err | (count | _)
      · rw [refill_error c _ token amount _ _ err hev]
        exact ⟨hfd, hft, hfs, hfk, fun _ _ => by rw [hfb]⟩
      · by_cases hpos : 0 < count
        · rw [refill_positive c _ token amount _ _ count hev hpos]
          split
          · refine ⟨hfd, hft, hfs, hfk, ?_⟩
            intro other ho
            simp [RedisRateLimiter.setBucket, ho, hfb]
          · refine ⟨hfd, hft, hfs, hfk, ?_⟩
            intro other ho
            simp [RedisRateLimiter.setBucket, ho, hfb]
        · rw [refill_nonpositive c _ token amount _ _ count hev (not_lt.mp hpos)]
          exact ⟨hfd, hft, hfs, hfk, fun _ _ => by rw [hfb]⟩
      · rw [refill_other c _ token amount _ _ hev]
        exact ⟨hfd, hft, hfs, hfk, fun _ _ => by rw [hfb]⟩

/-- C19 (Token isolation).  For distinct tokens `A` and `B`, a `Take(A,
amount)` call leaves `B`'s Local Bucket and the Coordinator's configuration
(duration, throughput, batch size, key prefix) unchanged whatever the store
answers, and over the network it changes no entry of the store under a key
`B:windowID`, for any window; for distinct (token, window identifier) pairs
always have distinct keys `token:windowID`, whatever characters the tokens
contain. -/
theorem token_isolation {σ : Type} (c : Client σ) (st : σ) (net : Net) (s : Redis)
    (r : RedisRateLimiter) (A B : String) (amount : Int) (hAB : A ≠ B) :
    ((Take c r A amount st).2.1.buckets B = r.buckets B
        ∧ (Take c r A amount st).2.1.durationSecs = r.durationSecs
        ∧ (Take c r A amount st).2.1.throughput = r.throughput
        ∧ (Take c r A amount st).2.1.batchSize = r.batchSize
        ∧ (Take c r A amount st).2.1.keyPrefix = r.keyPrefix)
      ∧ (∀ w : Int, (Take (redisClient net) r A amount s).2.2.db (B ++ ":" ++ toString w)
          = s.db (B ++ ":" ++ toString w))
      ∧ (∀ (tok1 tok2 : String) (w1 w2 : Int), (tok1, w1) ≠ (tok2, w2) →
          tok1 ++ ":" ++ toString w1 ≠ tok2 ++ ":" ++ toString w2) := by
  obtain ⟨hd, ht, hb, hk, hbuckets⟩ := Take_frame c r A amount st
  refine ⟨⟨hbuckets B (fun h => hAB h.symm), hd, ht, hb, hk⟩, ?_, ?_⟩
  · intro w
    obtain ⟨_, flag, _, _, _, _, _, _, hdb⟩ := Take_redis_effect net r A amount s
    rcases hdb with ⟨_, hsame⟩ | ⟨_, hrun⟩
    · rw [hsame]
    · rw [hrun]
      apply (SCRIPT_frame A r.durationSecs r.throughput r.batchSize
        { s with scriptLoaded := flag }).2.2.2
      intro hkey
      exact hAB (key_injective B A _ _ hkey).1.symm
  · intro tok1 tok2 w1 w2 hne hkey
    obtain ⟨h1, h2⟩ := key_injective tok1 tok2 w1 w2 hkey
    exact hne (by rw [h1, h2])

/-! ## Histories of one Coordinator: one call -/

/-- An exchange that is not an Allocator invocation brings in nothing. -/
theorem grantFor_of_not_evalSha (tok : String) (e : Event) (h : e.isEvalSha = false) :
    e.grantFor tok = 0 := by
  cases e with
  | scriptExists sha reply => rfl
  | scriptLoad reply => rfl
  | evalSha sha keys args reply => simp [Event.isEvalSha] at h

/-- Registration exchanges bring in nothing and count no invocation. -/
theorem registration_journal (tok : String) (J : List Event)
    (hJ : ∀ e ∈ J, e.isEvalSha = false) :
    (J.map (Event.grantFor tok)).sum = 0 ∧ (J.filter Event.isEvalSha).length = 0 := by
  induction J with
  | nil => exact ⟨rfl, rfl⟩
  | cons e rest ih =>
    obtain ⟨h1, h2⟩ := ih (fun x hx => hJ x (List.mem_cons_of_mem _ hx))
    have he := hJ e (List.mem_cons_self _ _)
    refine ⟨?_, ?_⟩
    · simp only [List.map_cons, List.sum_cons, grantFor_of_not_evalSha tok e he, h1, add_zero]
    · simp only [List.filter_cons, he, Bool.false_eq_true, if_false, h2]

/-- The three outcomes of a `Take(token, amount)` call against any client.
Either the bucket map is as before and the call is not granted (failed
registration, failed or non-positive Allocator reply, unexpected reply); or
the call is served from the bucket without any Allocator invocation; or one
Allocator invocation brings a positive `count` that is merged into the
bucket, which then holds `M` (the wrapped sum, or `count` in a new bucket)
before the amount is taken off.  In each case the journal's grants for the token and its number of
Allocator invocations are as stated, and nothing is brought in for any other
token. -/
theorem Take_outcome {σ : Type} (c : Client σ) (r : RedisRateLimiter) (token : String)
    (amount : Int) (s : σ) :
    (∀ tok, tok ≠ token →
        ((Take.journal c r token amount s).map (Event.grantFor tok)).sum = 0)
      ∧ (((Take c r token amount s).2.1.buckets = r.buckets
            ∧ (Take c r token amount s).1.granted = false
            ∧ ((Take.journal c r token amount s).map (Event.grantFor token)).sum = 0
            ∧ ((Take.journal c r token amount s).filter Event.isEvalSha).length ≤ 1)
        ∨ (∃ b, r.buckets token = some b ∧ amount ≤ b.N
            ∧ (Take c r token amount s).2.1.buckets token
              = some { b with N := wrap64 (b.N - amount) }
            ∧ (Take c r token amount s).1 = .ret true none
            ∧ ((Take.journal c r token amount s).map (Event.grantFor token)).sum = 0
            ∧ ((Take.journal c r token amount s).filter Event.isEvalSha).length = 0)
        ∨ (∃ count M, 0 < count
            ∧ (∀ b, r.buckets token = some b → b.N < amount)
            ∧ ((r.remaining token < amount ∧ M = wrap64 (r.remaining token + count))
              ∨ (r.remaining token = 0 ∧ M = count))
            ∧ (Take c r token amount s).1 = .ret (decide (amount ≤ M)) none
            ∧ (∃ b, (Take c r token amount s).2.1.buckets token = some b
                ∧ b.N = if amount ≤ M then wrap64 (M - amount) else M)
            ∧ ((Take.journal c r token amount s).map (Event.grantFor token)).sum = count
            ∧ ((Take.journal c r token amount s).filter Event.isEvalSha).length = 1
            ∧ ∃ sha args, Event.evalSha sha [token] args (.ok (.int count))
                ∈ Take.journal c r token amount s)) := by
  obtain ⟨hfb, hfd, hft, hfs, _⟩ := register_frame c r s
  obtain ⟨J, hJ, -, -, hcases⟩ := Take_journal_cases c r token amount s
  have hJ0 := fun tok => registration_journal tok J hJ
  rcases hcases with ⟨⟨err, hreg⟩, hj⟩ | ⟨hreg, ⟨b, hb, hle⟩, hj⟩ | ⟨hreg, hslow, hj⟩
  · refine ⟨fun tok _ => by rw [hj]; exact (hJ0 tok).1, Or.inl ?_⟩
    rw [Take_of_register_error c r token amount s err hreg, hj]
    exact ⟨hfb, rfl, (hJ0 token).1, by rw [(hJ0 token).2]; exact Nat.zero_le _⟩
  · refine ⟨fun tok _ => by rw [hj]; exact (hJ0 tok).1, Or.inr (Or.inl ⟨b, hb, hle, ?_⟩)⟩
    rw [Take_of_fast c r token amount s b hreg hb hle, hj]
    exact ⟨by simp [RedisRateLimiter.setBucket], rfl, (hJ0 token).1, (hJ0 token).2⟩
  · have hargs : c.EvalSha (Take.register c r s).2.1.scriptSHA1 [token]
          [(Take.register c r s).2.1.durationSecs, (Take.register c r s).2.1.throughput,
            (Take.register c r s).2.1.batchSize] (Take.register c r s).2.2
        = c.EvalSha (Take.register c r s).2.1.scriptSHA1 [token]
            [r.durationSecs, r.throughput, r.batchSize] (Take.register c r s).2.2 := by
      rw [hfd, hft, hfs]
    have hsum : ∀ tok, ((Take.journal c r token amount s).map (Event.grantFor tok)).sum
        = Event.grantFor tok (Event.evalSha (Take.register c r s).2.1.scriptSHA1 [token]
            [r.durationSecs, r.throughput, r.batchSize]
            (c.EvalSha (Take.register c r s).2.1.scriptSHA1 [token]
              [r.durationSecs, r.throughput, r.batchSize] (Take.register c r s).2.2).1) := by
      intro tok
      rw [hj, List.map_append, List.sum_append, (hJ0 tok).1]
      simp
    have hlen : ((Take.journal c r token amount s).filter Event.isEvalSha).length = 1 := by
      rw [hj, List.filter_append, List.length_append, (hJ0 token).2]
      simp [Event.isEvalSha]
    have hother : ∀ tok, tok ≠ token →
        ((Take.journal c r token amount s).map (Event.grantFor tok)).sum = 0 := by
      intro tok hne
      rw [hsum tok]
      unfold Event.grantFor
      split
      · rename_i heq
        simp only [Event.evalSha.injEq] at heq
        have : ¬ ([token] = [tok]) := by
          intro h
          exact hne (List.cons.inj h).1.symm
        rw [← heq.2.1]
        simp [this]
      · rfl
    refine ⟨hother, ?_⟩
    rw [Take_of_slow c r token amount s hreg hslow]
    rcases hev : (c.EvalSha (Take.register c r s).2.1.scriptSHA1 [token]
        [r.durationSecs, r.throughput, r.batchSize] (Take.register c r s).2.2).1
      with err | (count | _)
    · left
      rw [refill_error c _ token amount _ _ err (by rw [hargs]; exact hev)]
      refine ⟨hfb, rfl, ?_, le_of_eq hlen⟩
      rw [hsum token, hev]
      rfl
    · by_cases hpos : 0 < count
      · right; right
        rw [refill_positive c _ token amount _ _ count (by rw [hargs]; exact hev) hpos]
        refine ⟨count, (merged (Take.register c r s).2.1 token (r.buckets token) count).N,
          hpos, hslow, ?_, ?_, ?_, ?_, hlen, ?_⟩
        · unfold merged RedisRateLimiter.remaining
          cases hrb : r.buckets token with
          | none => exact Or.inr ⟨rfl, rfl⟩
          | some b0 => exact Or.inl ⟨hslow b0 hrb, rfl⟩
        · by_cases hle : amount ≤ (merged (Take.register c r s).2.1 token (r.buckets token)
              count).N
          · simp [hle]
          · simp [hle]
        · by_cases hle : amount ≤ (merged (Take.register c r s).2.1 token (r.buckets token)
              count).N
          · simp [hle, RedisRateLimiter.setBucket]
          · simp [hle, RedisRateLimiter.setBucket]
        · rw [hsum token, hev]
          simp [Event.grantFor, hpos]
        · refine ⟨(Take.register c r s).2.1.scriptSHA1,
            [r.durationSecs, r.throughput, r.batchSize], ?_⟩
          rw [hj, ← hev]
          exact List.mem_append_right _ (List.mem_singleton_self _)
      · left
        rw [refill_nonpositive c _ token amount _ _ count (by rw [hargs]; exact hev)
          (not_lt.mp hpos)]
        refine ⟨hfb, rfl, ?_, le_of_eq hlen⟩
        rw [hsum token, hev]
        simp [Event.grantFor, hpos]
    · left
      rw [refill_other c _ token amount _ _ (by rw [hargs]; exact hev)]
      refine ⟨hfb, rfl, ?_, le_of_eq hlen⟩
      rw [hsum token, hev]
      rfl

/-- The journal of a `Take` call: the registration exchanges, then the one
Allocator invocation when the call gets that far. -/
theorem Take_journal_eq {σ : Type} (c : Client σ) (r : RedisRateLimiter)
    (token : String) (amount : Int) (s : σ) :
    (((∃ err, (Take.register c r s).1 = some err)
          ∨ ((Take.register c r s).1 = none ∧ ∃ b, r.buckets token = some b ∧ amount ≤ b.N))
        ∧ Take.journal c r token amount s = (Take.register c.logging r (s, [])).2.2.2)
      ∨ ((Take.register c r s).1 = none ∧ (∀ b, r.buckets token = some b → b.N < amount)
          ∧ Take.journal c r token amount s
            = (Take.register c.logging r (s, [])).2.2.2
              ++ [Event.evalSha (Take.register c r s).2.1.scriptSHA1 [token]
                  [r.durationSecs, r.throughput, r.batchSize]
                  (c.EvalSha (Take.register c r s).2.1.scriptSHA1 [token]
                    [r.durationSecs, r.throughput, r.batchSize]
                    (Take.register c r s).2.2).1]) := by
  obtain ⟨J, -, -, -, hlog⟩ := register_logging c r s []
  obtain ⟨hfb, hfd, hft, hfs, _⟩ := register_frame c r s
  have hregl : (Take.register c.logging r (s, [])).1 = (Take.register c r s).1 := by rw [hlog]
  cases hreg : (Take.register c r s).1 with
  | some err =>
    left
    refine ⟨Or.inl ⟨err, rfl⟩, ?_⟩
    unfold Take.journal
    rw [Take_of_register_error c.logging r token amount (s, []) err (by rw [hregl, hreg])]
  | none =>
    by_cases hfast : ∃ b, r.buckets token = some b ∧ amount ≤ b.N
    · left
      obtain ⟨b, hb, hle⟩ := hfast
      refine ⟨Or.inr ⟨rfl, b, hb, hle⟩, ?_⟩
      unfold Take.journal
      rw [Take_of_fast c.logging r token amount (s, []) b (by rw [hregl, hreg]) hb hle]
    · right
      have hslow : ∀ b, r.buckets token = some b → b.N < amount := by
        intro b hb
        by_contra hcon
        exact hfast ⟨b, hb, not_lt.mp hcon⟩
      refine ⟨rfl, hslow, ?_⟩
      unfold Take.journal
      rw [Take_of_slow c.logging r token amount (s, []) (by rw [hregl, hreg]) hslow, hlog]
      simp only [refill_logging, hfd, hft, hfs, List.nil_append]

/-- Registration against the replaying store: same error, same Coordinator
afterwards, same journal. -/
theorem register_replay {σ : Type} (c : Client σ) (r : RedisRateLimiter) (token : String)
    (s : σ) :
    (Take.register (Client.replay (Replies.of c r token s)) r ()).1 = (Take.register c r s).1
      ∧ (Take.register (Client.replay (Replies.of c r token s)) r ()).2.1
        = (Take.register c r s).2.1
      ∧ (Take.register (Client.replay (Replies.of c r token s)).logging r ((), [])).2.2.2
        = (Take.register c.logging r (s, [])).2.2.2 := by
  unfold Take.register loadScript
  by_cases hsha : r.scriptSHA1 = ""
  · simp only [if_pos hsha, Client.replay, Replies.of, Client.logging]
    rcases hex : c.ScriptExists SCRIPT_SHA1 s with ⟨_ | ex, s1⟩
    · simp
    · cases ex
      · rcases hld : c.ScriptLoad s1 with ⟨_ | v, s2⟩ <;> simp [hld]
      · simp
  · simp [if_neg hsha]

/-- The refill depends on the store only through the reply to its Allocator
invocation. -/
theorem refill_congr {σ τ : Type} (c1 : Client σ) (c2 : Client τ) (r : RedisRateLimiter)
    (token : String) (amount : Int) (b : Option bucket) (s1 : σ) (s2 : τ)
    (h : (c1.EvalSha r.scriptSHA1 [token] [r.durationSecs, r.throughput, r.batchSize] s1).1
      = (c2.EvalSha r.scriptSHA1 [token] [r.durationSecs, r.throughput, r.batchSize] s2).1) :
    (Take.refill c1 r token amount b s1).1 = (Take.refill c2 r token amount b s2).1
      ∧ (Take.refill c1 r token amount b s1).2.1 = (Take.refill c2 r token amount b s2).2.1 := by
  rcases hev : (c2.EvalSha r.scriptSHA1 [token] [r.durationSecs, r.throughput, r.batchSize] s2).1
    with err | (count | _)
  · rw [refill_error c1 r token amount b s1 err (h.trans hev),
      refill_error c2 r token amount b s2 err hev]
    exact ⟨rfl, rfl⟩
  · by_cases hpos : 0 < count
    · rw [refill_positive c1 r token amount b s1 count (h.trans hev) hpos,
        refill_positive c2 r token amount b s2 count hev hpos]
      split <;> exact ⟨rfl, rfl⟩
    · rw [refill_nonpositive c1 r token amount b s1 count (h.trans hev) (not_lt.mp hpos),
        refill_nonpositive c2 r token amount b s2 count hev (not_lt.mp hpos)]
      exact ⟨rfl, rfl⟩
  · rw [refill_other c1 r token amount b s1 (h.trans hev),
      refill_other c2 r token amount b s2 hev]
    exact ⟨rfl, rfl⟩

/-- Every `Take` call against any client is a `Take` call against the store
that replays the client's answers: same result, same Coordinator afterwards,
same journal. -/
theorem Take_replay {σ : Type} (c : Client σ) (r : RedisRateLimiter) (token : String)
    (amount : Int) (s : σ) :
    (Take c r token amount s).1
        = (Take (Client.replay (Replies.of c r token s)) r token amount ()).1
      ∧ (Take c r token amount s).2.1
        = (Take (Client.replay (Replies.of c r token s)) r token amount ()).2.1
      ∧ Take.journal c r token amount s
        = Take.journal (Client.replay (Replies.of c r token s)) r token amount () := by
  obtain ⟨hr1, hr2, hrj⟩ := register_replay c r token s
  obtain ⟨_, hfd, hft, hfs, _⟩ := register_frame c r s
  cases hreg : (Take.register c r s).1 with
  | some err =>
    have hreg2 := hr1.trans hreg
    rw [Take_of_register_error c r token amount s err hreg,
      Take_of_register_error _ r token amount () err hreg2]
    refine ⟨rfl, hr2.symm, ?_⟩
    rcases Take_journal_eq c r token amount s with ⟨-, hj⟩ | ⟨hnone, -, -⟩
    · rcases Take_journal_eq (Client.replay (Replies.of c r token s)) r token amount ()
        with ⟨-, hj2⟩ | ⟨hnone, -, -⟩
      · rw [hj, hj2, hrj]
      · rw [hreg2] at hnone; exact absurd hnone (by simp)
    · rw [hreg] at hnone; exact absurd hnone (by simp)
  | none =>
    have hreg2 := hr1.trans hreg
    by_cases hfast : ∃ b, r.buckets token = some b ∧ amount ≤ b.N
    · obtain ⟨b, hb, hle⟩ := hfast
      rw [Take_of_fast c r token amount s b hreg hb hle,
        Take_of_fast _ r token amount () b hreg2 hb hle]
      refine ⟨rfl, by rw [hr2], ?_⟩
      rcases Take_journal_eq c r token amount s with ⟨-, hj⟩ | ⟨-, hslow, -⟩
      · rcases Take_journal_eq (Client.replay (Replies.of c r token s)) r token amount ()
          with ⟨-, hj2⟩ | ⟨-, hslow, -⟩
        · rw [hj, hj2, hrj]
        · exact absurd (hslow b hb) (not_lt.mpr hle)
      · exact absurd (hslow b hb) (not_lt.mpr hle)
    · have hslow : ∀ b, r.buckets token = some b → b.N < amount := by
        intro b hb
        by_contra hcon
        exact hfast ⟨b, hb, not_lt.mp hcon⟩
      rw [Take_of_slow c r token amount s hreg hslow,
        Take_of_slow _ r token amount () hreg2 hslow, hr2]
      have hreply : (c.EvalSha (Take.register c r s).2.1.scriptSHA1 [token]
            [(Take.register c r s).2.1.durationSecs, (Take.register c r s).2.1.throughput,
              (Take.register c r s).2.1.batchSize] (Take.register c r s).2.2).1
          = ((Client.replay (Replies.of c r token s)).EvalSha
              (Take.register c r s).2.1.scriptSHA1 [token]
              [(Take.register c r s).2.1.durationSecs, (Take.register c r s).2.1.throughput,
                (Take.register c r s).2.1.batchSize]
              (Take.register (Client.replay (Replies.of c r token s)) r ()).2.2).1 := by
        simp only [Client.replay, Replies.of, hfd, hft, hfs]
      obtain ⟨h1, h2⟩ := refill_congr c (Client.replay (Replies.of c r token s))
        (Take.register c r s).2.1 token amount (r.buckets token) _ _ hreply
      refine ⟨h1, h2, ?_⟩
      rcases Take_journal_eq c r token amount s with ⟨hcon, -⟩ | ⟨-, -, hj⟩
      · rcases hcon with ⟨err, herr⟩ | ⟨-, b, hb, hle⟩
        · rw [hreg] at herr; exact absurd herr (by simp)
        · exact absurd (hslow b hb) (not_lt.mpr hle)
      · rcases Take_journal_eq (Client.replay (Replies.of c r token s)) r token amount ()
          with ⟨hcon, -⟩ | ⟨-, -, hj2⟩
        · rcases hcon with ⟨err, herr⟩ | ⟨-, b, hb, hle⟩
          · rw [hreg2] at herr; exact absurd herr (by simp)
          · exact absurd (hslow b hb) (not_lt.mpr hle)
        · rw [hj, hj2, hrj, hr2]
          simp only [Client.replay, Replies.of]

/-! ## Histories of one Coordinator: invariants -/

/-- The reply recorded for the Allocator invocation of a replayed call is the
prescribed one. -/
theorem Call.journal_reply (call : Call) (r : RedisRateLimiter) (sha : String)
    (keys : List String) (args : List Int) (reply : Except Err Reply)
    (h : Event.evalSha sha keys args reply ∈ call.journal r) :
    reply = call.replies.evalSha := by
  have := (journal_evalSha (Client.replay call.replies) r call.token call.amount () sha keys
    args reply h).2.2
  simpa [Client.replay] using this.symm

/-- The remaining count of a token is the count of its bucket. -/
theorem remaining_of_some (r : RedisRateLimiter) (token : String) (b : bucket)
    (h : r.buckets token = some b) : r.remaining token = b.N := by
  simp [RedisRateLimiter.remaining, h]

/-- A `Take` call for an amount between 0 and `A`, whose Allocator grant, if
any, is at most `batch`, keeps every bucket an `int64` of at most
`max batch (A - 1)`. -/
theorem Take_keeps_bounded {σ : Type} (c : Client σ) (r : RedisRateLimiter) (token : String)
    (amount : Int) (s : σ) (batch A : Int) (h0 : 0 ≤ amount) (hA : amount ≤ A)
    (hrep : ∀ sha keys args n,
      Event.evalSha sha keys args (.ok (.int n)) ∈ Take.journal c r token amount s → n ≤ batch)
    (h : ∀ tok b, r.buckets tok = some b → -2 ^ 63 ≤ b.N ∧ b.N ≤ max batch (A - 1)) :
    ∀ tok b, (Take c r token amount s).2.1.buckets tok = some b →
      -2 ^ 63 ≤ b.N ∧ b.N ≤ max batch (A - 1) := by
  intro tok b hb
  by_cases htok : tok = token
  · subst htok
    rcases (Take_outcome c r tok amount s).2 with ⟨hsame, -⟩ | ⟨b0, hb0, hle, hnew, -⟩
      | ⟨count, M, hpos, hslow, hM, -, ⟨b1, hb1, hN⟩, -, -, sha, args, hmem⟩
    · rw [hsame] at hb
      exact h tok b hb
    · rw [hnew] at hb
      simp only [Option.some.injEq] at hb
      subst hb
      have := h tok b0 hb0
      simp only [wrap64]
      omega
    · rw [hb1] at hb
      simp only [Option.some.injEq] at hb
      subst hb
      have hcount := hrep sha [tok] args count hmem
      have hlow : -2 ^ 63 ≤ r.remaining tok := by
        unfold RedisRateLimiter.remaining
        cases hrb : r.buckets tok with
        | none => simp
        | some b0 => exact (h tok b0 hrb).1
      rw [hN]
      have h1 := le_max_left batch (A - 1)
      have h2 := le_max_right batch (A - 1)
      generalize max batch (A - 1) = bound at h1 h2 ⊢
      simp only [wrap64] at hM ⊢
      split <;> omega
  · rw [(Take_frame c r token amount s).2.2.2.2 tok htok] at hb
    exact h tok b hb

/-- The bound of `Take_keeps_bounded` along a history. -/
theorem after_bounded (batch A : Int) (calls : List Call) :
    ∀ r : RedisRateLimiter,
      (∀ call ∈ calls, 0 ≤ call.amount ∧ call.amount ≤ A) →
      (∀ call ∈ calls, ∀ n, call.replies.evalSha = .ok (.int n) → n ≤ batch) →
      (∀ tok b, r.buckets tok = some b → -2 ^ 63 ≤ b.N ∧ b.N ≤ max batch (A - 1)) →
      ∀ tok b, (r.after calls).buckets tok = some b →
        -2 ^ 63 ≤ b.N ∧ b.N ≤ max batch (A - 1) := by
  induction calls with
  | nil => intro r _ _ h; exact h
  | cons call rest ih =>
    intro r hamt hrep h
    have hc := hamt call (List.mem_cons_self _ _)
    refine ih (call.after r) (fun c hc => hamt c (List.mem_cons_of_mem _ hc))
      (fun c hc => hrep c (List.mem_cons_of_mem _ hc)) ?_
    refine Take_keeps_bounded (Client.replay call.replies) r call.token call.amount () batch A
      hc.1 hc.2 ?_ h
    intro sha keys args n hmem
    have := Call.journal_reply call r sha keys args _ hmem
    exact hrep call (List.mem_cons_self _ _) n this.symm

/-- A `Take` call for an amount between 0 and `A`, whose Allocator grant, if
any, is at most `batch`, with `A + batch` an `int64`: no addition and no
subtraction wraps, every bucket stays a non-negative `int64`, and
for every token what is cached afterwards plus what the call granted is what
was cached before plus what the call obtained. -/
theorem Take_exact {σ : Type} (c : Client σ) (r : RedisRateLimiter) (token : String)
    (amount : Int) (s : σ) (batch A : Int) (h0 : 0 ≤ amount) (hA : amount ≤ A)
    (hAB : A + batch < 2 ^ 63)
    (hrep : ∀ sha keys args n,
      Event.evalSha sha keys args (.ok (.int n)) ∈ Take.journal c r token amount s → n ≤ batch)
    (h : ∀ tok b, r.buckets tok = some b → 0 ≤ b.N ∧ b.N < 2 ^ 63) :
    (∀ tok b, (Take c r token amount s).2.1.buckets tok = some b →
        0 ≤ b.N ∧ b.N < 2 ^ 63)
      ∧ ∀ tok, (Take c r token amount s).2.1.remaining tok
          + (if (Take c r token amount s).1.granted = true ∧ token = tok then amount else 0)
        = r.remaining tok + ((Take.journal c r token amount s).map (Event.grantFor tok)).sum := by
  have hrem : 0 ≤ r.remaining token := by
    unfold RedisRateLimiter.remaining
    cases hrb : r.buckets token with
    | none => exact le_refl _
    | some b0 => exact (h token b0 hrb).1
  have hother : ∀ tok, tok ≠ token →
      (Take c r token amount s).2.1.remaining tok
          + (if (Take c r token amount s).1.granted = true ∧ token = tok then amount else 0)
        = r.remaining tok
          + ((Take.journal c r token amount s).map (Event.grantFor tok)).sum := by
    intro tok htok
    have hne : token ≠ tok := fun h => htok h.symm
    rw [(Take_outcome c r token amount s).1 tok htok,
      remaining_of_bucket _ _ tok ((Take_frame c r token amount s).2.2.2.2 tok htok)]
    simp [hne]
  have hframe : ∀ tok b, tok ≠ token → (Take c r token amount s).2.1.buckets tok = some b →
      0 ≤ b.N ∧ b.N < 2 ^ 63 := by
    intro tok b htok hb
    rw [(Take_frame c r token amount s).2.2.2.2 tok htok] at hb
    exact h tok b hb
  rcases (Take_outcome c r token amount s).2 with ⟨hsame, hng, hsum, -⟩
    | ⟨b0, hb0, hle, hnew, hres, hsum, -⟩
    | ⟨count, M, hpos, hslow, hM, hres, ⟨b1, hb1, hN⟩, hsum, -, sha, args, hmem⟩
  · refine ⟨fun tok b hb => ?_, fun tok => ?_⟩
    · rw [hsame] at hb
      exact h tok b hb
    · by_cases htok : tok = token
      · subst htok
        rw [hsum, hng, remaining_congr _ _ tok hsame]
        simp
      · exact hother tok htok
  · have hb0r := h token b0 hb0
    have hw : wrap64 (b0.N - amount) = b0.N - amount := wrap64_of_range _ (by omega) (by omega)
    refine ⟨fun tok b hb => ?_, fun tok => ?_⟩
    · by_cases htok : tok = token
      · subst htok
        rw [hnew] at hb
        simp only [Option.some.injEq] at hb
        subst hb
        simp only [hw]
        omega
      · exact hframe tok b htok hb
    · by_cases htok : tok = token
      · subst htok
        rw [hsum, hres, remaining_of_some _ _ _ hnew, remaining_of_some _ _ _ hb0]
        simp only [hw, Result.granted, and_self, if_true]
        omega
      · exact hother tok htok
  · have hcount := hrep sha [token] args count hmem
    have hMeq : M = r.remaining token + count := by
      rcases hM with ⟨hlt, hM⟩ | ⟨hz, hM⟩
      · rw [hM]
        exact wrap64_of_range _ (by omega) (by omega)
      · rw [hM, hz, zero_add]
    have hw : amount ≤ M → wrap64 (M - amount) = M - amount :=
      fun hle => wrap64_of_range _ (by omega) (by omega)
    have hslow2 : r.remaining token < amount ∨ r.remaining token = 0 := by
      rcases hM with ⟨hlt, -⟩ | ⟨hz, -⟩
      · exact Or.inl hlt
      · exact Or.inr hz
    refine ⟨fun tok b hb => ?_, fun tok => ?_⟩
    · by_cases htok : tok = token
      · subst htok
        rw [hb1] at hb
        simp only [Option.some.injEq] at hb
        subst hb
        rw [hN]
        by_cases hle : amount ≤ M
        · rw [if_pos hle, hw hle]
          omega
        · rw [if_neg hle]
          omega
      · exact hframe tok b htok hb
    · by_cases htok : tok = token
      · subst htok
        rw [hsum, hres, remaining_of_some _ _ _ hb1, hN]
        by_cases hle : amount ≤ M
        · simp only [hle, if_true, hw hle, Result.granted, decide_True, and_self]
          omega
        · simp only [hle, if_false, Result.granted, decide_False, Bool.false_eq_true,
            false_and]
          omega
      · exact hother tok htok

/-- The bounds and the accounts of `Take_exact` along a history: every bucket
stays a non-negative `int64`, and for every token what is cached
at the end plus what was granted is what was cached at the start plus what
was obtained. -/
theorem after_exact (batch A : Int) (hAB : A + batch < 2 ^ 63) (calls : List Call) :
    ∀ r : RedisRateLimiter,
      (∀ call ∈ calls, 0 ≤ call.amount ∧ call.amount ≤ A) →
      (∀ call ∈ calls, ∀ n, call.replies.evalSha = .ok (.int n) → n ≤ batch) →
      (∀ tok b, r.buckets tok = some b → 0 ≤ b.N ∧ b.N < 2 ^ 63) →
      (∀ tok b, (r.after calls).buckets tok = some b → 0 ≤ b.N ∧ b.N < 2 ^ 63)
        ∧ ∀ token, (r.after calls).remaining token + consumed token (r.trace calls)
            = r.remaining token + obtained token (r.trace calls) := by
  induction calls with
  | nil =>
    intro r _ _ h
    exact ⟨h, fun token => by
      simp [RedisRateLimiter.after, RedisRateLimiter.trace, consumed, obtained]⟩
  | cons call rest ih =>
    intro r hamt hrep h
    have hc := hamt call (List.mem_cons_self _ _)
    obtain ⟨hstep1, hstep2⟩ := Take_exact (Client.replay call.replies) r call.token
      call.amount () batch A hc.1 hc.2 hAB
      (fun sha keys args n hmem =>
        hrep call (List.mem_cons_self _ _) n
          (Call.journal_reply call r sha keys args _ hmem).symm) h
    obtain ⟨hrest1, hrest2⟩ := ih (call.after r)
      (fun c hc => hamt c (List.mem_cons_of_mem _ hc))
      (fun c hc => hrep c (List.mem_cons_of_mem _ hc)) hstep1
    refine ⟨hrest1, fun token => ?_⟩
    have hstep := hstep2 token
    have hrest := hrest2 token
    simp only [consumed, obtained, RedisRateLimiter.after, RedisRateLimiter.trace, List.map_cons,
      List.sum_cons] at hrest ⊢
    simp only [Call.after, Call.result, Call.journal] at hrest hstep ⊢
    omega

/-- A freshly constructed Coordinator has no bucket. -/
theorem NewRedisRateLimiter_buckets (keyPrefix : String) (duration throughput batchSize : Int)
    (tok : String) (b : bucket)
    (h : (NewRedisRateLimiter keyPrefix duration throughput batchSize).buckets tok = some b) :
    False := by
  simp [NewRedisRateLimiter] at h

/-- C16, as amended (Non-negative buckets).  In every state reached from a
freshly constructed Coordinator by any sequence of `Take` calls for amounts
between 0 and `A` (any tokens, any replies and errors of the store in which a
granted count is at most `B`), with `A + B` below `2 ^ 63`, the remaining
count of every Local Bucket is `≥ 0`. -/
theorem buckets_nonneg (keyPrefix : String) (duration throughput batchSize A B : Int)
    (calls : List Call) (token : String) (b : bucket)
    (hAB : A + B < 2 ^ 63)
    (hamt : ∀ call ∈ calls, 0 ≤ call.amount ∧ call.amount ≤ A)
    (hrep : ∀ call ∈ calls, ∀ n, call.replies.evalSha = .ok (.int n) → n ≤ B)
    (hb : ((NewRedisRateLimiter keyPrefix duration throughput batchSize).after calls).buckets
      token = some b) :
    0 ≤ b.N :=
  ((after_exact B A hAB calls (NewRedisRateLimiter keyPrefix duration throughput batchSize)
    hamt hrep
    (fun tok b0 h0 =>
      (NewRedisRateLimiter_buckets keyPrefix duration throughput batchSize tok b0 h0).elim)).1
    token b hb).1

/-- C18, as amended (Permit conservation).  For every sequence of `Take`
calls on one Coordinator starting from its construction, for amounts between
0 and `A` and Allocator replies of at most `B` with `A + B` below `2 ^ 63`,
and for every token, the bucket's remaining count (0 if absent) equals the
sum of the positive counts returned by the Allocator invocations made for
that token minus the sum of the amounts of that token's `Take` calls that
returned `granted = true`; hence the total amount granted locally never
exceeds the total obtained from the Allocator. -/
theorem permit_conservation (keyPrefix : String) (duration throughput batchSize A B : Int)
    (calls : List Call) (token : String)
    (hAB : A + B < 2 ^ 63)
    (hamt : ∀ call ∈ calls, 0 ≤ call.amount ∧ call.amount ≤ A)
    (hrep : ∀ call ∈ calls, ∀ n, call.replies.evalSha = .ok (.int n) → n ≤ B) :
    ((NewRedisRateLimiter keyPrefix duration throughput batchSize).after calls).remaining token
        = obtained token ((NewRedisRateLimiter keyPrefix duration throughput batchSize).trace calls)
          - consumed token
              ((NewRedisRateLimiter keyPrefix duration throughput batchSize).trace calls)
      ∧ consumed token ((NewRedisRateLimiter keyPrefix duration throughput batchSize).trace calls)
        ≤ obtained token
            ((NewRedisRateLimiter keyPrefix duration throughput batchSize).trace calls) := by
  obtain ⟨hinv, hacc⟩ := after_exact B A hAB calls
    (NewRedisRateLimiter keyPrefix duration throughput batchSize) hamt hrep
    (fun tok b0 h0 =>
      (NewRedisRateLimiter_buckets keyPrefix duration throughput batchSize tok b0 h0).elim)
  have hacc := hacc token
  have hzero : (NewRedisRateLimiter keyPrefix duration throughput batchSize).remaining token
      = 0 := by
    simp [NewRedisRateLimiter, RedisRateLimiter.remaining]
  have hnn : 0 ≤ ((NewRedisRateLimiter keyPrefix duration throughput batchSize).after
      calls).remaining token := by
    unfold RedisRateLimiter.remaining
    cases hb : ((NewRedisRateLimiter keyPrefix duration throughput batchSize).after
        calls).buckets token with
    | none => exact le_refl _
    | some b => exact (hinv token b hb).1
  rw [hzero] at hacc
  constructor <;> omega

/-- C13, as amended (Hoarding bound).  In every state reached from a freshly
constructed Coordinator by `Take` calls for amounts between 0 and `A` (any
tokens, any replies of the store in which a granted count is at most
`batchSize`), the remaining count of every Local Bucket is at most
`max batchSize (A - 1)`: at most `batchSize` when no amount exceeds
`batchSize`. -/
theorem hoarding_bound (keyPrefix : String) (duration throughput batchSize A : Int)
    (calls : List Call) (token : String) (b : bucket)
    (hamt : ∀ call ∈ calls, 0 ≤ call.amount ∧ call.amount ≤ A)
    (hrep : ∀ call ∈ calls, ∀ n, call.replies.evalSha = .ok (.int n) → n ≤ batchSize)
    (hb : ((NewRedisRateLimiter keyPrefix duration throughput batchSize).after calls).buckets
      token = some b) :
    b.N ≤ max batchSize (A - 1) ∧ (A ≤ batchSize → b.N ≤ batchSize) := by
  have hbound : b.N ≤ max batchSize (A - 1) := by
    refine (after_bounded batchSize A calls _ hamt hrep ?_ token b hb).2
    intro tok b0 h0
    simp [NewRedisRateLimiter] at h0
  refine ⟨hbound, ?_⟩
  intro hA
  rw [max_eq_left (by omega)] at hbound
  exact hbound

/-! ## Histories of one Coordinator: examples -/

/-- The example history asks for at most 5. -/
theorem Example.calls_amounts :
    ∀ call ∈ Example.calls, 0 ≤ call.amount ∧ call.amount ≤ 5 := by
  decide

/-- The Allocator replies of the example history are at most 10. -/
theorem Example.calls_replies :
    ∀ call ∈ Example.calls, ∀ n, call.replies.evalSha = .ok (.int n) → n ≤ 10 := by
  intro call hc n hn
  simp only [Example.calls, Example.call1, Example.call2, Example.call3, List.mem_cons,
    List.mem_singleton, List.not_mem_nil, or_false] at hc
  rcases hc with rfl | rfl | rfl
  · simp only [Except.ok.injEq, Reply.int.injEq] at hn
    omega
  · simp at hn
  · simp only [Except.ok.injEq, Reply.int.injEq] at hn
    omega

/-- Witness for C16 as amended: the example history asks for at most 5 and is
answered with at most 10; afterwards the bucket of `"u2"` holds the 2 permits
of its refused call. -/
theorem buckets_nonneg_witness :
    ((5 : Int) + 10 < 2 ^ 63
        ∧ (∀ call ∈ Example.calls, 0 ≤ call.amount ∧ call.amount ≤ 5)
        ∧ (Example.limiter0.after Example.calls).buckets "u2" = some ⟨"p:u2", 2⟩)
      ∧ (0 : Int) ≤ (⟨"p:u2", 2⟩ : bucket).N :=
  ⟨⟨by decide, Example.calls_amounts, by decide⟩,
    buckets_nonneg "p" Second 100 10 5 10 Example.calls "u2" ⟨"p:u2", 2⟩ (by decide)
      Example.calls_amounts Example.calls_replies (by decide)⟩

/-- Counterexample to C16 as stated: the fresh example Coordinator is granted
a batch of 10 on `Take("u1", 5)` and keeps 5; then `Take("u1", math.MinInt64)`
is served from the bucket, and `5 - math.MinInt64` wraps around: the bucket
holds -9223372036854775803. -/
theorem buckets_nonneg_fails_on_overflow :
    (Example.limiter0.after [Example.call1]).buckets "u1" = some ⟨"p:u1", 5⟩
      ∧ Example.callMin.amount = -2 ^ 63
      ∧ Example.callMin.result (Example.limiter0.after [Example.call1]) = .ret true none
      ∧ (Example.limiter0.after Example.wrapping).buckets "u1"
        = some ⟨"p:u1", -9223372036854775803⟩
      ∧ ¬ (0 : Int) ≤ (⟨"p:u1", -9223372036854775803⟩ : bucket).N := by
  decide

/-- Witness for C18 as amended: in the example history 10 permits are
obtained and 10 granted for `"u1"`, and nothing is left. -/
theorem permit_conservation_witness :
    ((5 : Int) + 10 < 2 ^ 63
        ∧ (∀ call ∈ Example.calls, 0 ≤ call.amount ∧ call.amount ≤ 5))
      ∧ (Example.limiter0.after Example.calls).remaining "u1"
        = obtained "u1" (Example.limiter0.trace Example.calls)
          - consumed "u1" (Example.limiter0.trace Example.calls)
      ∧ obtained "u1" (Example.limiter0.trace Example.calls) = 10 :=
  ⟨⟨by decide, Example.calls_amounts⟩,
    (permit_conservation "p" Second 100 10 5 10 Example.calls "u1" (by decide)
      Example.calls_amounts Example.calls_replies).1, by decide⟩

/-- Counterexample to C18 as stated: the history `Take("u1", 5)`, granted a
batch of 10, then `Take("u1", math.MinInt64)`, served from the bucket.  10
permits are obtained, the granted amounts sum to `5 + math.MinInt64`, and the
bucket holds -9223372036854775803, not 9223372036854775813. -/
theorem permit_conservation_fails_on_overflow :
    obtained "u1" (Example.limiter0.trace Example.wrapping) = 10
      ∧ consumed "u1" (Example.limiter0.trace Example.wrapping) = 5 + -2 ^ 63
      ∧ (Example.limiter0.after Example.wrapping).remaining "u1" = -9223372036854775803
      ∧ obtained "u1" (Example.limiter0.trace Example.wrapping)
          - consumed "u1" (Example.limiter0.trace Example.wrapping) = 9223372036854775813
      ∧ (Example.limiter0.after Example.wrapping).remaining "u1"
        ≠ obtained "u1" (Example.limiter0.trace Example.wrapping)
          - consumed "u1" (Example.limiter0.trace Example.wrapping) := by
  decide

/-- Witness for C13 as amended: the example history asks for at most 5 with
batch size 10, and its buckets hold 0 and 2. -/
theorem hoarding_bound_witness :
    ((∀ call ∈ Example.calls, 0 ≤ call.amount ∧ call.amount ≤ 5)
        ∧ (Example.limiter0.after Example.calls).buckets "u2" = some ⟨"p:u2", 2⟩)
      ∧ (⟨"p:u2", 2⟩ : bucket).N ≤ max 10 (5 - 1) :=
  ⟨⟨Example.calls_amounts, by decide⟩,
    (hoarding_bound "p" Second 100 10 5 Example.calls "u2" ⟨"p:u2", 2⟩ Example.calls_amounts
      Example.calls_replies (by decide)).1⟩

/-- Counterexample to C13 as stated: batch size 10, throughput 100.  Two
`Take("u1", 25)` calls are each granted 10 by the Allocator (never more than
the batch size) and refused, and the bucket then holds 20. -/
theorem hoarding_bound_fails_for_large_amounts :
    Example.limiter0.batchSize = 10
      ∧ Example.refused.1 = .ret false none
      ∧ Example.refusedAgain.1 = .ret false none
      ∧ Example.refusedAgain.2.1.buckets "u1" = some ⟨"p:u1", 20⟩
      ∧ ¬ (Example.refusedAgain.2.1.remaining "u1" ≤ Example.limiter0.batchSize) := by
  decide

/-- The accounts of the example history: 10 obtained and 10 granted for
`"u1"`, 2 obtained and nothing granted for `"u2"`. -/
theorem Example.calls_accounts :
    obtained "u1" (Example.limiter0.trace Example.calls) = 10
      ∧ consumed "u1" (Example.limiter0.trace Example.calls) = 10
      ∧ (Example.limiter0.after Example.calls).remaining "u1" = 0
      ∧ obtained "u2" (Example.limiter0.trace Example.calls) = 2
      ∧ consumed "u2" (Example.limiter0.trace Example.calls) = 0
      ∧ (Example.limiter0.after Example.calls).remaining "u2" = 2 := by
  decide

/-- Witness for C19: tokens `"a:1"` and `"a"`.  A granted `Take("a:1", 5)`
writes the counter `a:1:1` and leaves alone the bucket of `"a"` and every
counter `a:w`, among them `a:1`. -/
theorem token_isolation_witness :
    ("a:1" : String) ≠ "a"
      ∧ (Take (redisClient .reliable) Example.limiter0 "a:1" 5 Example.redis0).2.2.db "a:1:1"
        = some ⟨10, some 4⟩
      ∧ (Take (redisClient .reliable) Example.limiter0 "a:1" 5 Example.redis0).2.1.buckets "a"
        = Example.limiter0.buckets "a"
      ∧ (Take (redisClient .reliable) Example.limiter0 "a:1" 5 Example.redis0).2.2.db
          ("a" ++ ":" ++ toString (1 : Int))
        = Example.redis0.db ("a" ++ ":" ++ toString (1 : Int)) :=
  have h := token_isolation (redisClient .reliable) Example.redis0 .reliable Example.redis0
    Example.limiter0 "a:1" "a" 5 (by decide)
  ⟨by decide, by decide, h.1.1, h.2.1 1⟩

/-! ## Batches -/

/-- Registration over a reliable connection, by a Coordinator that holds no
identifier or holds the identifier of the cached script: it succeeds, the
Coordinator holds the identifier and the script is cached. -/
theorem register_reliable (r : RedisRateLimiter) (s : Redis)
    (hsha : r.scriptSHA1 = "" ∨ (r.scriptSHA1 = SCRIPT_SHA1 ∧ s.scriptLoaded = true)) :
    (Take.register (redisClient .reliable) r s).1 = none
      ∧ (Take.register (redisClient .reliable) r s).2.1.scriptSHA1 = SCRIPT_SHA1
      ∧ (Take.register (redisClient .reliable) r s).2.2 = { s with scriptLoaded := true } := by
  unfold Take.register loadScript
  rcases hsha with h | ⟨h, hl⟩
  · rw [if_pos h]
    cases hL : s.scriptLoaded
    · simp [redisClient, Fault.send, Net.reliable, Redis.scriptExists, Redis.scriptLoad, hL]
    · simp only [redisClient, Fault.send, Net.reliable, Redis.scriptExists, hL, decide_True,
        Bool.and_self, if_true, true_and]
      rw [← hL]
  · have hne : r.scriptSHA1 ≠ "" := by rw [h]; decide
    rw [if_neg hne]
    refine ⟨rfl, h, ?_⟩
    show s = { s with scriptLoaded := true }
    rw [← hl]

/-- A delivered `EVALSHA` of the cached script answers with what the script
returns. -/
theorem evalSha_reliable (tok : String) (d throughput batch_size : Int) (s : Redis) (n : Int)
    (hl : s.scriptLoaded = true) (hn : (SCRIPT tok d throughput batch_size s).1 = .ok n) :
    (redisClient .reliable).EvalSha SCRIPT_SHA1 [tok] [d, throughput, batch_size] s
      = (.ok (.int n), (SCRIPT tok d throughput batch_size s).2) := by
  simp only [redisClient, Fault.send, Net.reliable, Redis.evalSha, hl, and_self, if_true, hn]

/-- On a window with room for a whole batch the script grants the batch. -/
theorem SCRIPT_full_batch ( key_prefix : String) (d throughput batch_size : Int) (s : Redis)
    (hd : 1 ≤ d) (ht : throughput ≤ 2 ^ 53) (hb : 0 < batch_size)
    (hn : 0 ≤ s.counter (windowKey key_prefix s.time d))
    (hroom : s.counter (windowKey key_prefix s.time d) + batch_size ≤ throughput) :
    (SCRIPT key_prefix d throughput batch_size s).1 = .ok batch_size
      ∧ (SCRIPT key_prefix d throughput batch_size s).2.counter (windowKey key_prefix s.time d)
        = s.counter (windowKey key_prefix s.time d) + batch_size := by
  have hinc : SCRIPT.increment throughput batch_size (s.counter (windowKey key_prefix s.time d))
      = batch_size := by
    rcases increment_exact throughput batch_size (s.counter (windowKey key_prefix s.time d))
      (by omega) (by omega) ht (Or.inl ⟨by omega, by omega⟩) with h | ⟨h, -⟩
    · rw [h, min_eq_right (by omega)]
    · omega
  obtain ⟨h1, h2⟩ := SCRIPT_of_room key_prefix d throughput batch_size s hd
    (by rw [toDouble_of_small _ (by omega) (by omega), toDouble_of_small _ (by omega) ht]; omega)
    (by rw [hinc]; omega) (by rw [hinc]; omega) (by rw [hinc]; omega) (by rw [hinc]; omega)
  rw [hinc] at h1 h2
  refine ⟨h1, ?_⟩
  have htime := (SCRIPT_frame key_prefix d throughput batch_size s).1
  have hlive := deadline_beyond_window s.time s.time d _ hd rfl rfl
  simp only [Redis.counter, Redis.GET, h2, htime, Entry.live, hlive, decide_True, if_true]

/-- A `Take` call served from the bucket by a Coordinator that holds a script
identifier: granted, the amount is taken from the bucket, nothing else
changes, and the journal is empty. -/
theorem Take_served {σ : Type} (c : Client σ) (r : RedisRateLimiter) (token : String)
    (amount : Int) (s : σ) (b : bucket) (hsha : r.scriptSHA1 ≠ "")
    (hb : r.buckets token = some b) (hle : amount ≤ b.N) :
    Take c r token amount s
        = (.ret true none, r.setBucket token { b with N := wrap64 (b.N - amount) }, s)
      ∧ Take.journal c r token amount s = [] := by
  have hreg := register_held c r s hsha
  have h1 : Take c r token amount s
      = (.ret true none, r.setBucket token { b with N := wrap64 (b.N - amount) }, s) := by
    rw [Take_of_fast c r token amount s b (by rw [hreg]) hb hle, hreg]
  refine ⟨h1, ?_⟩
  obtain ⟨J, -, hJ0, -, hcases⟩ := Take_journal_cases c r token amount s
  have hJ := hJ0 hsha
  rcases hcases with ⟨-, hj⟩ | ⟨-, -, hj⟩ | ⟨-, hslow, -⟩
  · rw [hj, hJ]
  · rw [hj, hJ]
  · exact absurd (hslow b hb) (not_lt.mpr hle)

/-- A bucket that holds `left + k * amount` serves `k` consecutive calls for
`amount` without any exchange with the store and is left with `left`. -/
theorem consecutive_served {σ : Type} (c : Client σ) (token : String) (amount left : Int)
    (hleft : 0 ≤ left) (hamount : 0 < amount) (k : Nat) :
    ∀ (r : RedisRateLimiter) (s : σ) (b : bucket), r.scriptSHA1 ≠ "" →
      r.buckets token = some b → b.N = left + k * amount → b.N < 2 ^ 63 →
      (∀ p ∈ (consecutive c token amount k r s).1, p.result = .ret true none)
        ∧ invocations (consecutive c token amount k r s).1 = 0
        ∧ obtained token (consecutive c token amount k r s).1 = 0
        ∧ (consecutive c token amount k r s).2.1.remaining token = left
        ∧ (consecutive c token amount k r s).2.2 = s := by
  induction k with
  | zero =>
    intro r s b _ hb hN _
    refine ⟨by simp [consecutive], rfl, rfl, ?_, rfl⟩
    simp only [consecutive, RedisRateLimiter.remaining, hb, hN, Nat.cast_zero, zero_mul,
      add_zero]
  | succ k ih =>
    intro r s b hsha hb hN hmax
    have hnn : (0 : Int) ≤ (k : Int) * amount :=
      mul_nonneg (Int.natCast_nonneg _) (le_of_lt hamount)
    have hexp : ((k + 1 : Nat) : Int) * amount = k * amount + amount := by
      push_cast; ring
    rw [hexp] at hN
    have hle : amount ≤ b.N := by omega
    obtain ⟨htake, hj⟩ := Take_served c r token amount s b hsha hb hle
    have hw : wrap64 (b.N - amount) = b.N - amount := wrap64_of_range _ (by omega) (by omega)
    obtain ⟨hall, hinv, hobt, hrem, hstore⟩ := ih
      (r.setBucket token { b with N := wrap64 (b.N - amount) }) s
      { b with N := wrap64 (b.N - amount) } hsha
      (by simp [RedisRateLimiter.setBucket])
      (by show wrap64 (b.N - amount) = _; rw [hw]; omega)
      (by show wrap64 (b.N - amount) < _; rw [hw]; omega)
    simp only [consecutive, htake, hj]
    refine ⟨?_, ?_, ?_, hrem, hstore⟩
    · intro p hp
      simp only [List.mem_cons] at hp
      rcases hp with rfl | hp
      · rfl
      · exact hall p hp
    · simp only [invocations, List.map_cons, List.sum_cons] at hinv ⊢
      rw [hinv]
      rfl
    · simp only [obtained, List.map_cons, List.sum_cons] at hobt ⊢
      rw [hobt]
      rfl

/-- A `Take` call over a reliable connection that cannot be served from the
bucket, on a window with room for a whole batch that covers the amount: one
Allocator invocation grants the batch, the call is granted and the rest of
the batch stays in the bucket. -/
theorem Take_reliable_batch (r : RedisRateLimiter) (s : Redis) (token : String) (amount : Int)
    (hsha : r.scriptSHA1 = "" ∨ (r.scriptSHA1 = SCRIPT_SHA1 ∧ s.scriptLoaded = true))
    (hd : 1 ≤ r.durationSecs) (ht : r.throughput ≤ 2 ^ 53) (hpos : 0 < r.batchSize)
    (hn : 0 ≤ s.counter (windowKey token s.time r.durationSecs))
    (hroom : s.counter (windowKey token s.time r.durationSecs) + r.batchSize ≤ r.throughput)
    (hrem : 0 ≤ r.remaining token) (hlt : r.remaining token < amount)
    (hle : amount ≤ r.remaining token + r.batchSize)
    (hmax : r.remaining token + r.batchSize < 2 ^ 63) :
    (Take (redisClient .reliable) r token amount s).1 = .ret true none
      ∧ (∃ b, (Take (redisClient .reliable) r token amount s).2.1.buckets token = some b
          ∧ b.N = r.remaining token + r.batchSize - amount)
      ∧ (Take (redisClient .reliable) r token amount s).2.1.scriptSHA1 = SCRIPT_SHA1
      ∧ (Take (redisClient .reliable) r token amount s).2.2.counter
          (windowKey token s.time r.durationSecs)
        = s.counter (windowKey token s.time r.durationSecs) + r.batchSize
      ∧ ((Take.journal (redisClient .reliable) r token amount s).filter
          Event.isEvalSha).length = 1
      ∧ ((Take.journal (redisClient .reliable) r token amount s).map
          (Event.grantFor token)).sum = r.batchSize := by
  obtain ⟨hreg1, hreg2, hreg3⟩ := register_reliable r s hsha
  obtain ⟨hfb, hfd, hft, hfs, _⟩ := register_frame (redisClient .reliable) r s
  have hslow : ∀ b, r.buckets token = some b → b.N < amount := by
    intro b hb
    rw [← remaining_of_some r token b hb]
    exact hlt
  obtain ⟨hs1, hs2⟩ := SCRIPT_full_batch token r.durationSecs r.throughput r.batchSize
    { s with scriptLoaded := true } hd ht hpos hn hroom
  have hev : (redisClient .reliable).EvalSha
      (Take.register (redisClient .reliable) r s).2.1.scriptSHA1 [token]
      [(Take.register (redisClient .reliable) r s).2.1.durationSecs,
        (Take.register (redisClient .reliable) r s).2.1.throughput,
        (Take.register (redisClient .reliable) r s).2.1.batchSize]
      (Take.register (redisClient .reliable) r s).2.2
      = (.ok (.int r.batchSize),
          (SCRIPT token r.durationSecs r.throughput r.batchSize
            { s with scriptLoaded := true }).2) := by
    rw [hreg2, hreg3, hfd, hft, hfs]
    exact evalSha_reliable token _ _ _ _ _ rfl hs1
  have hM : (merged (Take.register (redisClient .reliable) r s).2.1 token (r.buckets token)
      r.batchSize).N = r.remaining token + r.batchSize := by
    unfold merged RedisRateLimiter.remaining
    cases hrb : r.buckets token with
    | none => simp
    | some b0 =>
      have h1 := hslow b0 hrb
      have h2 := remaining_of_some r token b0 hrb
      show wrap64 (b0.N + r.batchSize) = b0.N + r.batchSize
      exact wrap64_of_range _ (by omega) (by omega)
  have htake : Take (redisClient .reliable) r token amount s
      = (.ret true none,
          (Take.register (redisClient .reliable) r s).2.1.setBucket token
            { merged (Take.register (redisClient .reliable) r s).2.1 token (r.buckets token)
                r.batchSize with
              N := wrap64 (r.remaining token + r.batchSize - amount) },
          (SCRIPT token r.durationSecs r.throughput r.batchSize
            { s with scriptLoaded := true }).2) := by
    rw [Take_of_slow _ r token amount s hreg1 hslow,
      refill_positive _ _ token amount _ _ r.batchSize (by rw [hev]) hpos, hM, if_pos hle, hev]
  have hw : wrap64 (r.remaining token + r.batchSize - amount)
      = r.remaining token + r.batchSize - amount :=
    wrap64_of_range _ (by omega) (by omega)
  have hgranted : (Take (redisClient .reliable) r token amount s).1.granted = true := by
    rw [htake]; rfl
  refine ⟨by rw [htake],
    ⟨{ merged (Take.register (redisClient .reliable) r s).2.1 token (r.buckets token)
          r.batchSize with
        N := wrap64 (r.remaining token + r.batchSize - amount) },
      by rw [htake]; simp [RedisRateLimiter.setBucket], hw⟩,
    by rw [htake]; exact hreg2, by rw [htake]; exact hs2, ?_⟩
  rcases (Take_outcome (redisClient .reliable) r token amount s).2 with ⟨-, hng, -⟩
    | ⟨b0, hb0, hle0, -⟩ | ⟨count, M, -, -, -, -, -, hsum, hlen, sha, args, hmem⟩
  · rw [hgranted] at hng
    exact absurd hng (by simp)
  · exact absurd (hslow b0 hb0) (not_lt.mpr hle0)
  · have hreply := (journal_evalSha (redisClient .reliable) r token amount s sha [token] args _
      hmem).2.2
    rw [hev] at hreply
    simp only [Except.ok.injEq, Reply.int.injEq] at hreply
    rw [hreply]
    exact ⟨hlen, hsum⟩

/-- C15, as amended (Batch amortisation).  The scenario, over the Coordinator
connected to the modelled store: duration 1 s, throughput 100, batch size 10,
an empty store and a fresh Coordinator.  The first `Take("u1", 5)` makes
exactly one Allocator invocation, which grants 10, is granted and leaves the
bucket at 5; the second makes no Allocator invocation (no exchange at all),
is granted and leaves the bucket at 0; the third makes one Allocator
invocation again.  In general, over a reliable connection to a store nobody
else writes to: when the amount is positive and divides the batch size, the
bucket holds a non-negative count below the amount, the Coordinator (window
duration `≥ 1` s) holds no script identifier or that of the cached script,
and the window of the token has room for a whole batch (its counter is `≥ 0`
and counter plus batch size is at most the throughput, itself at most
`2 ^ 53`), then the next
`batchSize / amount` consecutive `Take(token, amount)` calls are all granted
with exactly one Allocator invocation among them, which grants the batch;
they raise the counter by the batch size and leave the bucket as it was, so
that the next call needs the Allocator again. -/
theorem batch_amortisation :
    (Example.first.1 = .ret true none
        ∧ ((Take.journal (redisClient .reliable) Example.limiter0 "u1" 5 Example.redis0).filter
            Event.isEvalSha).length = 1
        ∧ ((Take.journal (redisClient .reliable) Example.limiter0 "u1" 5 Example.redis0).map
            (Event.grantFor "u1")).sum = 10
        ∧ Example.first.2.1.remaining "u1" = 5
        ∧ Example.second.1 = .ret true none
        ∧ (Take.journal (redisClient .reliable) Example.first.2.1 "u1" 5
            Example.first.2.2).length = 0
        ∧ Example.second.2.1.remaining "u1" = 0
        ∧ ((Take.journal (redisClient .reliable) Example.second.2.1 "u1" 5
            Example.second.2.2).filter Event.isEvalSha).length = 1
        ∧ Example.third.1 = .ret true none)
      ∧ ∀ (r : RedisRateLimiter) (s : Redis) (token : String) (amount : Int) (k : Nat),
          0 < amount → r.batchSize = ((k : Int) + 1) * amount →
          0 ≤ r.remaining token → r.remaining token < amount →
          (r.scriptSHA1 = "" ∨ (r.scriptSHA1 = SCRIPT_SHA1 ∧ s.scriptLoaded = true)) →
          1 ≤ r.durationSecs → r.throughput ≤ 2 ^ 53 →
          0 ≤ s.counter (windowKey token s.time r.durationSecs) →
          s.counter (windowKey token s.time r.durationSecs) + r.batchSize ≤ r.throughput →
          (∀ p ∈ (consecutive (redisClient .reliable) token amount (k + 1) r s).1,
              p.result = .ret true none)
            ∧ invocations (consecutive (redisClient .reliable) token amount (k + 1) r s).1 = 1
            ∧ obtained token (consecutive (redisClient .reliable) token amount (k + 1) r s).1
              = r.batchSize
            ∧ (consecutive (redisClient .reliable) token amount (k + 1) r s).2.1.remaining token
              = r.remaining token
            ∧ (consecutive (redisClient .reliable) token amount (k + 1) r s).2.2.counter
                (windowKey token s.time r.durationSecs)
              = s.counter (windowKey token s.time r.durationSecs) + r.batchSize := by
  refine ⟨by decide, ?_⟩
  intro r s token amount k hamount hbatch hrem hlt hsha hd ht hn hroom
  have hnn : (0 : Int) ≤ (k : Int) * amount :=
    mul_nonneg (Int.natCast_nonneg _) (le_of_lt hamount)
  have hexp : ((k : Int) + 1) * amount = k * amount + amount := by ring
  rw [hexp] at hbatch
  obtain ⟨hres, ⟨b, hb, hN⟩, hid, hcount, hlen, hsum⟩ := Take_reliable_batch r s token amount
    hsha hd ht (by omega) hn hroom hrem hlt (by omega) (by omega)
  obtain ⟨hall, hinv, hobt, hafter, hstore⟩ := consecutive_served (redisClient .reliable) token
    amount (r.remaining token) hrem hamount k
    (Take (redisClient .reliable) r token amount s).2.1
    (Take (redisClient .reliable) r token amount s).2.2 b
    (by rw [hid]; decide) hb (by omega) (by omega)
  simp only [consecutive]
  refine ⟨?_, ?_, ?_, hafter, by rw [hstore]; exact hcount⟩
  · intro p hp
    simp only [List.mem_cons] at hp
    rcases hp with rfl | hp
    · exact hres
    · exact hall p hp
  · simp only [invocations, List.map_cons, List.sum_cons] at hinv ⊢
    rw [hinv, hlen]
  · simp only [obtained, List.map_cons, List.sum_cons] at hobt ⊢
    rw [hobt, hsum, add_zero]

/-- Witness for C15 as amended: the scenario as consecutive calls.  Batch size
10 and amount 5 on the empty store: the first two calls for `"u1"` are
granted with one Allocator invocation and leave the bucket empty as it was. -/
theorem batch_amortisation_witness :
    ((0 : Int) < 5 ∧ Example.limiter0.batchSize = (((1 : Nat) : Int) + 1) * 5
        ∧ 0 ≤ Example.limiter0.remaining "u1" ∧ Example.limiter0.remaining "u1" < 5
        ∧ Example.limiter0.scriptSHA1 = ""
        ∧ 1 ≤ Example.limiter0.durationSecs ∧ Example.limiter0.throughput ≤ 2 ^ 53
        ∧ 0 ≤ Example.redis0.counter
            (windowKey "u1" Example.redis0.time Example.limiter0.durationSecs)
        ∧ Example.redis0.counter
              (windowKey "u1" Example.redis0.time Example.limiter0.durationSecs)
            + Example.limiter0.batchSize ≤ Example.limiter0.throughput)
      ∧ (∀ p ∈ (consecutive (redisClient .reliable) "u1" 5 2 Example.limiter0
            Example.redis0).1, p.result = .ret true none)
      ∧ invocations (consecutive (redisClient .reliable) "u1" 5 2 Example.limiter0
          Example.redis0).1 = 1
      ∧ (consecutive (redisClient .reliable) "u1" 5 2 Example.limiter0
          Example.redis0).2.1.remaining "u1" = Example.limiter0.remaining "u1" :=
  have h := batch_amortisation.2 Example.limiter0 Example.redis0 "u1" 5 1 (by decide)
    (by decide) (by decide) (by decide) (Or.inl rfl) (by decide) (by decide) (by decide)
    (by decide)
  ⟨⟨by decide, by decide, by decide, by decide, rfl, by decide, by decide, by decide,
    by decide⟩, h.1, h.2.1, h.2.2.2.1⟩

/-- Counterexample to C15 as stated: duration 1 s, throughput 12, batch size
10, amount 5 (which divides the batch size).  After the first two calls the
bucket is empty and the counter of the window stands at 10, below the
throughput: the window is not exhausted.  The third `Take("u1", 5)` invokes
the Allocator, is granted 2 and refused; the fourth invokes the Allocator
again and is refused: two Allocator invocations in two consecutive calls. -/
theorem batch_amortisation_fails_without_room :
    Example.tight0.batchSize = 2 * 5
      ∧ Example.tight0.throughput = 12
      ∧ Example.tightSecond.2.1.remaining "u1" = 0
      ∧ Example.tightSecond.2.2.counter
          (windowKey "u1" Example.tightSecond.2.2.time Example.tight0.durationSecs) = 10
      ∧ ((Take.journal (redisClient .reliable) Example.tightSecond.2.1 "u1" 5
            Example.tightSecond.2.2).filter Event.isEvalSha).length = 1
      ∧ Example.tightThird.1 = .ret false none
      ∧ Example.tightThird.2.1.remaining "u1" = 2
      ∧ ((Take.journal (redisClient .reliable) Example.tightThird.2.1 "u1" 5
            Example.tightThird.2.2).filter Event.isEvalSha).length = 1
      ∧ Example.tightFourth.1 = .ret false none
      ∧ invocations (consecutive (redisClient .reliable) "u1" 5 2 Example.tightSecond.2.1
          Example.tightSecond.2.2).1 = 2 := by
  decide

/-! ## The key prefix -/

/-- Every Allocator invocation of a `Take(token, amount)` call is made with
the bare token as its one key, whatever the Coordinator's key prefix is. -/
theorem allocator_key_is_token {σ : Type} (c : Client σ) (r : RedisRateLimiter)
    (token : String) (amount : Int) (s : σ) (sha : String) (keys : List String)
    (args : List Int) (reply : Except Err Reply)
    (h : Event.evalSha sha keys args reply ∈ Take.journal c r token amount s) :
    keys = [token] := by
  obtain ⟨J, hJ, -, -, hlog⟩ := register_logging c r s []
  have hnotJ : Event.evalSha sha keys args reply ∉ J := by
    intro hmem
    have := hJ _ hmem
    simp [Event.isEvalSha] at this
  rcases Take_journal_eq c r token amount s with ⟨-, hj⟩ | ⟨-, -, hj⟩
  · rw [hj, hlog] at h
    exact absurd h hnotJ
  · rw [hj, hlog] at h
    rcases List.mem_append.mp h with hmem | hmem
    · exact absurd hmem hnotJ
    · simp only [List.mem_singleton, Event.evalSha.injEq] at hmem
      exact hmem.2.1

/-- C12 at its failing input.  Two Coordinators with key prefixes `"p"` and
`"q"` (duration 1 s, throughput 10, batch size 10) share an empty store at
server time 1.  The first takes 10 for token `"u1"`: its Allocator invocation
is made with the key `u1`, the counter written is `u1:1`, nothing is stored
under `p:u1:1`, and the prefix only ends up in the bucket's `keyPrefix`.  The
second then takes 1 for `"u1"`: its Allocator invocation is made with the
same key, reads the counter of the first and is answered 0, so the call is
refused, whereas on the untouched store it is granted. -/
theorem keyPrefix_not_in_counter_key :
    (NewRedisRateLimiter "p" Second 10 10).keyPrefix
        ≠ (NewRedisRateLimiter "q" Second 10 10).keyPrefix
      ∧ Example.tenantP.1 = .ret true none
      ∧ Example.tenantP.2.1.buckets "u1" = some ⟨"p:u1", 0⟩
      ∧ Example.tenantP.2.2.db "u1:1" = some ⟨10, some 4⟩
      ∧ Example.tenantP.2.2.db "p:u1:1" = none
      ∧ Example.tenantQ.1 = .ret false none
      ∧ (Take (redisClient .reliable) (NewRedisRateLimiter "q" Second 10 10) "u1" 1
          Example.redis0).1 = .ret true none
      ∧ Take.journal (redisClient .reliable) (NewRedisRateLimiter "p" Second 10 10) "u1" 10
          Example.redis0
        = [Event.scriptExists SCRIPT_SHA1 (.ok false), Event.scriptLoad (.ok SCRIPT_SHA1),
            Event.evalSha SCRIPT_SHA1 ["u1"] [1, 10, 10] (.ok (.int 10))]
      ∧ Take.journal (redisClient .reliable) (NewRedisRateLimiter "q" Second 10 10) "u1" 1
          Example.tenantP.2.2
        = [Event.scriptExists SCRIPT_SHA1 (.ok true),
            Event.evalSha SCRIPT_SHA1 ["u1"] [1, 10, 10] (.ok (.int 0))] :=
  ⟨by decide, by decide, by decide, by decide, by decide, by decide, by decide, rfl, rfl⟩

/-! ## Windows of a whole run -/

/-- What holds all along a run of Coordinators with one configuration: the
configuration is kept and the remainders stay `int64`s, every key of the
store is the counter key of a token and of a window that has begun, and every
grant was logged in a window that has begun. -/
theorem runInv_step (d throughput batchSize : Int) (token : String) (hd : 1 ≤ d)
    (cl : Cluster) (st : Step)
    (hcfg : ∀ r ∈ cl.limiters, r.durationSecs = d ∧ r.throughput = throughput
      ∧ r.batchSize = batchSize ∧ -2 ^ 63 ≤ r.remaining token)
    (hkeys : ∀ key e, cl.redis.db key = some e →
      ∃ (tok : String) (w : Int), key = tok ++ ":" ++ toString w ∧ w ≤ ceilDiv cl.redis.time d)
    (hlog : ∀ g ∈ cl.granted, g.window ≤ ceilDiv cl.redis.time d) :
    (∀ r ∈ (cl.step st).limiters, r.durationSecs = d ∧ r.throughput = throughput
        ∧ r.batchSize = batchSize ∧ -2 ^ 63 ≤ r.remaining token)
      ∧ (∀ key e, (cl.step st).redis.db key = some e →
          ∃ (tok : String) (w : Int), key = tok ++ ":" ++ toString w
            ∧ w ≤ ceilDiv (cl.step st).redis.time d)
      ∧ (∀ g ∈ (cl.step st).granted, g.window ≤ ceilDiv (cl.step st).redis.time d) := by
  have hmono : ceilDiv cl.redis.time d ≤ ceilDiv (cl.step st).redis.time d :=
    ceilDiv_mono _ _ d hd (by exact_mod_cast step_time_le cl st)
  cases st with
  | tick seconds =>
    refine ⟨hcfg, ?_, ?_⟩
    · intro key e he
      obtain ⟨tok, w, hk, hw⟩ := hkeys key e he
      exact ⟨tok, w, hk, le_trans hw hmono⟩
    · intro g hg
      exact le_trans (hlog g hg) hmono
  | take i tok a net =>
    cases hget : cl.limiters.get? i with
    | none =>
      rw [step_take_none cl i tok a net hget]
      exact ⟨hcfg, hkeys, hlog⟩
    | some r =>
      rw [step_take_some cl i tok a net r hget] at hmono ⊢
      obtain ⟨hrd, hrt, hrb, hr0⟩ := hcfg r (List.get?_mem hget)
      obtain ⟨credit, flag, htime, hod, hot, hob, hbuckets, hacc, hdb⟩ :=
        Take_redis_effect net r tok a cl.redis
      have hwin : ceilDiv (Take (redisClient net) r tok a cl.redis).2.2.time d
          = ceilDiv cl.redis.time d := by rw [htime]
      refine ⟨?_, ?_, ?_⟩
      · intro x hx
        rcases List.mem_or_eq_of_mem_set hx with hmem | heq
        · exact hcfg x hmem
        · subst heq
          refine ⟨hod.trans hrd, hot.trans hrt, hob.trans hrb, ?_⟩
          by_cases htok : token = tok
          · subst htok
            exact (hacc hr0).1
          · rw [remaining_of_bucket _ _ token (hbuckets token htok)]
            exact hr0
      · intro key e he
        simp only at he ⊢
        rw [hwin]
        rcases hdb with ⟨-, hsame⟩ | ⟨-, hrun⟩
        · rw [hsame] at he
          exact hkeys key e he
        · rw [hrun, hrd] at he
          by_cases hkey : key = windowKey tok cl.redis.time d
          · exact ⟨tok, ceilDiv cl.redis.time d, hkey, le_refl _⟩
          · rw [(SCRIPT_frame tok d r.throughput r.batchSize
              { cl.redis with scriptLoaded := flag }).2.2.2 key hkey] at he
            exact hkeys key e he
      · intro g hg
        simp only at hg ⊢
        rw [hwin]
        split at hg
        · rcases List.mem_append.mp hg with hold | hnew
          · exact hlog g hold
          · simp only [List.mem_singleton] at hnew
            subst hnew
            simp only [hrd]
            exact le_refl _
        · exact hlog g hg

/-- The invariant of `runInv_step` along a run. -/
theorem runInv_run (d throughput batchSize : Int) (token : String) (hd : 1 ≤ d)
    (steps : List Step) :
    ∀ cl : Cluster,
      (∀ r ∈ cl.limiters, r.durationSecs = d ∧ r.throughput = throughput
        ∧ r.batchSize = batchSize ∧ -2 ^ 63 ≤ r.remaining token) →
      (∀ key e, cl.redis.db key = some e →
        ∃ (tok : String) (w : Int), key = tok ++ ":" ++ toString w
          ∧ w ≤ ceilDiv cl.redis.time d) →
      (∀ g ∈ cl.granted, g.window ≤ ceilDiv cl.redis.time d) →
      (∀ r ∈ (cl.run steps).limiters, r.durationSecs = d ∧ r.throughput = throughput
          ∧ r.batchSize = batchSize ∧ -2 ^ 63 ≤ r.remaining token)
        ∧ (∀ key e, (cl.run steps).redis.db key = some e →
            ∃ (tok : String) (w : Int), key = tok ++ ":" ++ toString w
              ∧ w ≤ ceilDiv (cl.run steps).redis.time d)
        ∧ (∀ g ∈ (cl.run steps).granted, g.window ≤ ceilDiv (cl.run steps).redis.time d) := by
  induction steps with
  | nil => intro cl h1 h2 h3; exact ⟨h1, h2, h3⟩
  | cons st rest ih =>
    intro cl h1 h2 h3
    obtain ⟨k1, k2, k3⟩ := runInv_step d throughput batchSize token hd cl st h1 h2 h3
    exact ih (cl.step st) k1 k2 k3

/-- Nothing was granted yet in a window that none of the logged grants
belongs to. -/
theorem grantedIn_of_earlier (w bound : Int) (token : String) (log : List Grant)
    (hlog : ∀ g ∈ log, g.window ≤ bound) (hw : bound < w) : grantedIn w token log = 0 := by
  unfold grantedIn
  have : log.filter (fun g => decide (g.window = w ∧ g.token = token)) = [] := by
    rw [List.filter_eq_nil_iff]
    intro g hg
    have := hlog g hg
    simp only [decide_eq_true_eq, not_and]
    intro hgw
    omega
  rw [this]
  rfl

/-- Every window of every run.  From an empty store and freshly constructed
Coordinators with one duration, throughput between 0 and `2 ^ 53` and batch
size, run any
steps, let the clock then tick into a later window `w`, and run any steps
that stay inside `w`: the amounts granted for a token during `w` sum to at
most throughput plus the permits the Local Buckets held for the token when
the window began. -/
theorem run_window_cap (t0 : Nat) (prefixes : List String) (duration throughput batchSize : Int)
    (token : String) (before : List Step) (seconds : Nat) (during : List Step)
    (hth : 0 ≤ throughput) (ht53 : throughput ≤ 2 ^ 53)
    (henter : ceilDiv ((Cluster.fresh t0 prefixes duration throughput batchSize).run
          before).redis.time (NewRedisRateLimiter "" duration throughput batchSize).durationSecs
      < ceilDiv ((((Cluster.fresh t0 prefixes duration throughput batchSize).run before).step
          (.tick seconds)).redis.time)
          (NewRedisRateLimiter "" duration throughput batchSize).durationSecs)
    (hstay : ceilDiv (((((Cluster.fresh t0 prefixes duration throughput batchSize).run
          before).step (.tick seconds)).run during).redis.time)
          (NewRedisRateLimiter "" duration throughput batchSize).durationSecs
      = ceilDiv ((((Cluster.fresh t0 prefixes duration throughput batchSize).run before).step
          (.tick seconds)).redis.time)
          (NewRedisRateLimiter "" duration throughput batchSize).durationSecs) :
    grantedIn
        (ceilDiv ((((Cluster.fresh t0 prefixes duration throughput batchSize).run before).step
          (.tick seconds)).redis.time)
          (NewRedisRateLimiter "" duration throughput batchSize).durationSecs)
        token
        ((((Cluster.fresh t0 prefixes duration throughput batchSize).run before).step
          (.tick seconds)).run during).granted
      ≤ throughput
        + cached token ((Cluster.fresh t0 prefixes duration throughput batchSize).run
            before).limiters := by
  have hd := NewRedisRateLimiter_duration "" duration throughput batchSize
  generalize hdd : (NewRedisRateLimiter "" duration throughput batchSize).durationSecs = d
    at henter hstay hd ⊢
  have hlim : ∀ r ∈ (Cluster.fresh t0 prefixes duration throughput batchSize).limiters,
      r.durationSecs = d ∧ r.throughput = throughput ∧ r.batchSize = batchSize
        ∧ -2 ^ 63 ≤ r.remaining token := by
    intro r hr
    simp only [Cluster.fresh, List.mem_map] at hr
    obtain ⟨p, _, rfl⟩ := hr
    refine ⟨?_, rfl, rfl, ?_⟩
    · rw [← hdd]; rfl
    · simp [NewRedisRateLimiter, RedisRateLimiter.remaining]
  obtain ⟨k1, k2, k3⟩ := runInv_run d throughput batchSize token hd before
    (Cluster.fresh t0 prefixes duration throughput batchSize) hlim
    (by intro key e he; simp [Cluster.fresh] at he)
    (by intro g hg; simp [Cluster.fresh] at hg)
  generalize (Cluster.fresh t0 prefixes duration throughput batchSize).run before = cl1
    at henter hstay k1 k2 k3 ⊢
  generalize hw : ceilDiv ((cl1.step (.tick seconds)).redis.time) d = w at henter hstay ⊢
  have habsent : (cl1.step (.tick seconds)).redis.db (token ++ ":" ++ toString w) = none := by
    cases hdb : (cl1.step (.tick seconds)).redis.db (token ++ ":" ++ toString w) with
    | none => rfl
    | some e =>
      exfalso
      have hdb1 : cl1.redis.db (token ++ ":" ++ toString w) = some e := hdb
      obtain ⟨tok, w1, hk, hw1⟩ := k2 _ e hdb1
      have := (key_injective token tok w w1 hk).2
      omega
  have hzero : grantedIn w token (cl1.step (.tick seconds)).granted = 0 :=
    grantedIn_of_earlier w _ token _ k3 henter
  have hinit : windowInv d throughput batchSize w token (cached token cl1.limiters)
      (cl1.step (.tick seconds)) :=
    windowInv_start d throughput batchSize w token (cl1.step (.tick seconds)) hth k1 habsent
      hzero
  exact windowInv_bound d throughput batchSize w token _ _ hth
    (windowInv_run d throughput batchSize w token (cached token cl1.limiters) hd hth ht53
      during (cl1.step (.tick seconds)) hw hstay hinit)

/-- The bound of `run_window_cap` is met: two fresh Coordinators, throughput
10 and batch size 10.  Coordinator 0 takes 1 in window 1 and keeps 9; the
clock ticks into window 2, where the 9 are spent and Coordinator 1 takes 10:
19 granted, which is the throughput plus the 9 carried over. -/
theorem run_window_cap_example :
    cached "u1" ((Cluster.fresh 1 ["p", "q"] Second 10 10).run
        [.take 0 "u1" 1 .reliable]).limiters = 9
      ∧ grantedIn 2 "u1"
          ((((Cluster.fresh 1 ["p", "q"] Second 10 10).run [.take 0 "u1" 1 .reliable]).step
            (.tick 1)).run [.take 0 "u1" 9 .reliable, .take 1 "u1" 10 .reliable]).granted = 19
      ∧ grantedIn 2 "u1"
          ((((Cluster.fresh 1 ["p", "q"] Second 10 10).run [.take 0 "u1" 1 .reliable]).step
            (.tick 1)).run [.take 0 "u1" 9 .reliable, .take 1 "u1" 10 .reliable]).granted
        ≤ 10 + cached "u1" ((Cluster.fresh 1 ["p", "q"] Second 10 10).run
            [.take 0 "u1" 1 .reliable]).limiters :=
  ⟨by decide, by decide,
    run_window_cap 1 ["p", "q"] Second 10 10 "u1" [.take 0 "u1" 1 .reliable] 1
      [.take 0 "u1" 9 .reliable, .take 1 "u1" 10 .reliable] (by decide) (by decide) (by decide)
      (by decide)⟩

end Ratelimit
